import Mathlib

/-!
A shallow embedding of the XLA GPU pass `AllReduceScatterCreator`
(`tensorflow/compiler/xla/service/gpu/gpu_all_reduce_scatter_creator.cc`).

The pass recognizes the idiom "all-reduce followed by each participant
dynamically slicing out its own shard" and rewrites it into a single
reduce-scatter instruction.

The embedding models:
  * the HLO data the pass touches: instructions (opcode, shape dimension
    sizes, operand references by uid, collective attributes), computations
    (an ordered instruction list plus a root), and modules (computations
    plus the replica/partition configuration);
  * the graph operations the pass invokes (instruction construction,
    use replacement, removal with dead-operand pruning, next-channel-id
    query);
  * the pattern matcher / shard-offset analyzer `MatchAllReduceScatter`,
    which lives outside this repository's sources and is therefore
    modelled from the specification;
  * the pass driver `AllReduceScatterCreatorRun`, translated line by line
    from `AllReduceScatterCreator::Run`.

Machine integers: HLO channel ids and uids are small non-negative int64
values, modelled as `Nat`; scalar offset values are signed (s32/u32 in the
source graphs) and modelled as `Int`.  The offset subgraphs the analyzer
accepts compute values bounded by the array dimension sizes, far below the
32-bit overflow boundary, so wrap-around is not modelled.
-/

/-- HLO opcodes relevant to the pass.  All other opcodes behave uniformly
here and are collapsed into `kOther`. -/
inductive HloOpcode where
  | kAllReduce
  | kAllReduceScatter
  | kDynamicSlice
  | kReshape
  | kParameter
  | kConstant
  | kIota
  | kMultiply
  | kAdd
  | kConvert
  | kReplicaId
  | kPartitionId
  | kOther
deriving DecidableEq, Repr

/-- An HLO instruction: a uid (stable handle), opcode, operand references
(uids), output shape dimension sizes, and the attribute fields read or
written by the pass.  `constVals` holds the flattened contents of constant
instructions; `dynamicSliceSizes` the per-dimension slice sizes of a
dynamic-slice.  The collective attributes (`replicaGroups`, `toApply`,
`constrainLayout`, `channelId`, `useGlobalDeviceIds`, `scatterDimension`)
are meaningful for all-reduce / all-reduce-scatter instructions. -/
structure HloInstruction where
  uid : Nat
  opcode : HloOpcode
  operands : List Nat
  dims : List Nat
  constVals : List Int
  dynamicSliceSizes : List Nat
  replicaGroups : List (List Nat)
  toApply : Nat
  constrainLayout : Bool
  channelId : Option Nat
  useGlobalDeviceIds : Bool
  scatterDimension : Nat
deriving DecidableEq, Repr

/-- A computation: an ordered, exclusively owning list of instructions plus
a designated root.  The stored order lists operands before their users
(standard HLO def-before-use order), so it is itself a valid post-order. -/
structure HloComputation where
  instructions : List HloInstruction
  isFusion : Bool
  rootId : Nat
deriving DecidableEq, Repr

/-- A module: computations plus the static device-mesh configuration and
the uid counter used to mint fresh instruction handles. -/
structure HloModule where
  computations : List HloComputation
  numPartitions : Nat
  replicaCount : Nat
  nextUid : Nat
deriving DecidableEq, Repr

/-- Look an instruction up by uid. -/
def lookupInstr (c : HloComputation) (uid : Nat) : Option HloInstruction :=
  c.instructions.find? (fun i => i.uid = uid)

/-- The users of the instruction with the given uid: all instructions that
reference it as an operand. -/
def usersOf (c : HloComputation) (uid : Nat) : List HloInstruction :=
  c.instructions.filter (fun i => uid ∈ i.operands)

/-- `HloComputation::AddInstruction`: append a newly built instruction. -/
def addInstruction (c : HloComputation) (i : HloInstruction) : HloComputation :=
  { c with instructions := c.instructions ++ [i] }

/-- `HloComputation::RemoveInstruction`: drop the instruction with the
given uid from the computation. -/
def removeInstr (c : HloComputation) (uid : Nat) : HloComputation :=
  { c with instructions := c.instructions.filter (fun i => ¬ i.uid = uid) }

/-- `HloInstruction::ReplaceAllUsesWith`: every operand slot referencing
`old` is redirected to `new`; if `old` was the computation root, the root
moves to `new` (as the real `ReplaceAllUsesWith` does for roots). -/
def replaceAllUsesWith (c : HloComputation) (old new : Nat) : HloComputation :=
  { instructions := c.instructions.map (fun i =>
      { i with operands := i.operands.map (fun o => if o = old then new else o) }),
    isFusion := c.isFusion,
    rootId := if c.rootId = old then new else c.rootId }

/-- Fuel bound for the dead-operand pruning worklist: each step either
consumes a worklist entry or removes an instruction and enqueues its
operands, so one unit per instruction plus one per operand edge suffices. -/
def removalFuel (c : HloComputation) : Nat :=
  c.instructions.foldl (fun a i => a + 1 + i.operands.length) 1

/-- Worklist pruning of dead operands: an instruction on the worklist is
removed when it has no remaining users, is not the root, and is not a
parameter; its operands are then enqueued in turn. -/
def removeUnused (c : HloComputation) : Nat → List Nat → HloComputation
  | 0, _ => c
  | _, [] => c
  | fuel + 1, uid :: rest =>
    match lookupInstr c uid with
    | none => removeUnused c fuel rest
    | some i =>
      if usersOf c uid = [] ∧ ¬ c.rootId = uid ∧ ¬ i.opcode = HloOpcode.kParameter then
        removeUnused (removeInstr c uid) fuel (i.operands ++ rest)
      else
        removeUnused c fuel rest

/-- `HloComputation::RemoveInstructionAndUnusedOperands`: remove the
instruction, then prune operand subgraphs left without consumers. -/
def removeInstructionAndUnusedOperands (c : HloComputation) (i : HloInstruction) :
    HloComputation :=
  removeUnused (removeInstr c i.uid) (removalFuel c) i.operands

/-- `hlo_query::NextChannelId`: one more than the largest channel id in use
anywhere in the module (and at least 1). -/
def NextChannelId (m : HloModule) : Nat :=
  m.computations.foldl
    (fun a c => c.instructions.foldl
      (fun b i => match i.channelId with
        | some ch => max b (ch + 1)
        | none => b) a)
    1

/-- All instructions of all computations of a module, in order. -/
def moduleInstructions (m : HloModule) : List HloInstruction :=
  m.computations.foldr (fun c a => c.instructions ++ a) []

/-! ## Scalar offset evaluation

The shard-offset analyzer must decide how the small scalar subgraph feeding
a dynamic-slice start index evaluates for each device.  `evalScalar`
interprets that subgraph at a concrete `(replicaId, partitionId)` pair.
Table lookups are size-1 dynamic slices over 1-D constant or iota arrays;
start indices clamp into range exactly as HLO dynamic-slice does. -/

/-- Contents of a 1-D table instruction (constant array or iota). -/
def tableVals (t : HloInstruction) : Option (List Int) :=
  match t.opcode, t.dims with
  | HloOpcode.kConstant, [n] =>
    if t.constVals.length = n then some t.constVals else none
  | HloOpcode.kIota, [n] => some ((List.range n).map Int.ofNat)
  | _, _ => none

/-- HLO dynamic-slice start-index clamping for a length-`n` dimension with
slice size 1: the index is forced into `[0, n-1]`. -/
def clampTableIndex (iv : Int) (n : Nat) : Nat :=
  (max 0 (min iv (Int.ofNat (n - 1)))).toNat

/-- Evaluate the scalar subgraph rooted at `uid` at device
`(rid, pid)`.  Fuel-bounded recursion over the operand graph; `none` on
unrecognized shapes or exhausted fuel (a clean non-match). -/
def evalScalar (c : HloComputation) : Nat → Nat → Nat → Nat → Option Int
  | 0, _, _, _ => none
  | fuel + 1, uid, rid, pid =>
    match lookupInstr c uid with
    | none => none
    | some i =>
      match i.opcode, i.operands with
      | HloOpcode.kReplicaId, _ => some (Int.ofNat rid)
      | HloOpcode.kPartitionId, _ => some (Int.ofNat pid)
      | HloOpcode.kConstant, _ =>
        match i.dims, i.constVals with
        | [], [v] => some v
        | _, _ => none
      | HloOpcode.kConvert, [a] => evalScalar c fuel a rid pid
      | HloOpcode.kReshape, [a] => evalScalar c fuel a rid pid
      | HloOpcode.kMultiply, [a, b] =>
        match evalScalar c fuel a rid pid, evalScalar c fuel b rid pid with
        | some x, some y => some (x * y)
        | _, _ => none
      | HloOpcode.kAdd, [a, b] =>
        match evalScalar c fuel a rid pid, evalScalar c fuel b rid pid with
        | some x, some y => some (x + y)
        | _, _ => none
      | HloOpcode.kDynamicSlice, [t, ix] =>
        if i.dynamicSliceSizes = [1] then
          match lookupInstr c t with
          | none => none
          | some ti =>
            match tableVals ti with
            | none => none
            | some vals =>
              match evalScalar c fuel ix rid pid with
              | none => none
              | some iv =>
                if vals.length = 0 then none
                else vals.get? (clampTableIndex iv vals.length)
        else none
      | _, _ => none

/-! ## Group / index model

Modelled from the spec: replica-group membership and rank semantics
(spec section 4.1 and the data model in section 3).  A participant's rank
is literally its index within its group's listed order; the lookup fails
when the participant appears in zero or more than one group. -/

/-- Modelled from the spec: `rankOf(deviceId, groups)` scans each group's
listed member order for the device key; the rank is the index of the key
inside its unique group, and the lookup fails if the key appears in zero
or more than one group. -/
def rankOf (groups : List (List Nat)) (key : Nat) : Option Nat :=
  if (groups.filter (fun g => key ∈ g)).length = 1 then
    match groups.find? (fun g => decide (key ∈ g)) with
    | some g => some (g.indexOf key)
    | none => none
  else none

/-- Modelled from the spec: the device key a collective ranks by — the
combined global id `replicaId * partitionCount + partitionId` when
`use_global_device_ids` is set, the replica id otherwise. -/
def deviceKey (useGlobal : Bool) (P rid pid : Nat) : Nat :=
  if useGlobal then rid * P + pid else rid

/-- Modelled from the spec: an empty group list means one implicit group
containing every participant, in canonical order. -/
def effectiveGroups (useGlobal : Bool) (R P : Nat) (groups : List (List Nat)) :
    List (List Nat) :=
  if groups = [] then
    [List.range (if useGlobal then R * P else R)]
  else groups

/-- All legal device ids of an `R`-replica, `P`-partition mesh. -/
def legalDevices (R P : Nat) : List (Nat × Nat) :=
  (List.range R).flatMap (fun r => (List.range P).map (fun p => (r, p)))

/-- Modelled from the spec: the shard-offset analyzer's contract (spec
section 4.2) — given the reduction's groups and flags and the scalar
subgraph feeding the split dimension's slice start offset, decide whether
that subgraph evaluates, for every legal device id, to
`rankOf(deviceId) * shardSize`.  The recognizer in
`all_reduce_scatter_utils.cc` is not part of this repository's sources, so
it is modelled by its contract, checked exhaustively over the finite set
of legal devices. -/
def analyzerOk (c : HloComputation) (offsetUid : Nat) (useGlobal : Bool)
    (R P : Nat) (groups : List (List Nat)) (shardSize : Nat) : Bool :=
  (legalDevices R P).all (fun d =>
    match rankOf groups (deviceKey useGlobal P d.1 d.2),
          evalScalar c c.instructions.length offsetUid d.1 d.2 with
    | some rk, some off => off = Int.ofNat (rk * shardSize)
    | _, _ => false)

/-! ## Pattern matcher

`MatchAllReduceScatter` (in `all_reduce_scatter_utils.cc`) is not part of
this repository's sources; it is modelled from the specification
(sections 4.2 and 4.3): find the unique dynamic-slice consumer, directly or
through exactly one reshape that leaves the split dimension's boundary
semantics intact, determine the unique split dimension, require the slice
size to evenly divide the reduction's size there, and hand the offset
subgraph to the analyzer. -/

/-- The match result handed to the rewriter, mirroring the fields of the
source's `ReduceScatterSpec` that `AllReduceScatterCreator::Run` reads:
`split_dim`, `group_size`, `dynamic_slice`. -/
structure ReduceScatterSpec where
  splitDim : Nat
  groupSize : Nat
  dynamicSlice : HloInstruction
deriving DecidableEq, Repr

/-- Internal, richer match result: additionally records the slice-side
split dimension, the dimensions of the sliced operand, the offset operand
uid, and whether a reshape intervened. -/
structure FullSpec where
  splitDim : Nat
  groupSize : Nat
  ds : HloInstruction
  srcDims : List Nat
  sliceDim : Nat
  offsetUid : Nat
  viaReshape : Bool
deriving DecidableEq, Repr

/-- Project the internal match result onto the source's spec struct. -/
def FullSpec.toSpec (f : FullSpec) : ReduceScatterSpec :=
  ⟨f.splitDim, f.groupSize, f.ds⟩

/-- The dimensions at which two shapes differ. -/
def diffDims (a b : List Nat) : List Nat :=
  (List.range a.length).filter (fun k => ¬ a.getD k 0 = b.getD k 0)

/-- Product of the dimension sizes strictly before index `k`. -/
def prefixProd (l : List Nat) (k : Nat) : Nat := (l.take k).prod

/-- Product of the dimension sizes from index `k` on. -/
def suffixProd (l : List Nat) (k : Nat) : Nat := (l.drop k).prod

/-- Modelled from the spec: a reshape between the reduction and the slice
must leave the split dimension's boundary semantics intact.  In row-major
flattening this means some reduction dimension `j` has the same size as
slice dimension `k` of the reshaped operand, the same product of sizes
before it, and the same product of sizes after it. -/
def mapSplitDim (arDims srcDims : List Nat) (k : Nat) : Option Nat :=
  (List.range arDims.length).find? (fun j =>
    arDims.getD j 0 = srcDims.getD k 0 ∧
    prefixProd arDims j = prefixProd srcDims k ∧
    suffixProd arDims (j + 1) = suffixProd srcDims (k + 1))

/-- Modelled from the spec: locate the unique dynamic-slice consumer of the
reduction, reached either directly or through exactly one intervening
reshape (which must itself have the slice as its unique user). -/
def findDsChain (c : HloComputation) (ar : HloInstruction) :
    Option (Option HloInstruction × HloInstruction) :=
  match usersOf c ar.uid with
  | [u] =>
    if u.opcode = HloOpcode.kDynamicSlice then some (none, u)
    else if u.opcode = HloOpcode.kReshape then
      match usersOf c u.uid with
      | [u2] =>
        if u2.opcode = HloOpcode.kDynamicSlice then some (some u, u2) else none
      | _ => none
    else none
  | _ => none

/-- Modelled from the spec: the full matcher.  On success it has proven
that the slice extracts, for every legal device id, exactly that device's
rank-indexed shard of the reduction result. -/
def matchFull (P R : Nat) (c : HloComputation) (ar : HloInstruction) :
    Option FullSpec :=
  match findDsChain c ar with
  | none => none
  | some (rsOpt, ds) =>
    let src := match rsOpt with
      | some rs => rs
      | none => ar
    let srcDims := src.dims
    if ¬ ds.operands.getD 0 (src.uid + 1) = src.uid then none
    else if ¬ ds.operands.length = srcDims.length + 1 then none
    else if ¬ srcDims.length = ds.dynamicSliceSizes.length then none
    else
      match diffDims srcDims ds.dynamicSliceSizes with
      | [k] =>
        let n := srcDims.getD k 0
        let s := ds.dynamicSliceSizes.getD k 0
        if s = 0 then none
        else if ¬ n % s = 0 then none
        else
          let G := n / s
          match rsOpt with
          | some rs =>
            if ¬ rs.operands.getD 0 (ar.uid + 1) = ar.uid then none
            else
              match mapSplitDim ar.dims srcDims k with
              | none => none
              | some j => matchTail P R c ar ds srcDims k j s G true
          | none => matchTail P R c ar ds srcDims k k s G false
      | _ => none
where
  /-- Common tail of the matcher: group-size agreement and the analyzer. -/
  matchTail (P R : Nat) (c : HloComputation) (ar ds : HloInstruction)
      (srcDims : List Nat) (k j s G : Nat) (via : Bool) : Option FullSpec :=
    let offUid := ds.operands.getD (k + 1) 0
    let groups := effectiveGroups ar.useGlobalDeviceIds R P ar.replicaGroups
    if ¬ groups.all (fun g => g.length = G) then none
    else if analyzerOk c offUid ar.useGlobalDeviceIds R P groups s then
      some ⟨j, G, ds, srcDims, k, offUid, via⟩
    else none

/-- The matcher as called by `AllReduceScatterCreator::Run`. -/
def MatchAllReduceScatter (P R : Nat) (c : HloComputation)
    (ar : HloInstruction) : Option ReduceScatterSpec :=
  (matchFull P R c ar).map FullSpec.toSpec

/-! ## The pass driver

`AllReduceScatterCreator::Run`, translated from
`gpu_all_reduce_scatter_creator.cc` lines 29–99.  For each non-fusion
computation it captures the instruction list (already a valid post-order),
and for each all-reduce in that snapshot matches and rewrites.  The state
threads the computation being mutated, the module-scoped `next_channel_id`
counter, the fresh-uid counter, and the `changed` flag. -/

/-- Mutable state of the pass while it sweeps one computation. -/
structure PassState where
  comp : HloComputation
  nextCh : Nat
  nextUid : Nat
  changed : Bool
deriving DecidableEq, Repr

/-- The new reduce-scatter instruction a rewrite constructs — the
`HloInstruction::CreateAllReduceScatter` call of the source: the
reduction's operands, reduction function, replica groups,
`constrain_layout` and `use_global_device_ids`, the freshly minted channel
id when the reduction carried one, the matched split dimension as
`scatterDimension`, and the reduction's shape with the split dimension
divided by the group size. -/
def newArs (st : PassState) (ar : HloInstruction)
    (spec : ReduceScatterSpec) : HloInstruction :=
  { uid := st.nextUid, opcode := HloOpcode.kAllReduceScatter,
    operands := ar.operands,
    dims := ar.dims.set spec.splitDim
      (ar.dims.getD spec.splitDim 0 / spec.groupSize),
    constVals := [], dynamicSliceSizes := [],
    replicaGroups := ar.replicaGroups, toApply := ar.toApply,
    constrainLayout := ar.constrainLayout,
    channelId := if ar.channelId.isSome then some st.nextCh else none,
    useGlobalDeviceIds := ar.useGlobalDeviceIds,
    scatterDimension := spec.splitDim }

/-- The re-synthesized reshape a rewrite constructs when the match
traversed an intervening reshape — the `HloInstruction::CreateReshape`
call of the source: the shape the original dynamic slice produced, atop
the new reduce-scatter. -/
def newReshape (st : PassState) (spec : ReduceScatterSpec) : HloInstruction :=
  { uid := st.nextUid + 1, opcode := HloOpcode.kReshape,
    operands := [st.nextUid], dims := spec.dynamicSlice.dims,
    constVals := [], dynamicSliceSizes := [], replicaGroups := [],
    toApply := 0, constrainLayout := false, channelId := none,
    useGlobalDeviceIds := false, scatterDimension := 0 }

/-- The body of the instruction loop of `AllReduceScatterCreator::Run`
for one snapshot entry: skip unless the instruction is still present and
is an all-reduce; try the matcher; on a match, check the divisibility
invariant (`TF_RET_CHECK`), build the reduce-scatter, re-synthesize the
reshape when one intervened, replace the slice's uses, and remove the
slice, the reshape, and the reduction with its unused operands. -/
def processInstr (P R : Nat) (st : PassState) (uid : Nat) :
    Except String PassState :=
  match lookupInstr st.comp uid with
  | none => Except.ok st
  | some ar =>
    if ¬ ar.opcode = HloOpcode.kAllReduce then Except.ok st
    else
      match MatchAllReduceScatter P R st.comp ar with
      | none => Except.ok st
      | some spec =>
        let ds := spec.dynamicSlice
        if ¬ ar.dims.getD spec.splitDim 0 % spec.groupSize = 0 then
          Except.error "TF_RET_CHECK scatter_shape.dimensions(split_dim) % group_size == 0"
        else
          let ars := newArs st ar spec
          let c1 := addInstruction st.comp ars
          let viaReshape := ¬ ds.operands.getD 0 ar.uid = ar.uid
          let rs := newReshape st spec
          let c2 := if viaReshape then addInstruction c1 rs else c1
          let result := if viaReshape then rs.uid else ars.uid
          let nextUid2 := if viaReshape then st.nextUid + 2 else st.nextUid + 1
          let c3 := replaceAllUsesWith c2 ds.uid result
          let c4 := removeInstr c3 ds.uid
          let c5 := if viaReshape then removeInstr c4 (ds.operands.getD 0 ar.uid)
            else c4
          let c6 := removeInstructionAndUnusedOperands c5 ar
          Except.ok ⟨c6,
            if ar.channelId.isSome then st.nextCh + 1 else st.nextCh,
            nextUid2, true⟩

/-- The state produced by one successful rewrite, mirroring the body of
`processInstr` after the match and the divisibility check have succeeded.
Stated as a definition so the theorems below can name the result. -/
def rewriteState (st : PassState) (ar : HloInstruction)
    (spec : ReduceScatterSpec) : PassState :=
  let ds := spec.dynamicSlice
  let ars := newArs st ar spec
  let c1 := addInstruction st.comp ars
  let viaReshape := ¬ ds.operands.getD 0 ar.uid = ar.uid
  let rs := newReshape st spec
  let c2 := if viaReshape then addInstruction c1 rs else c1
  let result := if viaReshape then rs.uid else ars.uid
  let nextUid2 := if viaReshape then st.nextUid + 2 else st.nextUid + 1
  let c3 := replaceAllUsesWith c2 ds.uid result
  let c4 := removeInstr c3 ds.uid
  let c5 := if viaReshape then removeInstr c4 (ds.operands.getD 0 ar.uid)
    else c4
  let c6 := removeInstructionAndUnusedOperands c5 ar
  ⟨c6, if ar.channelId.isSome then st.nextCh + 1 else st.nextCh,
    nextUid2, true⟩

/-- Run the loop body over the snapshot of instruction uids. -/
def processList (P R : Nat) (st : PassState) : List Nat → Except String PassState
  | [] => Except.ok st
  | u :: rest =>
    match processInstr P R st u with
    | Except.error e => Except.error e
    | Except.ok st1 => processList P R st1 rest

/-- Sweep one computation: snapshot its instruction list (a fixed
post-order captured before mutating), then apply the loop body to each
entry. -/
def runComputation (P R ch nu : Nat) (c : HloComputation) :
    Except String (HloComputation × Nat × Nat × Bool) :=
  match processList P R ⟨c, ch, nu, false⟩ (c.instructions.map (fun i => i.uid)) with
  | Except.error e => Except.error e
  | Except.ok st => Except.ok (st.comp, st.nextCh, st.nextUid, st.changed)

/-- Sweep the module's computations in order, skipping fusion computations
(`MakeNonfusionComputations`), threading the channel and uid counters. -/
def runComps (P R : Nat) :
    List HloComputation → Nat → Nat →
      Except String (List HloComputation × Nat × Nat × Bool)
  | [], ch, nu => Except.ok ([], ch, nu, false)
  | c :: cs, ch, nu =>
    if c.isFusion then
      match runComps P R cs ch nu with
      | Except.error e => Except.error e
      | Except.ok (cs2, ch2, nu2, chg) => Except.ok (c :: cs2, ch2, nu2, chg)
    else
      match runComputation P R ch nu c with
      | Except.error e => Except.error e
      | Except.ok (c2, ch1, nu1, chg1) =>
        match runComps P R cs ch1 nu1 with
        | Except.error e => Except.error e
        | Except.ok (cs2, ch2, nu2, chg2) =>
          Except.ok (c2 :: cs2, ch2, nu2, chg1 || chg2)

/-- `AllReduceScatterCreator::Run`: the pass entry point.  Seeds the
channel-id counter from `hlo_query::NextChannelId`, sweeps every
non-fusion computation, and reports whether anything changed. -/
def AllReduceScatterCreatorRun (m : HloModule) :
    Except String (HloModule × Bool) :=
  match runComps m.numPartitions m.replicaCount m.computations
      (NextChannelId m) m.nextUid with
  | Except.error e => Except.error e
  | Except.ok (cs, _, nu, chg) =>
    Except.ok ({ m with computations := cs, nextUid := nu }, chg)

/-! ## Array semantics along the split dimension

Modelled from the spec (glossary and section 8, Soundness): semantics of
dynamic-slice and reduce-scatter on the reduced array.  Arrays are viewed
in row-major flattened form; a slice along one dimension of a shape
`[d0, …, d(k-1), n, d(k+1), …]` is described by the element count `inner`
of the dimensions after the split dimension and the split size `n`
(dimensions before it act blockwise and need no parameter).  Non-split
dimensions of a matched slice have slice size equal to the full dimension
size, so their start indices clamp to zero and drop out. -/

/-- HLO dynamic-slice start clamping: the runtime start offset is forced
into `[0, n - s]`. -/
def clampSliceStart (off : Int) (n s : Nat) : Nat :=
  (max 0 (min off (Int.ofNat (n - s)))).toNat

/-- The flattened result of dynamically slicing `s` of `n` rows starting at
(clamped) offset `off`, where each row holds `inner` elements: element
`idx` of the result comes from the input at the same block, shifted by the
start row. -/
def dynamicSliceAlongDim {α : Type} (v : Nat → α) (n inner : Nat) (off : Int)
    (s : Nat) : Nat → α :=
  fun idx =>
    v (idx / (s * inner) * (n * inner) + clampSliceStart off n s * inner +
        idx % (s * inner))

/-- Modelled from the spec: the flattened shard that a reduce-scatter over
`G` participants delivers to the participant of rank `r` — rows
`[r*(n/G), (r+1)*(n/G))` of the reduced array. -/
def reduceScatterShardAlongDim {α : Type} (v : Nat → α) (n inner r G : Nat) :
    Nat → α :=
  fun idx =>
    v (idx / (n / G * inner) * (n * inner) + r * (n / G) * inner +
        idx % (n / G * inner))

/-! ## Concrete modules

Instruction graphs mirroring the HLO text of
`gpu_all_reduce_scatter_creator_test.cc`, used to instantiate the
theorems below on concrete inputs. -/

/-- Build an instruction with the given uid, opcode, operands and shape;
all attribute fields defaulted. -/
def mkInstr (uid : Nat) (op : HloOpcode) (ops : List Nat) (dims : List Nat) :
    HloInstruction :=
  { uid := uid, opcode := op, operands := ops, dims := dims, constVals := [],
    dynamicSliceSizes := [], replicaGroups := [], toApply := 0,
    constrainLayout := false, channelId := none, useGlobalDeviceIds := false,
    scatterDimension := 0 }

/-- The `AllReplicas` test graph: 8 replicas, shape `[32,8,128]`, offset
`table[replica-id] * 4` along dimension 0. -/
def compAllReplicas : HloComputation :=
  { instructions :=
      [ mkInstr 0 HloOpcode.kParameter [] [32, 8, 128],
        mkInstr 1 HloOpcode.kAllReduce [0] [32, 8, 128],
        { mkInstr 2 HloOpcode.kConstant [] [8] with
            constVals := [0, 1, 2, 3, 4, 5, 6, 7] },
        mkInstr 3 HloOpcode.kReplicaId [] [],
        { mkInstr 4 HloOpcode.kDynamicSlice [2, 3] [1] with
            dynamicSliceSizes := [1] },
        mkInstr 5 HloOpcode.kReshape [4] [],
        { mkInstr 6 HloOpcode.kConstant [] [] with constVals := [4] },
        mkInstr 7 HloOpcode.kMultiply [5, 6] [],
        { mkInstr 8 HloOpcode.kConstant [] [] with constVals := [0] },
        { mkInstr 9 HloOpcode.kDynamicSlice [1, 7, 8, 8] [4, 8, 128] with
            dynamicSliceSizes := [4, 8, 128] } ],
    isFusion := false, rootId := 9 }

/-- The `AllReplicas` test module (8 replicas, 1 partition). -/
def mAllReplicas : HloModule :=
  { computations := [compAllReplicas], numPartitions := 1, replicaCount := 8,
    nextUid := 10 }

/-- The `AllReplicasWithReshape` test graph: a reshape `[32,8,128] →
[32,16,64]` sits between the all-reduce and the slice. -/
def compWithReshape : HloComputation :=
  { instructions :=
      [ mkInstr 0 HloOpcode.kParameter [] [32, 8, 128],
        mkInstr 1 HloOpcode.kAllReduce [0] [32, 8, 128],
        { mkInstr 2 HloOpcode.kConstant [] [8] with
            constVals := [0, 1, 2, 3, 4, 5, 6, 7] },
        mkInstr 3 HloOpcode.kReplicaId [] [],
        { mkInstr 4 HloOpcode.kDynamicSlice [2, 3] [1] with
            dynamicSliceSizes := [1] },
        mkInstr 5 HloOpcode.kReshape [4] [],
        { mkInstr 6 HloOpcode.kConstant [] [] with constVals := [4] },
        mkInstr 7 HloOpcode.kMultiply [5, 6] [],
        { mkInstr 8 HloOpcode.kConstant [] [] with constVals := [0] },
        mkInstr 9 HloOpcode.kReshape [1] [32, 16, 64],
        { mkInstr 10 HloOpcode.kDynamicSlice [9, 7, 8, 8] [4, 16, 64] with
            dynamicSliceSizes := [4, 16, 64] } ],
    isFusion := false, rootId := 10 }

/-- The `AllReplicasWithReshape` test module. -/
def mWithReshape : HloModule :=
  { computations := [compWithReshape], numPartitions := 1, replicaCount := 8,
    nextUid := 11 }

/-- The `AllReplicasWrongOffsets` test graph: the offset table is
`{0,1,2,3,4,5,6,8}` — entry 8 is wrong for 8 participants. -/
def compWrongOffsets : HloComputation :=
  { instructions :=
      [ mkInstr 0 HloOpcode.kParameter [] [32, 8, 128],
        mkInstr 1 HloOpcode.kAllReduce [0] [32, 8, 128],
        { mkInstr 2 HloOpcode.kConstant [] [8] with
            constVals := [0, 1, 2, 3, 4, 5, 6, 8] },
        mkInstr 3 HloOpcode.kReplicaId [] [],
        { mkInstr 4 HloOpcode.kDynamicSlice [2, 3] [1] with
            dynamicSliceSizes := [1] },
        mkInstr 5 HloOpcode.kReshape [4] [],
        { mkInstr 6 HloOpcode.kConstant [] [] with constVals := [4] },
        mkInstr 7 HloOpcode.kMultiply [5, 6] [],
        { mkInstr 8 HloOpcode.kConstant [] [] with constVals := [0] },
        { mkInstr 9 HloOpcode.kDynamicSlice [1, 7, 8, 8] [4, 8, 128] with
            dynamicSliceSizes := [4, 8, 128] } ],
    isFusion := false, rootId := 9 }

/-- The `AllReplicasWrongOffsets` test module. -/
def mWrongOffsets : HloModule :=
  { computations := [compWrongOffsets], numPartitions := 1, replicaCount := 8,
    nextUid := 10 }

/-- The `AllReplicas` graph with `channel_id=1` on the all-reduce, to
exercise channel-id minting. -/
def compChan : HloComputation :=
  { compAllReplicas with
    instructions := compAllReplicas.instructions.map
      (fun i => if i.uid = 1 then { i with channelId := some 1 } else i) }

/-- Channel-carrying variant of the `AllReplicas` module. -/
def mChan : HloModule :=
  { computations := [compChan], numPartitions := 1, replicaCount := 8,
    nextUid := 10 }

/-- A module containing no all-reduce at all. -/
def mNoAllReduce : HloModule :=
  { computations :=
      [ { instructions := [mkInstr 0 HloOpcode.kParameter [] [32]],
          isFusion := false, rootId := 0 } ],
    numPartitions := 1, replicaCount := 8, nextUid := 1 }

/-- Decidable check that no non-fusion computation of the module contains
an all-reduce instruction. -/
def hasNoAllReduce (m : HloModule) : Bool :=
  m.computations.all (fun c =>
    c.isFusion || c.instructions.all
      (fun i => decide (¬ i.opcode = HloOpcode.kAllReduce)))

/-- The `AllReplicas` module after one pass run: the all-reduce and the
slice are gone, the reduce-scatter uid 10 is the new root, and the dead
offset subgraph remains (the source removes only the slice chain and the
reduction; later dead-code elimination is a separate pass). -/
def mAllReplicasOnce : HloModule :=
  { computations :=
      [ { instructions :=
            [ mkInstr 0 HloOpcode.kParameter [] [32, 8, 128],
              { mkInstr 2 HloOpcode.kConstant [] [8] with
                  constVals := [0, 1, 2, 3, 4, 5, 6, 7] },
              mkInstr 3 HloOpcode.kReplicaId [] [],
              { mkInstr 4 HloOpcode.kDynamicSlice [2, 3] [1] with
                  dynamicSliceSizes := [1] },
              mkInstr 5 HloOpcode.kReshape [4] [],
              { mkInstr 6 HloOpcode.kConstant [] [] with constVals := [4] },
              mkInstr 7 HloOpcode.kMultiply [5, 6] [],
              { mkInstr 8 HloOpcode.kConstant [] [] with constVals := [0] },
              mkInstr 10 HloOpcode.kAllReduceScatter [0] [4, 8, 128] ],
          isFusion := false, rootId := 10 } ],
    numPartitions := 1, replicaCount := 8, nextUid := 11 }

/-- The channel-carrying module `mChan` after one pass run: the new
reduce-scatter carries the freshly minted channel id 2 (the module's
previous maximum was 1). -/
def mChanOut : HloModule :=
  { computations :=
      [ { instructions :=
            [ mkInstr 0 HloOpcode.kParameter [] [32, 8, 128],
              { mkInstr 2 HloOpcode.kConstant [] [8] with
                  constVals := [0, 1, 2, 3, 4, 5, 6, 7] },
              mkInstr 3 HloOpcode.kReplicaId [] [],
              { mkInstr 4 HloOpcode.kDynamicSlice [2, 3] [1] with
                  dynamicSliceSizes := [1] },
              mkInstr 5 HloOpcode.kReshape [4] [],
              { mkInstr 6 HloOpcode.kConstant [] [] with constVals := [4] },
              mkInstr 7 HloOpcode.kMultiply [5, 6] [],
              { mkInstr 8 HloOpcode.kConstant [] [] with constVals := [0] },
              { mkInstr 10 HloOpcode.kAllReduceScatter [0] [4, 8, 128] with
                  channelId := some 2 } ],
          isFusion := false, rootId := 10 } ],
    numPartitions := 1, replicaCount := 8, nextUid := 11 }

/-- All instructions of a list of computations, in order. -/
def instrsOf (cs : List HloComputation) : List HloInstruction :=
  cs.foldr (fun c a => c.instructions ++ a) []

/-- Invariant tracked through a pass run for channel-id freshness:
`U` is the uid frontier (instructions with uid at least `U` are ones the
pass created), `C0` the seed of the channel counter.  All uids stay below
the uid counter; every pass-created instruction carrying a channel id got
it from the counter's range `[C0, ch)`; and pass-created instructions
carry pairwise distinct channel ids. -/
def ChanInv (U C0 : Nat) (is : List HloInstruction) (ch nu : Nat) : Prop :=
  C0 ≤ ch ∧ U ≤ nu ∧
  (∀ i ∈ is, i.uid < nu) ∧
  (∀ i ∈ is, U ≤ i.uid → ∀ c, i.channelId = some c → C0 ≤ c ∧ c < ch) ∧
  (∀ i ∈ is, ∀ j ∈ is, U ≤ i.uid → U ≤ j.uid → ¬ i.uid = j.uid →
    ∀ ci cj, i.channelId = some ci → j.channelId = some cj → ¬ ci = cj)

/-! ## Wellformedness

The HLO graphs the pass receives satisfy def-before-use: an instruction's
operands are instructions with strictly smaller uids, and every uid is
below the module's fresh-uid counter.  The theorems below take this as a
decidable hypothesis. -/

/-- Decidable wellformedness of one computation against a uid bound. -/
def compWF (c : HloComputation) (bound : Nat) : Bool :=
  c.instructions.all (fun i =>
    decide (i.uid < bound) && i.operands.all (fun o => decide (o < i.uid)))

/-- Decidable wellformedness of a whole module. -/
def moduleWF (m : HloModule) : Bool :=
  m.computations.all (fun c => compWF c m.nextUid)

/-- Decidable conformance of one computation to the spec's data model
(section 3), together with uid sanity, as needed for the idempotence
argument: instruction uids are pairwise distinct and below the fresh-uid
counter, operand references stay below the counter, every dynamic-slice's
output shape equals its slice sizes and its start-index operands (all
operands after the sliced array) reference scalar-shaped instructions
(one scalar start-index operand per dimension), and every reshape has
exactly one operand. -/
def sweepWF (c : HloComputation) (nu : Nat) : Prop :=
  (c.instructions.map (fun i => i.uid)).Nodup ∧
  (∀ i ∈ c.instructions, i.uid < nu ∧ ∀ o ∈ i.operands, o < nu) ∧
  (∀ i ∈ c.instructions, i.opcode = HloOpcode.kDynamicSlice →
    i.dims = i.dynamicSliceSizes ∧
    ∀ o ∈ i.operands.drop 1, ∀ j ∈ c.instructions, j.uid = o → j.dims = []) ∧
  (∀ i ∈ c.instructions, i.opcode = HloOpcode.kReshape →
    i.operands.length = 1)

instance (c : HloComputation) (nu : Nat) : Decidable (sweepWF c nu) := by
  unfold sweepWF
  infer_instance

/-- Data-model conformance of a whole module. -/
def moduleSweepWF (m : HloModule) : Prop :=
  ∀ c ∈ m.computations, sweepWF c m.nextUid

instance (m : HloModule) : Decidable (moduleSweepWF m) := by
  unfold moduleSweepWF
  infer_instance

theorem compWF_iff (c : HloComputation) (bound : Nat) :
    compWF c bound = true ↔
      ∀ i ∈ c.instructions, i.uid < bound ∧ ∀ o ∈ i.operands, o < i.uid := by
  simp [compWF, List.all_eq_true]

/-! ## Basic graph-operation lemmas -/

theorem mem_usersOf {c : HloComputation} {u : Nat} {i : HloInstruction} :
    i ∈ usersOf c u ↔ i ∈ c.instructions ∧ u ∈ i.operands := by
  simp [usersOf, List.mem_filter]

theorem lookupInstr_mem {c : HloComputation} {u : Nat} {i : HloInstruction}
    (h : lookupInstr c u = some i) : i ∈ c.instructions ∧ i.uid = u := by
  refine ⟨List.mem_of_find?_eq_some h, ?_⟩
  have := List.find?_some h
  simpa using this

theorem mem_addInstruction {c : HloComputation} {j i : HloInstruction} :
    i ∈ (addInstruction c j).instructions ↔ i ∈ c.instructions ∨ i = j := by
  simp [addInstruction]

theorem mem_removeInstr_of_mem {c : HloComputation} {u : Nat}
    {i : HloInstruction} (h : i ∈ (removeInstr c u).instructions) :
    i ∈ c.instructions ∧ ¬ i.uid = u := by
  simpa [removeInstr, List.mem_filter] using h

theorem mem_removeInstr_of {c : HloComputation} {u : Nat} {i : HloInstruction}
    (h : i ∈ c.instructions) (hne : ¬ i.uid = u) :
    i ∈ (removeInstr c u).instructions := by
  simp [removeInstr, List.mem_filter, h, hne]

/-- The per-instruction effect of `replaceAllUsesWith`. -/
def replUses (old new : Nat) (i : HloInstruction) : HloInstruction :=
  { i with operands := i.operands.map (fun o => if o = old then new else o) }

theorem replaceAllUsesWith_instructions (c : HloComputation) (old new : Nat) :
    (replaceAllUsesWith c old new).instructions =
      c.instructions.map (replUses old new) := rfl

theorem list_map_id_of_forall {f : Nat → Nat} :
    ∀ {l : List Nat}, (∀ a ∈ l, f a = a) → l.map f = l := by
  intro l h
  induction l with
  | nil => rfl
  | cons a t ih =>
    simp only [List.map_cons]
    rw [h a (by simp), ih (fun b hb => h b (by simp [hb]))]

theorem replUses_of_not_mem {old new : Nat} {i : HloInstruction}
    (h : ¬ old ∈ i.operands) : replUses old new i = i := by
  have hmap : i.operands.map (fun o => if o = old then new else o) = i.operands := by
    apply list_map_id_of_forall
    intro o ho
    have hne : ¬ o = old := fun he => h (he ▸ ho)
    simp [hne]
  simp [replUses, hmap]

/-- When every worklist entry still has a user, dead-operand pruning
removes nothing.  This is the situation after a rewrite: the new
reduce-scatter inherits the reduction's operands, keeping them alive. -/
theorem removeUnused_eq_self :
    ∀ (fuel : Nat) (ws : List Nat) (c : HloComputation),
      (∀ u ∈ ws, ¬ usersOf c u = []) → removeUnused c fuel ws = c := by
  intro fuel
  induction fuel with
  | zero => intro ws c _; simp only [removeUnused]
  | succ n ih =>
    intro ws c h
    cases ws with
    | nil => simp only [removeUnused]
    | cons u rest =>
      have hu : ¬ usersOf c u = [] := h u (by simp)
      have hrest : ∀ v ∈ rest, ¬ usersOf c v = [] :=
        fun v hv => h v (by simp [hv])
      rw [removeUnused]
      cases hl : lookupInstr c u with
      | none => simp only [hl]; exact ih rest c hrest
      | some i =>
        simp only [hl]
        rw [if_neg (by intro hcon; exact hu hcon.1)]
        exact ih rest c hrest

/-! ## Matcher inversion -/

theorem findDsChain_facts {c : HloComputation} {ar : HloInstruction}
    {rsOpt : Option HloInstruction} {ds : HloInstruction}
    (h : findDsChain c ar = some (rsOpt, ds)) :
    ds ∈ c.instructions ∧ ds.opcode = HloOpcode.kDynamicSlice ∧
      (rsOpt = none ∧ ar.uid ∈ ds.operands ∨
       ∃ rs, rsOpt = some rs ∧ rs ∈ c.instructions ∧
         rs.opcode = HloOpcode.kReshape ∧ ar.uid ∈ rs.operands ∧
         rs.uid ∈ ds.operands) := by
  rw [findDsChain] at h
  split at h
  case h_1 u husers =>
    have humem : u ∈ usersOf c ar.uid := by rw [husers]; simp
    have hu := mem_usersOf.mp humem
    split at h
    case isTrue hds =>
      obtain ⟨h1, h2⟩ := Prod.mk.injEq .. ▸ Option.some.inj h
      subst h1; subst h2
      exact ⟨hu.1, hds, Or.inl ⟨rfl, hu.2⟩⟩
    case isFalse =>
      split at h
      case isTrue hrs =>
        split at h
        case h_1 u2 husers2 =>
          have hu2mem : u2 ∈ usersOf c u.uid := by rw [husers2]; simp
          have hu2 := mem_usersOf.mp hu2mem
          split at h
          case isTrue hds2 =>
            obtain ⟨h1, h2⟩ := Prod.mk.injEq .. ▸ Option.some.inj h
            subst h1; subst h2
            exact ⟨hu2.1, hds2, Or.inr ⟨u, rfl, hu.1, hrs, hu.2, hu2.2⟩⟩
          case isFalse => exact absurd h (by simp)
        case h_2 => exact absurd h (by simp)
      case isFalse => exact absurd h (by simp)
  case h_2 => exact absurd h (by simp)

/-- The slice size along the matched split dimension. -/
def matchSliceSize (f : FullSpec) : Nat :=
  f.ds.dynamicSliceSizes.getD f.sliceDim 0

/-- Everything the matcher has established when it returns a spec. -/
structure MatchedFacts (P R : Nat) (c : HloComputation) (ar : HloInstruction)
    (f : FullSpec) : Prop where
  ds_mem : f.ds ∈ c.instructions
  ds_opcode : f.ds.opcode = HloOpcode.kDynamicSlice
  ds_len : f.ds.operands.length = f.srcDims.length + 1
  dims_len : f.srcDims.length = f.ds.dynamicSliceSizes.length
  src : ∃ srcUid, f.ds.operands.getD 0 ar.uid = srcUid ∧ srcUid ∈ f.ds.operands ∧
    (¬ f.viaReshape = true ∧ srcUid = ar.uid ∨
     f.viaReshape = true ∧ ∃ rs, rs ∈ c.instructions ∧ rs.uid = srcUid ∧
       rs.opcode = HloOpcode.kReshape ∧ ar.uid ∈ rs.operands ∧
       rs.dims = f.srcDims ∧ rs.operands.getD 0 (ar.uid + 1) = ar.uid)
  diff : diffDims f.srcDims f.ds.dynamicSliceSizes = [f.sliceDim]
  size_pos : ¬ matchSliceSize f = 0
  size_eq : f.srcDims.getD f.sliceDim 0 = matchSliceSize f * f.groupSize
  offset_eq : f.offsetUid = f.ds.operands.getD (f.sliceDim + 1) 0
  groups_len : (effectiveGroups ar.useGlobalDeviceIds R P ar.replicaGroups).all
      (fun g => g.length = f.groupSize) = true
  analyzer : analyzerOk c f.offsetUid ar.useGlobalDeviceIds R P
      (effectiveGroups ar.useGlobalDeviceIds R P ar.replicaGroups)
      (matchSliceSize f) = true
  no_reshape : ¬ f.viaReshape = true → f.srcDims = ar.dims ∧ f.splitDim = f.sliceDim
  with_reshape : f.viaReshape = true →
    f.splitDim < ar.dims.length ∧
    ar.dims.getD f.splitDim 0 = f.srcDims.getD f.sliceDim 0 ∧
    prefixProd ar.dims f.splitDim = prefixProd f.srcDims f.sliceDim ∧
    suffixProd ar.dims (f.splitDim + 1) = suffixProd f.srcDims (f.sliceDim + 1)


theorem getD_zero_eq {l : List Nat} (hne : ¬ l = []) (d d' : Nat) :
    l.getD 0 d = l.getD 0 d' := by
  cases l with
  | nil => exact absurd rfl hne
  | cons a t => rfl

theorem getD_zero_mem {l : List Nat} (hne : ¬ l = []) (d : Nat) :
    l.getD 0 d ∈ l := by
  cases l with
  | nil => exact absurd rfl hne
  | cons a t => simp

theorem matchTail_facts {P R : Nat} {c : HloComputation}
    {ar ds : HloInstruction} {srcDims : List Nat} {k j s G : Nat} {via : Bool}
    {f : FullSpec}
    (h : matchFull.matchTail P R c ar ds srcDims k j s G via = some f) :
    f = ⟨j, G, ds, srcDims, k, ds.operands.getD (k + 1) 0, via⟩ ∧
      (effectiveGroups ar.useGlobalDeviceIds R P ar.replicaGroups).all
        (fun g => g.length = G) = true ∧
      analyzerOk c (ds.operands.getD (k + 1) 0) ar.useGlobalDeviceIds R P
        (effectiveGroups ar.useGlobalDeviceIds R P ar.replicaGroups) s = true := by
  rw [matchFull.matchTail] at h
  split at h
  case isTrue => exact absurd h (by simp)
  case isFalse hglen =>
    split at h
    case isFalse => exact absurd h (by simp)
    case isTrue hana =>
      exact ⟨(Option.some.inj h).symm, not_not.mp hglen, hana⟩

theorem matchFull_facts {P R : Nat} {c : HloComputation} {ar : HloInstruction}
    {f : FullSpec} (h : matchFull P R c ar = some f) :
    MatchedFacts P R c ar f := by
  rw [matchFull] at h
  split at h
  case h_1 => exact absurd h (by simp)
  case h_2 pr rsOpt ds hfd =>
    obtain ⟨hdsmem, hdsop, hchain⟩ := findDsChain_facts hfd
    rcases hchain with ⟨hnone, _harmem⟩ | ⟨rs, hsome, hrsmem, hrsop, harin, hrsin⟩
    · subst hnone
      dsimp only at h
      split at h
      case isTrue => exact absurd h (by simp)
      case isFalse h0 =>
        split at h
        case isTrue => exact absurd h (by simp)
        case isFalse hlen =>
          split at h
          case isTrue => exact absurd h (by simp)
          case isFalse hlen2 =>
            split at h
            case h_2 => exact absurd h (by simp)
            case h_1 k hdiff =>
              split at h
              case isTrue => exact absurd h (by simp)
              case isFalse hs0 =>
                split at h
                case isTrue => exact absurd h (by simp)
                case isFalse hmod =>
                  rw [not_not] at h0 hlen hmod
                  obtain ⟨hf, hglen, hana⟩ := matchTail_facts h
                  subst hf
                  have hne : ¬ ds.operands = [] := by
                    intro hnil
                    rw [hnil] at hlen
                    simp at hlen
                  have hdvd : ds.dynamicSliceSizes.getD k 0 ∣ ar.dims.getD k 0 :=
                    Nat.dvd_of_mod_eq_zero hmod
                  refine ⟨hdsmem, hdsop, hlen, by simpa using not_not.mp hlen2,
                    ⟨ar.uid, ?_, ?_, Or.inl ⟨by simp, rfl⟩⟩, hdiff, hs0, ?_, rfl,
                    hglen, hana, fun _ => ⟨rfl, rfl⟩, fun hvia => absurd hvia (by simp)⟩
                  · rw [getD_zero_eq hne ar.uid (ar.uid + 1)]
                    exact h0
                  · exact _harmem
                  · exact (Nat.mul_div_cancel' hdvd).symm
    · subst hsome
      dsimp only at h
      split at h
      case isTrue => exact absurd h (by simp)
      case isFalse h0 =>
        split at h
        case isTrue => exact absurd h (by simp)
        case isFalse hlen =>
          split at h
          case isTrue => exact absurd h (by simp)
          case isFalse hlen2 =>
            split at h
            case h_2 => exact absurd h (by simp)
            case h_1 k hdiff =>
              split at h
              case isTrue => exact absurd h (by simp)
              case isFalse hs0 =>
                split at h
                case isTrue => exact absurd h (by simp)
                case isFalse hmod =>
                  split at h
                  case isTrue => exact absurd h (by simp)
                  case isFalse hrs0 =>
                    split at h
                    case h_1 => exact absurd h (by simp)
                    case h_2 j hmap =>
                      rw [not_not] at h0 hlen hmod hrs0
                      obtain ⟨hf, hglen, hana⟩ := matchTail_facts h
                      subst hf
                      have hne : ¬ ds.operands = [] := by
                        intro hnil
                        rw [hnil] at hlen
                        simp at hlen
                      have hdvd : ds.dynamicSliceSizes.getD k 0 ∣ rs.dims.getD k 0 :=
                        Nat.dvd_of_mod_eq_zero hmod
                      rw [mapSplitDim] at hmap
                      have hjlt : j < ar.dims.length :=
                        List.mem_range.mp (List.mem_of_find?_eq_some hmap)
                      have hpred0 := List.find?_some hmap
                      simp only [decide_eq_true_eq] at hpred0
                      have hpred := hpred0
                      refine ⟨hdsmem, hdsop, hlen, by simpa using not_not.mp hlen2,
                        ⟨rs.uid, ?_, hrsin, Or.inr ⟨rfl, rs, hrsmem, rfl, hrsop,
                          harin, rfl, hrs0⟩⟩, hdiff, hs0,
                        (Nat.mul_div_cancel' hdvd).symm, rfl, hglen, hana,
                        fun hnv => absurd rfl hnv,
                        fun _ => ⟨hjlt, hpred.1, hpred.2.1, hpred.2.2⟩⟩
                      rw [getD_zero_eq hne ar.uid (rs.uid + 1)]
                      exact h0

/-! ## Analyzer lemmas -/

theorem mem_legalDevices {R P r p : Nat} :
    (r, p) ∈ legalDevices R P ↔ r < R ∧ p < P := by
  simp [legalDevices]

theorem analyzerOk_at {c : HloComputation} {off : Nat} {ug : Bool}
    {R P : Nat} {groups : List (List Nat)} {s r p : Nat}
    (h : analyzerOk c off ug R P groups s = true) (hr : r < R) (hp : p < P) :
    ∃ rk, rankOf groups (deviceKey ug P r p) = some rk ∧
      evalScalar c c.instructions.length off r p = some (Int.ofNat (rk * s)) := by
  rw [analyzerOk, List.all_eq_true] at h
  have hd := h (r, p) (mem_legalDevices.mpr ⟨hr, hp⟩)
  cases hrk : rankOf groups (deviceKey ug P r p) with
  | none => rw [hrk] at hd; simp at hd
  | some rk =>
    cases hev : evalScalar c c.instructions.length off r p with
    | none => rw [hrk, hev] at hd; simp at hd
    | some v =>
      rw [hrk, hev] at hd
      simp only [decide_eq_true_eq] at hd
      exact ⟨rk, rfl, by rw [hd]⟩

theorem rankOf_lt {groups : List (List Nat)} {key rk G : Nat}
    (h : rankOf groups key = some rk)
    (hall : groups.all (fun g => g.length = G) = true) : rk < G := by
  rw [rankOf] at h
  split at h
  case isFalse => exact absurd h (by simp)
  case isTrue =>
    split at h
    case h_2 => exact absurd h (by simp)
    case h_1 g hg =>
      have hgmem := List.mem_of_find?_eq_some hg
      have hkey0 := List.find?_some hg
      simp only [decide_eq_true_eq] at hkey0
      have hkey : key ∈ g := hkey0
      have hlen : g.length = G := by
        rw [List.all_eq_true] at hall
        simpa using hall g hgmem
      have := List.indexOf_lt_length.mpr hkey
      rw [hlen] at this
      rw [← Option.some.inj h]
      exact this

/-! ## Matcher corollaries -/

theorem MatchARS_inv {P R : Nat} {c : HloComputation} {ar : HloInstruction}
    {spec : ReduceScatterSpec}
    (h : MatchAllReduceScatter P R c ar = some spec) :
    ∃ f, matchFull P R c ar = some f ∧ f.toSpec = spec := by
  rw [MatchAllReduceScatter] at h
  cases hf : matchFull P R c ar with
  | none => rw [hf] at h; simp at h
  | some f =>
    rw [hf] at h
    exact ⟨f, rfl, Option.some.inj h⟩

/-- The matcher only accepts matches whose split-dimension size is evenly
divisible by the group size, so the `TF_RET_CHECK` in the rewriter can
never fire. -/
theorem matchFull_splitDim_divides {P R : Nat} {c : HloComputation}
    {ar : HloInstruction} {f : FullSpec} (h : matchFull P R c ar = some f) :
    ar.dims.getD f.splitDim 0 % f.groupSize = 0 := by
  have mf := matchFull_facts h
  by_cases hv : f.viaReshape = true
  · obtain ⟨_, hdim, _, _⟩ := mf.with_reshape hv
    rw [hdim, mf.size_eq]
    exact Nat.mul_mod_left _ _
  · obtain ⟨hsrc, hsplit⟩ := mf.no_reshape hv
    rw [hsplit, ← hsrc, mf.size_eq]
    exact Nat.mul_mod_left _ _

/-! ## Unfolding lemmas for the loop body -/

theorem processInstr_not_found {P R : Nat} {st : PassState} {uid : Nat}
    (hl : lookupInstr st.comp uid = none) :
    processInstr P R st uid = Except.ok st := by
  simp only [processInstr, hl]

theorem processInstr_not_allreduce {P R : Nat} {st : PassState} {uid : Nat}
    {ar : HloInstruction} (hl : lookupInstr st.comp uid = some ar)
    (hop : ¬ ar.opcode = HloOpcode.kAllReduce) :
    processInstr P R st uid = Except.ok st := by
  simp only [processInstr, hl]
  rw [if_pos hop]

theorem processInstr_no_match {P R : Nat} {st : PassState} {uid : Nat}
    {ar : HloInstruction} (hl : lookupInstr st.comp uid = some ar)
    (hm : MatchAllReduceScatter P R st.comp ar = none) :
    processInstr P R st uid = Except.ok st := by
  simp only [processInstr, hl, hm]
  split
  · rfl
  · rfl

theorem processInstr_match {P R : Nat} {st : PassState} {uid : Nat}
    {ar : HloInstruction} {spec : ReduceScatterSpec}
    (hl : lookupInstr st.comp uid = some ar)
    (hop : ar.opcode = HloOpcode.kAllReduce)
    (hm : MatchAllReduceScatter P R st.comp ar = some spec) :
    processInstr P R st uid = Except.ok (rewriteState st ar spec) := by
  have hdiv : ar.dims.getD spec.splitDim 0 % spec.groupSize = 0 := by
    obtain ⟨f, hf, hts⟩ := MatchARS_inv hm
    have hd := matchFull_splitDim_divides hf
    rw [← hts]
    exact hd
  simp only [processInstr, hl, hm]
  rw [if_neg (by simp [hop]), if_neg (fun hc => hc hdiv)]
  rfl

theorem replUses_uid (o n : Nat) (i : HloInstruction) :
    (replUses o n i).uid = i.uid := rfl

theorem usersOf_ne_nil {c : HloComputation} {u : Nat} {i : HloInstruction}
    (hmem : i ∈ c.instructions) (hop : u ∈ i.operands) :
    ¬ usersOf c u = [] := by
  intro hnil
  have : i ∈ usersOf c u := mem_usersOf.mpr ⟨hmem, hop⟩
  rw [hnil] at this
  simp at this

/-- Under wellformedness, a rewrite without an intervening reshape reduces
to: append the reduce-scatter, redirect the slice's uses to it, remove the
slice, remove the reduction.  Dead-operand pruning removes nothing because
the reduce-scatter keeps the reduction's operands alive. -/
theorem rewriteState_direct {P R : Nat} {st : PassState} {ar : HloInstruction}
    {f : FullSpec} {spec : ReduceScatterSpec}
    (hwf : compWF st.comp st.nextUid = true)
    (harmem : ar ∈ st.comp.instructions)
    (hf : matchFull P R st.comp ar = some f)
    (hts : f.toSpec = spec)
    (hvia : f.viaReshape = false) :
    rewriteState st ar spec =
      ⟨removeInstr (removeInstr (replaceAllUsesWith
          (addInstruction st.comp (newArs st ar spec))
          spec.dynamicSlice.uid st.nextUid) spec.dynamicSlice.uid) ar.uid,
        if ar.channelId.isSome then st.nextCh + 1 else st.nextCh,
        st.nextUid + 1, true⟩ := by
  have mf := matchFull_facts hf
  have hds : spec.dynamicSlice = f.ds := by rw [← hts]; rfl
  have hwfs := (compWF_iff _ _).mp hwf
  have haru : ar.uid < st.nextUid := (hwfs ar harmem).1
  have harops : ∀ o ∈ ar.operands, o < ar.uid := (hwfs ar harmem).2
  have hdsu : f.ds.uid < st.nextUid := (hwfs f.ds mf.ds_mem).1
  have hdsops : ∀ o ∈ f.ds.operands, o < f.ds.uid := (hwfs f.ds mf.ds_mem).2
  obtain ⟨srcUid, hsrc0, hsrcmem, hsrccase⟩ := mf.src
  rcases hsrccase with ⟨_, hsrcar⟩ | ⟨hv, _⟩
  · subst hsrcar
    have har_lt_ds : ar.uid < f.ds.uid := hdsops _ hsrcmem
    have hpos : spec.dynamicSlice.operands.getD 0 ar.uid = ar.uid := by
      rw [hds]; exact hsrc0
    have husers : ∀ u ∈ ar.operands,
        ¬ usersOf (removeInstr (removeInstr (replaceAllUsesWith
            (addInstruction st.comp (newArs st ar spec))
            spec.dynamicSlice.uid st.nextUid) spec.dynamicSlice.uid)
            ar.uid) u = [] := by
      intro u hu
      have hA1 : newArs st ar spec ∈
          (addInstruction st.comp (newArs st ar spec)).instructions :=
        mem_addInstruction.mpr (Or.inr rfl)
      have hAe : replUses spec.dynamicSlice.uid st.nextUid (newArs st ar spec) =
          newArs st ar spec := by
        apply replUses_of_not_mem
        intro hmem
        have h1 : spec.dynamicSlice.uid < ar.uid := harops _ hmem
        rw [hds] at h1
        omega
      have hA2 : newArs st ar spec ∈
          (replaceAllUsesWith (addInstruction st.comp (newArs st ar spec))
            spec.dynamicSlice.uid st.nextUid).instructions := by
        rw [replaceAllUsesWith_instructions]
        have hm := List.mem_map_of_mem
          (replUses spec.dynamicSlice.uid st.nextUid) hA1
        rw [hAe] at hm
        exact hm
      have hA3 := mem_removeInstr_of hA2
        (show ¬ (newArs st ar spec).uid = spec.dynamicSlice.uid by
          show ¬ st.nextUid = spec.dynamicSlice.uid
          rw [hds]; omega)
      have hA4 := mem_removeInstr_of hA3
        (show ¬ (newArs st ar spec).uid = ar.uid by
          show ¬ st.nextUid = ar.uid; omega)
      exact usersOf_ne_nil hA4 hu
    simp only [rewriteState]
    rw [if_neg (not_not_intro hpos)]
    rw [if_neg (not_not_intro hpos)]
    rw [if_neg (not_not_intro hpos)]
    rw [if_neg (not_not_intro hpos)]
    rw [removeInstructionAndUnusedOperands]
    show (⟨removeUnused
        (removeInstr (removeInstr (replaceAllUsesWith
          (addInstruction st.comp (newArs st ar spec))
          spec.dynamicSlice.uid st.nextUid) spec.dynamicSlice.uid) ar.uid)
        (removalFuel (removeInstr (replaceAllUsesWith
          (addInstruction st.comp (newArs st ar spec))
          spec.dynamicSlice.uid st.nextUid) spec.dynamicSlice.uid))
        ar.operands,
      if ar.channelId.isSome then st.nextCh + 1 else st.nextCh,
      st.nextUid + 1, true⟩ : PassState) =
      ⟨removeInstr (removeInstr (replaceAllUsesWith
          (addInstruction st.comp (newArs st ar spec))
          spec.dynamicSlice.uid st.nextUid) spec.dynamicSlice.uid) ar.uid,
        if ar.channelId.isSome then st.nextCh + 1 else st.nextCh,
        st.nextUid + 1, true⟩
    rw [removeUnused_eq_self _ _ _ husers]
  · rw [hvia] at hv
    cases hv

/-- Under wellformedness, a rewrite with an intervening reshape reduces
to: append the reduce-scatter and the new reshape, redirect the slice's
uses to the new reshape, remove the slice, remove the old reshape, remove
the reduction. -/
theorem rewriteState_reshape {P R : Nat} {st : PassState} {ar : HloInstruction}
    {f : FullSpec} {spec : ReduceScatterSpec}
    (hwf : compWF st.comp st.nextUid = true)
    (harmem : ar ∈ st.comp.instructions)
    (hf : matchFull P R st.comp ar = some f)
    (hts : f.toSpec = spec)
    (hvia : f.viaReshape = true) :
    rewriteState st ar spec =
      ⟨removeInstr (removeInstr (removeInstr (replaceAllUsesWith
          (addInstruction (addInstruction st.comp (newArs st ar spec))
            (newReshape st spec))
          spec.dynamicSlice.uid (st.nextUid + 1)) spec.dynamicSlice.uid)
          (spec.dynamicSlice.operands.getD 0 ar.uid)) ar.uid,
        if ar.channelId.isSome then st.nextCh + 1 else st.nextCh,
        st.nextUid + 2, true⟩ := by
  have mf := matchFull_facts hf
  have hds : spec.dynamicSlice = f.ds := by rw [← hts]; rfl
  have hwfs := (compWF_iff _ _).mp hwf
  have haru : ar.uid < st.nextUid := (hwfs ar harmem).1
  have harops : ∀ o ∈ ar.operands, o < ar.uid := (hwfs ar harmem).2
  have hdsu : f.ds.uid < st.nextUid := (hwfs f.ds mf.ds_mem).1
  have hdsops : ∀ o ∈ f.ds.operands, o < f.ds.uid := (hwfs f.ds mf.ds_mem).2
  obtain ⟨srcUid, hsrc0, hsrcmem, hsrccase⟩ := mf.src
  rcases hsrccase with ⟨hnv, _⟩ | ⟨_, rs, hrsmem, hrsuid, _, harin, _, _⟩
  · exact absurd hvia hnv
  · have hsrclt : srcUid < f.ds.uid := hdsops _ hsrcmem
    have har_lt_rs : ar.uid < rs.uid := (hwfs rs hrsmem).2 _ harin
    have har_lt_ds : ar.uid < f.ds.uid := by omega
    have hcond : ¬ spec.dynamicSlice.operands.getD 0 ar.uid = ar.uid := by
      rw [hds, hsrc0, ← hrsuid]
      omega
    have husers : ∀ u ∈ ar.operands,
        ¬ usersOf (removeInstr (removeInstr (removeInstr (replaceAllUsesWith
            (addInstruction (addInstruction st.comp (newArs st ar spec))
              (newReshape st spec))
            spec.dynamicSlice.uid (st.nextUid + 1)) spec.dynamicSlice.uid)
            (spec.dynamicSlice.operands.getD 0 ar.uid)) ar.uid) u = [] := by
      intro u hu
      have hA1 : newArs st ar spec ∈
          (addInstruction (addInstruction st.comp (newArs st ar spec))
            (newReshape st spec)).instructions :=
        mem_addInstruction.mpr (Or.inl (mem_addInstruction.mpr (Or.inr rfl)))
      have hAe : replUses spec.dynamicSlice.uid (st.nextUid + 1)
          (newArs st ar spec) = newArs st ar spec := by
        apply replUses_of_not_mem
        intro hmem
        have h1 : spec.dynamicSlice.uid < ar.uid := harops _ hmem
        rw [hds] at h1
        omega
      have hA2 : newArs st ar spec ∈
          (replaceAllUsesWith (addInstruction
            (addInstruction st.comp (newArs st ar spec)) (newReshape st spec))
            spec.dynamicSlice.uid (st.nextUid + 1)).instructions := by
        rw [replaceAllUsesWith_instructions]
        have hm := List.mem_map_of_mem
          (replUses spec.dynamicSlice.uid (st.nextUid + 1)) hA1
        rw [hAe] at hm
        exact hm
      have hA3 := mem_removeInstr_of hA2
        (show ¬ (newArs st ar spec).uid = spec.dynamicSlice.uid by
          show ¬ st.nextUid = spec.dynamicSlice.uid
          rw [hds]; omega)
      have hA4 := mem_removeInstr_of hA3
        (show ¬ (newArs st ar spec).uid = spec.dynamicSlice.operands.getD 0 ar.uid by
          show ¬ st.nextUid = spec.dynamicSlice.operands.getD 0 ar.uid
          rw [hds, hsrc0]
          omega)
      have hA5 := mem_removeInstr_of hA4
        (show ¬ (newArs st ar spec).uid = ar.uid by
          show ¬ st.nextUid = ar.uid; omega)
      exact usersOf_ne_nil hA5 hu
    simp only [rewriteState]
    rw [if_pos hcond]
    rw [if_pos hcond]
    rw [if_pos hcond]
    rw [if_pos hcond]
    rw [removeInstructionAndUnusedOperands]
    show (⟨removeUnused
        (removeInstr (removeInstr (removeInstr (replaceAllUsesWith
          (addInstruction (addInstruction st.comp (newArs st ar spec))
            (newReshape st spec))
          spec.dynamicSlice.uid (st.nextUid + 1)) spec.dynamicSlice.uid)
          (spec.dynamicSlice.operands.getD 0 ar.uid)) ar.uid)
        (removalFuel (removeInstr (removeInstr (replaceAllUsesWith
          (addInstruction (addInstruction st.comp (newArs st ar spec))
            (newReshape st spec))
          spec.dynamicSlice.uid (st.nextUid + 1)) spec.dynamicSlice.uid)
          (spec.dynamicSlice.operands.getD 0 ar.uid)))
        ar.operands,
      if ar.channelId.isSome then st.nextCh + 1 else st.nextCh,
      st.nextUid + 2, true⟩ : PassState) =
      ⟨removeInstr (removeInstr (removeInstr (replaceAllUsesWith
          (addInstruction (addInstruction st.comp (newArs st ar spec))
            (newReshape st spec))
          spec.dynamicSlice.uid (st.nextUid + 1)) spec.dynamicSlice.uid)
          (spec.dynamicSlice.operands.getD 0 ar.uid)) ar.uid,
        if ar.channelId.isSome then st.nextCh + 1 else st.nextCh,
        st.nextUid + 2, true⟩
    rw [removeUnused_eq_self _ _ _ husers]

/-- The new reduce-scatter instruction survives to the end of the rewrite:
nothing later in the pipeline removes or modifies it. -/
theorem newArs_mem_rewrite {P R : Nat} {st : PassState} {ar : HloInstruction}
    {f : FullSpec} {spec : ReduceScatterSpec}
    (hwf : compWF st.comp st.nextUid = true)
    (harmem : ar ∈ st.comp.instructions)
    (hf : matchFull P R st.comp ar = some f)
    (hts : f.toSpec = spec) :
    newArs st ar spec ∈ (rewriteState st ar spec).comp.instructions := by
  have mf := matchFull_facts hf
  have hds : spec.dynamicSlice = f.ds := by rw [← hts]; rfl
  have hwfs := (compWF_iff _ _).mp hwf
  have haru : ar.uid < st.nextUid := (hwfs ar harmem).1
  have harops : ∀ o ∈ ar.operands, o < ar.uid := (hwfs ar harmem).2
  have hdsu : f.ds.uid < st.nextUid := (hwfs f.ds mf.ds_mem).1
  have hdsops : ∀ o ∈ f.ds.operands, o < f.ds.uid := (hwfs f.ds mf.ds_mem).2
  obtain ⟨srcUid, hsrc0, hsrcmem, hsrccase⟩ := mf.src
  have hsrclt : srcUid < f.ds.uid := hdsops _ hsrcmem
  have har_lt_ds : ar.uid < f.ds.uid := by
    rcases hsrccase with ⟨_, hsrcar⟩ | ⟨_, rs, hrsmem, hrsuid, _, harin, _, _⟩
    · omega
    · have := (hwfs rs hrsmem).2 _ harin
      omega
  have hAe : ∀ res, replUses spec.dynamicSlice.uid res (newArs st ar spec) =
      newArs st ar spec := by
    intro res
    apply replUses_of_not_mem
    intro hmem
    have h1 : spec.dynamicSlice.uid < ar.uid := harops _ hmem
    rw [hds] at h1
    omega
  cases hvia : f.viaReshape with
  | false =>
    rw [rewriteState_direct hwf harmem hf hts hvia]
    apply mem_removeInstr_of _ (show ¬ (newArs st ar spec).uid = ar.uid by
      show ¬ st.nextUid = ar.uid; omega)
    apply mem_removeInstr_of _
      (show ¬ (newArs st ar spec).uid = spec.dynamicSlice.uid by
        show ¬ st.nextUid = spec.dynamicSlice.uid; rw [hds]; omega)
    rw [replaceAllUsesWith_instructions]
    have hm := List.mem_map_of_mem (replUses spec.dynamicSlice.uid st.nextUid)
      ((mem_addInstruction (c := st.comp) (j := newArs st ar spec)).mpr
        (Or.inr rfl))
    rw [hAe] at hm
    exact hm
  | true =>
    rw [rewriteState_reshape hwf harmem hf hts hvia]
    apply mem_removeInstr_of _ (show ¬ (newArs st ar spec).uid = ar.uid by
      show ¬ st.nextUid = ar.uid; omega)
    apply mem_removeInstr_of _
      (show ¬ (newArs st ar spec).uid =
          spec.dynamicSlice.operands.getD 0 ar.uid by
        show ¬ st.nextUid = spec.dynamicSlice.operands.getD 0 ar.uid
        rw [hds, hsrc0]
        omega)
    apply mem_removeInstr_of _
      (show ¬ (newArs st ar spec).uid = spec.dynamicSlice.uid by
        show ¬ st.nextUid = spec.dynamicSlice.uid; rw [hds]; omega)
    rw [replaceAllUsesWith_instructions]
    have hm := List.mem_map_of_mem
      (replUses spec.dynamicSlice.uid (st.nextUid + 1))
      ((mem_addInstruction (c := addInstruction st.comp (newArs st ar spec))
          (j := newReshape st spec)).mpr
        (Or.inl (mem_addInstruction.mpr (Or.inr rfl))))
    rw [hAe] at hm
    exact hm

/-- Claim C2: for every accepted match, the newly constructed
reduce-scatter instruction carries exactly the original reduction's
operands, reduction function (`toApply`), replica groups,
`constrain_layout` flag and `use_global_device_ids` flag; its scatter
dimension equals the matched split dimension; and its output shape equals
the reduction's output shape except that the split dimension's size is
divided by the matched group size. -/
theorem claim_C2 {P R : Nat} {st : PassState} {uid : Nat}
    {ar : HloInstruction} {spec : ReduceScatterSpec}
    (hwf : compWF st.comp st.nextUid = true)
    (hl : lookupInstr st.comp uid = some ar)
    (hop : ar.opcode = HloOpcode.kAllReduce)
    (hm : MatchAllReduceScatter P R st.comp ar = some spec) :
    ∃ st', processInstr P R st uid = Except.ok st' ∧
      ({ uid := st.nextUid, opcode := HloOpcode.kAllReduceScatter,
         operands := ar.operands,
         dims := ar.dims.set spec.splitDim
           (ar.dims.getD spec.splitDim 0 / spec.groupSize),
         constVals := [], dynamicSliceSizes := [],
         replicaGroups := ar.replicaGroups, toApply := ar.toApply,
         constrainLayout := ar.constrainLayout,
         channelId := if ar.channelId.isSome then some st.nextCh else none,
         useGlobalDeviceIds := ar.useGlobalDeviceIds,
         scatterDimension := spec.splitDim } : HloInstruction) ∈
        st'.comp.instructions := by
  obtain ⟨f, hf, hts⟩ := MatchARS_inv hm
  have harmem := (lookupInstr_mem hl).1
  exact ⟨rewriteState st ar spec, processInstr_match hl hop hm,
    newArs_mem_rewrite hwf harmem hf hts⟩

/-- Witness for C2 on the `AllReplicas` test graph: the match succeeds
with split dimension 0 and group size 8, and the rewrite produces a
reduce-scatter with shape `[4,8,128]` and the reduction's attributes. -/
theorem claim_C2_witness :
    compWF compAllReplicas 10 = true ∧
    lookupInstr compAllReplicas 1 =
      some (mkInstr 1 HloOpcode.kAllReduce [0] [32, 8, 128]) ∧
    MatchAllReduceScatter 1 8 compAllReplicas
        (mkInstr 1 HloOpcode.kAllReduce [0] [32, 8, 128]) =
      some ⟨0, 8, { mkInstr 9 HloOpcode.kDynamicSlice [1, 7, 8, 8]
        [4, 8, 128] with dynamicSliceSizes := [4, 8, 128] }⟩ ∧
    (∃ st', processInstr 1 8 ⟨compAllReplicas, 1, 10, false⟩ 1 =
        Except.ok st' ∧
      ({ uid := 10, opcode := HloOpcode.kAllReduceScatter, operands := [0],
         dims := [4, 8, 128], constVals := [], dynamicSliceSizes := [],
         replicaGroups := [], toApply := 0, constrainLayout := false,
         channelId := none, useGlobalDeviceIds := false,
         scatterDimension := 0 } : HloInstruction) ∈
        st'.comp.instructions) :=
  ⟨by decide, by decide, by decide,
    @claim_C2 1 8 ⟨compAllReplicas, 1, 10, false⟩ 1
      (mkInstr 1 HloOpcode.kAllReduce [0] [32, 8, 128])
      ⟨0, 8, { mkInstr 9 HloOpcode.kDynamicSlice [1, 7, 8, 8]
        [4, 8, 128] with dynamicSliceSizes := [4, 8, 128] }⟩
      (by decide) (by decide) (by decide) (by decide)⟩

/-- Claim C4: the loop body fails with a hard internal-invariant error if
and only if an already-accepted match's split-dimension size is not evenly
divisible by the matched group size.  The right-hand side is in fact
unsatisfiable — the matcher only accepts evenly divisible matches — so the
`TF_RET_CHECK` never fires; an error from the body aborts the enclosing
`processList`/`runComps` folds, hence the whole pass run. -/
theorem claim_C4 (P R : Nat) (st : PassState) (uid : Nat) :
    (∃ e, processInstr P R st uid = Except.error e) ↔
      ∃ ar spec, lookupInstr st.comp uid = some ar ∧
        ar.opcode = HloOpcode.kAllReduce ∧
        MatchAllReduceScatter P R st.comp ar = some spec ∧
        ¬ ar.dims.getD spec.splitDim 0 % spec.groupSize = 0 := by
  constructor
  · rintro ⟨e, h⟩
    rw [processInstr] at h
    split at h
    case h_1 => simp at h
    case h_2 ar hl =>
      split at h
      case isTrue => simp at h
      case isFalse hop =>
        split at h
        case h_1 => simp at h
        case h_2 spec hms =>
          split at h
          case isTrue hnd => exact ⟨ar, spec, hl, not_not.mp hop, hms, hnd⟩
          case isFalse => simp at h
  · rintro ⟨ar, spec, _, _, hm, hnd⟩
    obtain ⟨f, hf, hts⟩ := MatchARS_inv hm
    have hdiv := matchFull_splitDim_divides hf
    rw [show f.splitDim = spec.splitDim from by rw [← hts]; rfl,
      show f.groupSize = spec.groupSize from by rw [← hts]; rfl] at hdiv
    exact absurd hdiv hnd

/-- Claim C7: a reduction whose subgraph the matcher rejects — for example
the offset table `{0,1,2,3,4,5,6,8}` for 8 participants — is left
untouched: the loop body returns the state unchanged and raises no
error. -/
theorem claim_C7 {P R : Nat} {st : PassState} {uid : Nat}
    {ar : HloInstruction} (hl : lookupInstr st.comp uid = some ar)
    (hm : MatchAllReduceScatter P R st.comp ar = none) :
    processInstr P R st uid = Except.ok st :=
  processInstr_no_match hl hm

/-- Witness for C7 on the `AllReplicasWrongOffsets` test graph: the table
`{0,1,2,3,4,5,6,8}` fails the analyzer (device 7 would read offset 32
instead of 28), no rewrite happens, and the state is returned exactly as
it was. -/
theorem claim_C7_witness :
    lookupInstr compWrongOffsets 1 =
      some (mkInstr 1 HloOpcode.kAllReduce [0] [32, 8, 128]) ∧
    MatchAllReduceScatter 1 8 compWrongOffsets
      (mkInstr 1 HloOpcode.kAllReduce [0] [32, 8, 128]) = none ∧
    processInstr 1 8 ⟨compWrongOffsets, 1, 10, false⟩ 1 =
      Except.ok ⟨compWrongOffsets, 1, 10, false⟩ :=
  ⟨by decide, by decide,
    @claim_C7 1 8 ⟨compWrongOffsets, 1, 10, false⟩ 1
      (mkInstr 1 HloOpcode.kAllReduce [0] [32, 8, 128])
      (by decide) (by decide)⟩

/-- Claim C10: a rewrite of a reduction that carries no channel id
produces a reduce-scatter that also carries no channel id, and leaves the
channel-id counter untouched. -/
theorem claim_C10 {P R : Nat} {st : PassState} {uid : Nat}
    {ar : HloInstruction} {spec : ReduceScatterSpec}
    (hwf : compWF st.comp st.nextUid = true)
    (hl : lookupInstr st.comp uid = some ar)
    (hop : ar.opcode = HloOpcode.kAllReduce)
    (hm : MatchAllReduceScatter P R st.comp ar = some spec)
    (hch : ar.channelId = none) :
    ∃ st', processInstr P R st uid = Except.ok st' ∧
      st'.nextCh = st.nextCh ∧
      ∃ i, i ∈ st'.comp.instructions ∧ i.uid = st.nextUid ∧
        i.opcode = HloOpcode.kAllReduceScatter ∧ i.channelId = none := by
  obtain ⟨f, hf, hts⟩ := MatchARS_inv hm
  have harmem := (lookupInstr_mem hl).1
  refine ⟨rewriteState st ar spec, processInstr_match hl hop hm, ?_,
    newArs st ar spec, newArs_mem_rewrite hwf harmem hf hts, rfl, rfl, ?_⟩
  · show (if ar.channelId.isSome then st.nextCh + 1 else st.nextCh) =
      st.nextCh
    rw [hch]
    rfl
  · show (if ar.channelId.isSome then some st.nextCh else none) =
      (none : Option Nat)
    rw [hch]
    rfl

/-- Witness for C10 on the `AllReplicas` test graph (whose all-reduce has
no channel id). -/
theorem claim_C10_witness :
    compWF compAllReplicas 10 = true ∧
    (mkInstr 1 HloOpcode.kAllReduce [0] [32, 8, 128]).channelId = none ∧
    (∃ st', processInstr 1 8 ⟨compAllReplicas, 1, 10, false⟩ 1 =
        Except.ok st' ∧ st'.nextCh = 1 ∧
      ∃ i, i ∈ st'.comp.instructions ∧ i.uid = 10 ∧
        i.opcode = HloOpcode.kAllReduceScatter ∧ i.channelId = none) :=
  ⟨by decide, by decide,
    @claim_C10 1 8 ⟨compAllReplicas, 1, 10, false⟩ 1
      (mkInstr 1 HloOpcode.kAllReduce [0] [32, 8, 128])
      ⟨0, 8, { mkInstr 9 HloOpcode.kDynamicSlice [1, 7, 8, 8]
        [4, 8, 128] with dynamicSliceSizes := [4, 8, 128] }⟩
      (by decide) (by decide) (by decide) (by decide) (by decide)⟩

theorem not_mem_replUses {o n : Nat} {i : HloInstruction} (hne : ¬ n = o) :
    ¬ o ∈ (replUses o n i).operands := by
  intro hmem
  rw [replUses] at hmem
  simp only [List.mem_map] at hmem
  obtain ⟨v, _, hveq⟩ := hmem
  by_cases hv : v = o
  · rw [if_pos hv] at hveq
    exact hne hveq
  · rw [if_neg hv] at hveq
    exact hv hveq

/-- Claim C5: when the match traversed an intervening reshape, the rewrite
adds a reshape whose output shape is exactly the shape the original
dynamic slice produced, sitting atop the new reduce-scatter, and every
user of the slice is redirected to it (including the computation root);
when no reshape intervened, no reshape is added and the reduce-scatter
itself takes over the slice's uses. -/
theorem claim_C5 {P R : Nat} {st : PassState} {uid : Nat}
    {ar : HloInstruction} {spec : ReduceScatterSpec}
    (hwf : compWF st.comp st.nextUid = true)
    (hl : lookupInstr st.comp uid = some ar)
    (hop : ar.opcode = HloOpcode.kAllReduce)
    (hm : MatchAllReduceScatter P R st.comp ar = some spec) :
    ∃ st', processInstr P R st uid = Except.ok st' ∧
      (¬ spec.dynamicSlice.operands.getD 0 ar.uid = ar.uid →
        ({ uid := st.nextUid + 1, opcode := HloOpcode.kReshape,
           operands := [st.nextUid], dims := spec.dynamicSlice.dims,
           constVals := [], dynamicSliceSizes := [], replicaGroups := [],
           toApply := 0, constrainLayout := false, channelId := none,
           useGlobalDeviceIds := false,
           scatterDimension := 0 } : HloInstruction) ∈
          st'.comp.instructions ∧
        (∀ i ∈ st.comp.instructions, spec.dynamicSlice.uid ∈ i.operands →
          replUses spec.dynamicSlice.uid (st.nextUid + 1) i ∈
            st'.comp.instructions) ∧
        (st.comp.rootId = spec.dynamicSlice.uid →
          st'.comp.rootId = st.nextUid + 1)) ∧
      (spec.dynamicSlice.operands.getD 0 ar.uid = ar.uid →
        (∀ i ∈ st'.comp.instructions, ¬ i.uid = st.nextUid + 1) ∧
        (∀ i ∈ st.comp.instructions, spec.dynamicSlice.uid ∈ i.operands →
          replUses spec.dynamicSlice.uid st.nextUid i ∈
            st'.comp.instructions) ∧
        (st.comp.rootId = spec.dynamicSlice.uid →
          st'.comp.rootId = st.nextUid)) := by
  obtain ⟨f, hf, hts⟩ := MatchARS_inv hm
  have mf := matchFull_facts hf
  have hds : spec.dynamicSlice = f.ds := by rw [← hts]; rfl
  have harmem := (lookupInstr_mem hl).1
  have hwfs := (compWF_iff _ _).mp hwf
  have haru : ar.uid < st.nextUid := (hwfs ar harmem).1
  have hdsu : f.ds.uid < st.nextUid := (hwfs f.ds mf.ds_mem).1
  have hdsops : ∀ o ∈ f.ds.operands, o < f.ds.uid := (hwfs f.ds mf.ds_mem).2
  obtain ⟨srcUid, hsrc0, hsrcmem, hsrccase⟩ := mf.src
  have hsrclt : srcUid < f.ds.uid := hdsops _ hsrcmem
  refine ⟨rewriteState st ar spec, processInstr_match hl hop hm, ?_, ?_⟩
  · -- reshape case
    intro hcond
    have hvia : f.viaReshape = true := by
      rcases hsrccase with ⟨_, hsrcar⟩ | ⟨hv, _⟩
      · exact absurd (by rw [hds, hsrc0, hsrcar]) hcond
      · exact hv
    rw [rewriteState_reshape hwf harmem hf hts hvia]
    have har_lt_ds : ar.uid < f.ds.uid := by
      rcases hsrccase with ⟨hnv, _⟩ | ⟨_, rs, hrsmem, hrsuid, _, harin, _, _⟩
      · exact absurd hvia hnv
      · have := (hwfs rs hrsmem).2 _ harin
        omega
    refine ⟨?_, ?_, ?_⟩
    · -- the new reshape survives
      show newReshape st spec ∈ _
      apply mem_removeInstr_of _ (show ¬ (newReshape st spec).uid = ar.uid by
        show ¬ st.nextUid + 1 = ar.uid; omega)
      apply mem_removeInstr_of _
        (show ¬ (newReshape st spec).uid =
            spec.dynamicSlice.operands.getD 0 ar.uid by
          show ¬ st.nextUid + 1 = spec.dynamicSlice.operands.getD 0 ar.uid
          rw [hds, hsrc0]
          omega)
      apply mem_removeInstr_of _
        (show ¬ (newReshape st spec).uid = spec.dynamicSlice.uid by
          show ¬ st.nextUid + 1 = spec.dynamicSlice.uid; rw [hds]; omega)
      rw [replaceAllUsesWith_instructions]
      have hRe : replUses spec.dynamicSlice.uid (st.nextUid + 1)
          (newReshape st spec) = newReshape st spec := by
        apply replUses_of_not_mem
        show ¬ spec.dynamicSlice.uid ∈ [st.nextUid]
        rw [hds]
        simp
        omega
      have hm2 := List.mem_map_of_mem
        (replUses spec.dynamicSlice.uid (st.nextUid + 1))
        ((mem_addInstruction
          (c := addInstruction st.comp (newArs st ar spec))
          (j := newReshape st spec)).mpr (Or.inr rfl))
      rw [hRe] at hm2
      exact hm2
    · -- users of the slice are redirected and survive
      intro i himem hiop
      have hilt : f.ds.uid < i.uid := (hwfs i himem).2 _ (hds ▸ hiop)
      apply mem_removeInstr_of _
        (show ¬ (replUses spec.dynamicSlice.uid (st.nextUid + 1) i).uid =
            ar.uid by rw [replUses_uid]; omega)
      apply mem_removeInstr_of _
        (show ¬ (replUses spec.dynamicSlice.uid (st.nextUid + 1) i).uid =
            spec.dynamicSlice.operands.getD 0 ar.uid by
          rw [replUses_uid, hds, hsrc0]; omega)
      apply mem_removeInstr_of _
        (show ¬ (replUses spec.dynamicSlice.uid (st.nextUid + 1) i).uid =
            spec.dynamicSlice.uid by rw [replUses_uid, hds]; omega)
      rw [replaceAllUsesWith_instructions]
      exact List.mem_map_of_mem _
        ((mem_addInstruction).mpr (Or.inl ((mem_addInstruction).mpr
          (Or.inl himem))))
    · -- root redirection
      intro hroot
      show (removeInstr (removeInstr (removeInstr (replaceAllUsesWith _
        spec.dynamicSlice.uid (st.nextUid + 1)) _) _) _).rootId = _
      show (if st.comp.rootId = spec.dynamicSlice.uid then st.nextUid + 1
        else st.comp.rootId) = st.nextUid + 1
      rw [if_pos hroot]
  · -- direct case
    intro hcond
    have hvia : f.viaReshape = false := by
      rcases hsrccase with ⟨hnv, _⟩ | ⟨hv, rs, hrsmem, hrsuid, _, harin, _, _⟩
      · cases hnvv : f.viaReshape with
        | false => rfl
        | true => exact absurd hnvv hnv
      · have := (hwfs rs hrsmem).2 _ harin
        rw [hds, hsrc0, ← hrsuid] at hcond
        omega
    rw [rewriteState_direct hwf harmem hf hts hvia]
    refine ⟨?_, ?_, ?_⟩
    · -- nothing with uid nextUid+1 exists
      intro i himem
      obtain ⟨hi4, _⟩ := mem_removeInstr_of_mem himem
      obtain ⟨hi3, _⟩ := mem_removeInstr_of_mem hi4
      rw [replaceAllUsesWith_instructions] at hi3
      obtain ⟨i0, hi0, hieq⟩ := List.mem_map.mp hi3
      rcases mem_addInstruction.mp hi0 with hold | hnew
      · have := (hwfs i0 hold).1
        rw [← hieq, replUses_uid]
        omega
      · rw [← hieq, replUses_uid, hnew]
        show ¬ st.nextUid = st.nextUid + 1
        omega
    · intro i himem hiop
      have hilt : f.ds.uid < i.uid := (hwfs i himem).2 _ (hds ▸ hiop)
      have har_lt_ds : ar.uid < f.ds.uid := by
        rcases hsrccase with ⟨_, hsrcar⟩ | ⟨hv, _⟩
        · omega
        · rw [hvia] at hv
          cases hv
      apply mem_removeInstr_of _
        (show ¬ (replUses spec.dynamicSlice.uid st.nextUid i).uid = ar.uid by
          rw [replUses_uid]; omega)
      apply mem_removeInstr_of _
        (show ¬ (replUses spec.dynamicSlice.uid st.nextUid i).uid =
            spec.dynamicSlice.uid by rw [replUses_uid, hds]; omega)
      rw [replaceAllUsesWith_instructions]
      exact List.mem_map_of_mem _ ((mem_addInstruction).mpr (Or.inl himem))
    · intro hroot
      show (if st.comp.rootId = spec.dynamicSlice.uid then st.nextUid
        else st.comp.rootId) = st.nextUid
      rw [if_pos hroot]

/-- Witness for C5 on the `AllReplicasWithReshape` test graph: a reshape
intervened, so the rewrite adds a reshape of shape `[4,16,64]` (the
original slice's shape) atop the new reduce-scatter, and the slice's root
position moves to it. -/
theorem claim_C5_witness :
    compWF compWithReshape 11 = true ∧
    (∃ st', processInstr 1 8 ⟨compWithReshape, 1, 11, false⟩ 1 =
        Except.ok st' ∧
      (¬ ([9, 7, 8, 8] : List Nat).getD 0 1 = 1 →
        ({ uid := 12, opcode := HloOpcode.kReshape, operands := [11],
           dims := [4, 16, 64], constVals := [], dynamicSliceSizes := [],
           replicaGroups := [], toApply := 0, constrainLayout := false,
           channelId := none, useGlobalDeviceIds := false,
           scatterDimension := 0 } : HloInstruction) ∈
          st'.comp.instructions ∧
        (∀ i ∈ compWithReshape.instructions, 10 ∈ i.operands →
          replUses 10 12 i ∈ st'.comp.instructions) ∧
        (compWithReshape.rootId = 10 → st'.comp.rootId = 12)) ∧
      (([9, 7, 8, 8] : List Nat).getD 0 1 = 1 →
        (∀ i ∈ st'.comp.instructions, ¬ i.uid = 12) ∧
        (∀ i ∈ compWithReshape.instructions, 10 ∈ i.operands →
          replUses 10 11 i ∈ st'.comp.instructions) ∧
        (compWithReshape.rootId = 10 → st'.comp.rootId = 11))) :=
  ⟨by decide,
    @claim_C5 1 8 ⟨compWithReshape, 1, 11, false⟩ 1
      (mkInstr 1 HloOpcode.kAllReduce [0] [32, 8, 128])
      ⟨0, 8, { mkInstr 10 HloOpcode.kDynamicSlice [9, 7, 8, 8]
        [4, 16, 64] with dynamicSliceSizes := [4, 16, 64] }⟩
      (by decide) (by decide) (by decide) (by decide)⟩

/-- Claim C8: the loop body for one candidate either leaves the state
exactly unchanged, or aborts with an error before any mutation escapes,
or completes the rewrite in full — in which case the matched slice and
the reduction are gone and no surviving instruction references the
removed slice (the slice was detached before anything was removed). -/
theorem claim_C8 (P R : Nat) (st : PassState) (uid : Nat)
    (hwf : compWF st.comp st.nextUid = true) :
    processInstr P R st uid = Except.ok st ∨
    (∃ e, processInstr P R st uid = Except.error e) ∨
    (∃ ar spec st', lookupInstr st.comp uid = some ar ∧
      MatchAllReduceScatter P R st.comp ar = some spec ∧
      processInstr P R st uid = Except.ok st' ∧ st'.changed = true ∧
      (∀ i ∈ st'.comp.instructions, ¬ i.uid = spec.dynamicSlice.uid ∧
        ¬ i.uid = ar.uid ∧ ¬ spec.dynamicSlice.uid ∈ i.operands)) := by
  cases hl : lookupInstr st.comp uid with
  | none => exact Or.inl (processInstr_not_found hl)
  | some ar =>
    by_cases hop : ar.opcode = HloOpcode.kAllReduce
    · cases hm : MatchAllReduceScatter P R st.comp ar with
      | none => exact Or.inl (processInstr_no_match hl hm)
      | some spec =>
        refine Or.inr (Or.inr ⟨ar, spec, rewriteState st ar spec, rfl, hm,
          processInstr_match hl hop hm, rfl, ?_⟩)
        obtain ⟨f, hf, hts⟩ := MatchARS_inv hm
        have mf := matchFull_facts hf
        have hds : spec.dynamicSlice = f.ds := by rw [← hts]; rfl
        have harmem := (lookupInstr_mem hl).1
        have hwfs := (compWF_iff _ _).mp hwf
        have haru : ar.uid < st.nextUid := (hwfs ar harmem).1
        have hdsu : f.ds.uid < st.nextUid := (hwfs f.ds mf.ds_mem).1
        intro i himem
        cases hvia : f.viaReshape with
        | false =>
          rw [rewriteState_direct hwf harmem hf hts hvia] at himem
          obtain ⟨hi4, hiar⟩ := mem_removeInstr_of_mem himem
          obtain ⟨hi3, hids⟩ := mem_removeInstr_of_mem hi4
          refine ⟨hids, hiar, ?_⟩
          rw [replaceAllUsesWith_instructions] at hi3
          obtain ⟨i0, _, hieq⟩ := List.mem_map.mp hi3
          rw [← hieq]
          apply not_mem_replUses
          rw [hds]
          omega
        | true =>
          rw [rewriteState_reshape hwf harmem hf hts hvia] at himem
          obtain ⟨hi5, hiar⟩ := mem_removeInstr_of_mem himem
          obtain ⟨hi4, _⟩ := mem_removeInstr_of_mem hi5
          obtain ⟨hi3, hids⟩ := mem_removeInstr_of_mem hi4
          refine ⟨hids, hiar, ?_⟩
          rw [replaceAllUsesWith_instructions] at hi3
          obtain ⟨i0, _, hieq⟩ := List.mem_map.mp hi3
          rw [← hieq]
          apply not_mem_replUses
          rw [hds]
          omega
    · exact Or.inl (processInstr_not_allreduce hl hop)

/-- Witness for C8 on the `AllReplicas` test graph. -/
theorem claim_C8_witness :
    compWF compAllReplicas 10 = true ∧
    (processInstr 1 8 ⟨compAllReplicas, 1, 10, false⟩ 1 =
        Except.ok ⟨compAllReplicas, 1, 10, false⟩ ∨
      (∃ e, processInstr 1 8 ⟨compAllReplicas, 1, 10, false⟩ 1 =
        Except.error e) ∨
      (∃ ar spec st', lookupInstr compAllReplicas 1 = some ar ∧
        MatchAllReduceScatter 1 8 compAllReplicas ar = some spec ∧
        processInstr 1 8 ⟨compAllReplicas, 1, 10, false⟩ 1 =
          Except.ok st' ∧ st'.changed = true ∧
        (∀ i ∈ st'.comp.instructions, ¬ i.uid = spec.dynamicSlice.uid ∧
          ¬ i.uid = ar.uid ∧ ¬ spec.dynamicSlice.uid ∈ i.operands))) :=
  ⟨by decide, claim_C8 1 8 ⟨compAllReplicas, 1, 10, false⟩ 1 (by decide)⟩

theorem hasNoAllReduce_iff {m : HloModule} : hasNoAllReduce m = true ↔
    ∀ c ∈ m.computations, c.isFusion = true ∨
      ∀ i ∈ c.instructions, ¬ i.opcode = HloOpcode.kAllReduce := by
  simp [hasNoAllReduce, List.all_eq_true, Bool.or_eq_true]

theorem processList_no_ar {P R : Nat} {st : PassState}
    (h : ∀ i ∈ st.comp.instructions, ¬ i.opcode = HloOpcode.kAllReduce) :
    ∀ l, processList P R st l = Except.ok st := by
  intro l
  induction l with
  | nil => rfl
  | cons u rest ih =>
    have hpi : processInstr P R st u = Except.ok st := by
      cases hl : lookupInstr st.comp u with
      | none => exact processInstr_not_found hl
      | some i =>
        exact processInstr_not_allreduce hl (h i (lookupInstr_mem hl).1)
    simp only [processList, hpi]
    exact ih

theorem runComputation_no_ar {P R ch nu : Nat} {c : HloComputation}
    (h : ∀ i ∈ c.instructions, ¬ i.opcode = HloOpcode.kAllReduce) :
    runComputation P R ch nu c = Except.ok (c, ch, nu, false) := by
  rw [runComputation]
  rw [processList_no_ar h]

theorem runComps_no_ar {P R : Nat} : ∀ (cs : List HloComputation) (ch nu : Nat),
    (∀ c ∈ cs, c.isFusion = true ∨
      ∀ i ∈ c.instructions, ¬ i.opcode = HloOpcode.kAllReduce) →
    runComps P R cs ch nu = Except.ok (cs, ch, nu, false) := by
  intro cs
  induction cs with
  | nil => intro ch nu _; rfl
  | cons c rest ih =>
    intro ch nu h
    have hrest : ∀ c2 ∈ rest, c2.isFusion = true ∨
        ∀ i ∈ c2.instructions, ¬ i.opcode = HloOpcode.kAllReduce :=
      fun c2 hc2 => h c2 (by simp [hc2])
    rw [runComps]
    by_cases hf : c.isFusion = true
    · rw [if_pos hf, ih ch nu hrest]
    · rw [if_neg hf]
      rcases h c (by simp) with hfus | hnoar
      · exact absurd hfus hf
      · rw [runComputation_no_ar hnoar]
        show (match runComps P R rest ch nu with
          | Except.error e => Except.error e
          | Except.ok (cs2, ch2, nu2, chg2) =>
            Except.ok (c :: cs2, ch2, nu2, false || chg2)) =
          Except.ok (c :: rest, ch, nu, false)
        rw [ih ch nu hrest]
        rfl

/-- With no matching candidates anywhere, the run returns the module
unchanged and reports `changed = false`. -/
theorem Run_noAllReduce {m : HloModule} (h : hasNoAllReduce m = true) :
    AllReduceScatterCreatorRun m = Except.ok (m, false) := by
  rw [AllReduceScatterCreatorRun]
  rw [runComps_no_ar m.computations _ _ (hasNoAllReduce_iff.mp h)]

/-- Claim C9: a module with no all-reduce instruction in any non-fusion
computation is returned exactly as it was, with `changed = false`. -/
theorem claim_C9 {m : HloModule} (h : hasNoAllReduce m = true) :
    AllReduceScatterCreatorRun m = Except.ok (m, false) :=
  Run_noAllReduce h

/-- Witness for C9 on a single-parameter module. -/
theorem claim_C9_witness :
    hasNoAllReduce mNoAllReduce = true ∧
    AllReduceScatterCreatorRun mNoAllReduce =
      Except.ok (mNoAllReduce, false) :=
  ⟨by decide, @claim_C9 mNoAllReduce (by decide)⟩

/-! ## Channel-id freshness machinery -/

theorem mem_removeUnused_subset :
    ∀ (fuel : Nat) (ws : List Nat) (c : HloComputation) {i : HloInstruction},
      i ∈ (removeUnused c fuel ws).instructions → i ∈ c.instructions := by
  intro fuel
  induction fuel with
  | zero =>
    intro ws c i h
    simp only [removeUnused] at h
    exact h
  | succ n ih =>
    intro ws c i h
    cases ws with
    | nil => simpa only [removeUnused] using h
    | cons u rest =>
      rw [removeUnused] at h
      split at h
      case h_1 => exact ih rest c h
      case h_2 j hl =>
        split at h
        case isTrue => exact (mem_removeInstr_of_mem (ih _ _ h)).1
        case isFalse => exact ih rest c h

theorem replUses_channelId (o n : Nat) (i : HloInstruction) :
    (replUses o n i).channelId = i.channelId := rfl

theorem rewriteState_nextCh (st : PassState) (ar : HloInstruction)
    (spec : ReduceScatterSpec) :
    (rewriteState st ar spec).nextCh =
      if ar.channelId.isSome then st.nextCh + 1 else st.nextCh := rfl

theorem rewriteState_nextUid (st : PassState) (ar : HloInstruction)
    (spec : ReduceScatterSpec) :
    (rewriteState st ar spec).nextUid =
      if ¬ spec.dynamicSlice.operands.getD 0 ar.uid = ar.uid
      then st.nextUid + 2 else st.nextUid + 1 := rfl

/-- Every instruction of the rewritten computation is an original
instruction with its uid and channel id intact, the new reduce-scatter, or
the new reshape. -/
theorem rewriteState_mem_origin {st : PassState} {ar : HloInstruction}
    {spec : ReduceScatterSpec} {i : HloInstruction}
    (h : i ∈ (rewriteState st ar spec).comp.instructions) :
    (∃ i0 ∈ st.comp.instructions, i.uid = i0.uid ∧
      i.channelId = i0.channelId) ∨
    (i.uid = st.nextUid ∧
      i.channelId = (if ar.channelId.isSome then some st.nextCh else none)) ∨
    (¬ spec.dynamicSlice.operands.getD 0 ar.uid = ar.uid ∧
      i.uid = st.nextUid + 1 ∧ i.channelId = none) := by
  by_cases hc : ¬ spec.dynamicSlice.operands.getD 0 ar.uid = ar.uid
  · simp only [rewriteState] at h
    rw [if_pos hc, if_pos hc, if_pos hc] at h
    have h2 := mem_removeUnused_subset _ _ _ h
    obtain ⟨h3, _⟩ := mem_removeInstr_of_mem h2
    obtain ⟨h4, _⟩ := mem_removeInstr_of_mem h3
    obtain ⟨h5, _⟩ := mem_removeInstr_of_mem h4
    rw [replaceAllUsesWith_instructions] at h5
    obtain ⟨i0, hi0, hieq⟩ := List.mem_map.mp h5
    rcases mem_addInstruction.mp hi0 with hi1 | hrs
    · rcases mem_addInstruction.mp hi1 with hold | hars
      · exact Or.inl ⟨i0, hold, by rw [← hieq, replUses_uid],
          by rw [← hieq, replUses_channelId]⟩
      · refine Or.inr (Or.inl ⟨?_, ?_⟩)
        · rw [← hieq, replUses_uid, hars]
          rfl
        · rw [← hieq, replUses_channelId, hars]
          rfl
    · refine Or.inr (Or.inr ⟨hc, ?_, ?_⟩)
      · rw [← hieq, replUses_uid, hrs]
        rfl
      · rw [← hieq, replUses_channelId, hrs]
        rfl
  · simp only [rewriteState] at h
    rw [if_neg hc, if_neg hc, if_neg hc] at h
    have h2 := mem_removeUnused_subset _ _ _ h
    obtain ⟨h3, _⟩ := mem_removeInstr_of_mem h2
    obtain ⟨h4, _⟩ := mem_removeInstr_of_mem h3
    rw [replaceAllUsesWith_instructions] at h4
    obtain ⟨i0, hi0, hieq⟩ := List.mem_map.mp h4
    rcases mem_addInstruction.mp hi0 with hold | hars
    · exact Or.inl ⟨i0, hold, by rw [← hieq, replUses_uid],
        by rw [← hieq, replUses_channelId]⟩
    · refine Or.inr (Or.inl ⟨?_, ?_⟩)
      · rw [← hieq, replUses_uid, hars]
        rfl
      · rw [← hieq, replUses_channelId, hars]
        rfl

theorem ChanInv_congr {U C0 ch nu : Nat} {is1 is2 : List HloInstruction}
    (hiff : ∀ x, x ∈ is1 ↔ x ∈ is2) (h : ChanInv U C0 is1 ch nu) :
    ChanInv U C0 is2 ch nu := by
  obtain ⟨h1, h2, h3, h4, h5⟩ := h
  exact ⟨h1, h2, fun i hi => h3 i ((hiff i).mpr hi),
    fun i hi => h4 i ((hiff i).mpr hi),
    fun i hi j hj => h5 i ((hiff i).mpr hi) j ((hiff j).mpr hj)⟩

theorem instrsOf_cons (c : HloComputation) (cs : List HloComputation) :
    instrsOf (c :: cs) = c.instructions ++ instrsOf cs := rfl

theorem mem_instrsOf {cs : List HloComputation} {i : HloInstruction} :
    i ∈ instrsOf cs ↔ ∃ c ∈ cs, i ∈ c.instructions := by
  induction cs with
  | nil => simp [instrsOf]
  | cons c rest ih =>
    rw [instrsOf_cons]
    simp only [List.mem_append, List.mem_cons, ih]
    constructor
    · rintro (h | ⟨c2, hc2, hi⟩)
      · exact ⟨c, Or.inl rfl, h⟩
      · exact ⟨c2, Or.inr hc2, hi⟩
    · rintro ⟨c2, hc2 | hc2, hi⟩
      · rw [hc2] at hi
        exact Or.inl hi
      · exact Or.inr ⟨c2, hc2, hi⟩

theorem moduleInstructions_eq (m : HloModule) :
    moduleInstructions m = instrsOf m.computations := rfl

theorem chanFoldInstr_le (l : List HloInstruction) :
    ∀ a : Nat, a ≤ l.foldl (fun b i => match i.channelId with
      | some ch => max b (ch + 1)
      | none => b) a := by
  induction l with
  | nil => intro a; exact Nat.le_refl a
  | cons i t ih =>
    intro a
    refine Nat.le_trans ?_ (ih (match i.channelId with
      | some ch => max a (ch + 1)
      | none => a))
    cases i.channelId with
    | none => exact Nat.le_refl a
    | some ch => exact Nat.le_max_left a (ch + 1)

theorem chanFoldInstr_mem {l : List HloInstruction} {i : HloInstruction}
    (hmem : i ∈ l) {c : Nat} (hc : i.channelId = some c) :
    ∀ a : Nat, c < l.foldl (fun b i => match i.channelId with
      | some ch => max b (ch + 1)
      | none => b) a := by
  induction l with
  | nil => cases hmem
  | cons j t ih =>
    intro a
    rcases List.mem_cons.mp hmem with hij | hit
    · subst hij
      rw [List.foldl_cons, hc]
      have h1 : c < max a (c + 1) := by omega
      exact Nat.lt_of_lt_of_le h1 (chanFoldInstr_le t _)
    · rw [List.foldl_cons]
      exact ih hit _

theorem chanFoldComps_le (cs : List HloComputation) :
    ∀ a : Nat, a ≤ cs.foldl (fun a c => c.instructions.foldl
      (fun b i => match i.channelId with
        | some ch => max b (ch + 1)
        | none => b) a) a := by
  induction cs with
  | nil => intro a; exact Nat.le_refl a
  | cons c t ih =>
    intro a
    exact Nat.le_trans (chanFoldInstr_le c.instructions a) (ih _)

/-- `NextChannelId` strictly exceeds every channel id in use anywhere in
the module. -/
theorem NextChannelId_gt {m : HloModule} {i : HloInstruction}
    (hmem : i ∈ moduleInstructions m) {c : Nat}
    (hc : i.channelId = some c) : c < NextChannelId m := by
  rw [moduleInstructions_eq, mem_instrsOf] at hmem
  obtain ⟨comp, hcomp, hi⟩ := hmem
  rw [NextChannelId]
  have hgen : ∀ (cs : List HloComputation), comp ∈ cs → ∀ a : Nat,
      c < cs.foldl (fun a c2 => c2.instructions.foldl
        (fun b i => match i.channelId with
          | some ch => max b (ch + 1)
          | none => b) a) a := by
    intro cs
    induction cs with
    | nil => intro h; cases h
    | cons c2 t ih =>
      intro hmem2 a
      rcases List.mem_cons.mp hmem2 with he | ht
      · subst he
        rw [List.foldl_cons]
        exact Nat.lt_of_lt_of_le (chanFoldInstr_mem hi hc a)
          (chanFoldComps_le t _)
      · rw [List.foldl_cons]
        exact ih ht _
  exact hgen m.computations hcomp 1

/-- One loop-body step preserves the channel-freshness invariant (stated
with an arbitrary frame `os` of untouched instructions from other
computations). -/
theorem processInstr_ChanInv {P R U C0 : Nat} {os : List HloInstruction}
    {st st' : PassState} {uid : Nat}
    (hrun : processInstr P R st uid = Except.ok st')
    (hinv : ChanInv U C0 (os ++ st.comp.instructions) st.nextCh st.nextUid) :
    st.nextCh ≤ st'.nextCh ∧ st.nextUid ≤ st'.nextUid ∧
    ChanInv U C0 (os ++ st'.comp.instructions) st'.nextCh st'.nextUid := by
  cases hl : lookupInstr st.comp uid with
  | none =>
    rw [processInstr_not_found hl] at hrun
    cases Except.ok.inj hrun
    exact ⟨Nat.le_refl _, Nat.le_refl _, hinv⟩
  | some ar =>
    by_cases hop : ar.opcode = HloOpcode.kAllReduce
    · cases hm : MatchAllReduceScatter P R st.comp ar with
      | none =>
        rw [processInstr_no_match hl hm] at hrun
        cases Except.ok.inj hrun
        exact ⟨Nat.le_refl _, Nat.le_refl _, hinv⟩
      | some spec =>
        rw [processInstr_match hl hop hm] at hrun
        cases Except.ok.inj hrun
        obtain ⟨hc0, hUnu, hD, hE, hF⟩ := hinv
        have hchle : st.nextCh ≤ (rewriteState st ar spec).nextCh := by
          cases hsome : ar.channelId.isSome <;>
            simp [rewriteState_nextCh, hsome]
        have hch2 : ar.channelId.isSome = true →
            (rewriteState st ar spec).nextCh = st.nextCh + 1 := by
          intro h
          simp [rewriteState_nextCh, h]
        have hnu1 : st.nextUid + 1 ≤ (rewriteState st ar spec).nextUid := by
          rw [rewriteState_nextUid]
          by_cases hvc : ¬ spec.dynamicSlice.operands.getD 0 ar.uid = ar.uid
          · rw [if_pos hvc]
            omega
          · rw [if_neg hvc]
        have hnu2 : ¬ spec.dynamicSlice.operands.getD 0 ar.uid = ar.uid →
            (rewriteState st ar spec).nextUid = st.nextUid + 2 := by
          intro h
          rw [rewriteState_nextUid, if_pos h]
        have hnule : st.nextUid ≤ (rewriteState st ar spec).nextUid := by
          omega
        have hprof : ∀ x ∈ os ++ (rewriteState st ar spec).comp.instructions,
            (∃ x0 ∈ os ++ st.comp.instructions, x.uid = x0.uid ∧
              x.channelId = x0.channelId) ∨
            (x.uid = st.nextUid ∧ x.channelId =
              (if ar.channelId.isSome then some st.nextCh else none)) ∨
            (¬ spec.dynamicSlice.operands.getD 0 ar.uid = ar.uid ∧
              x.uid = st.nextUid + 1 ∧ x.channelId = none) := by
          intro x hx
          rcases List.mem_append.mp hx with hxo | hxn
          · exact Or.inl ⟨x, List.mem_append.mpr (Or.inl hxo), rfl, rfl⟩
          · rcases rewriteState_mem_origin hxn with ⟨x0, hx0, h1, h2⟩ | h | h
            · exact Or.inl ⟨x0, List.mem_append.mpr (Or.inr hx0), h1, h2⟩
            · exact Or.inr (Or.inl h)
            · exact Or.inr (Or.inr h)
        have holdE : ∀ x : HloInstruction,
            (∃ x0 ∈ os ++ st.comp.instructions, x.uid = x0.uid ∧
              x.channelId = x0.channelId) → U ≤ x.uid →
            ∀ c, x.channelId = some c → C0 ≤ c ∧ c < st.nextCh := by
          rintro x ⟨x0, hx0m, hxu, hxch⟩ hUx c hxc
          refine hE x0 hx0m (by omega) c ?_
          rw [← hxch]
          exact hxc
        refine ⟨hchle, hnule, Nat.le_trans hc0 hchle,
          Nat.le_trans hUnu hnule, ?_, ?_, ?_⟩
        · -- uid bound
          intro x hx
          rcases hprof x hx with ⟨x0, hx0m, hxu, _⟩ | ⟨hxu, _⟩ | ⟨hvc, hxu, _⟩
          · have := hD x0 hx0m
            omega
          · omega
          · have := hnu2 hvc
            omega
        · -- channel range for pass-created instructions
          intro x hx hUx c hxc
          rcases hprof x hx with hold | ⟨hxu, hxch⟩ | ⟨_, _, hxch⟩
          · have := holdE x hold hUx c hxc
            omega
          · rw [hxch] at hxc
            cases hsome : ar.channelId.isSome with
            | false => rw [hsome] at hxc; simp at hxc
            | true =>
              rw [hsome] at hxc
              simp at hxc
              have := hch2 hsome
              omega
          · rw [hxch] at hxc
            cases hxc
        · -- pairwise distinctness of minted channel ids
          intro x hx y hy hUx hUy hxyne ci cj hci hcj
          rcases hprof x hx with hxold | ⟨hxu, hxch⟩ | ⟨_, _, hxch⟩
          · rcases hprof y hy with hyold | ⟨hyu, hych⟩ | ⟨_, _, hych⟩
            · obtain ⟨x0, hx0m, hxu, hxch⟩ := hxold
              obtain ⟨y0, hy0m, hyu, hych⟩ := hyold
              refine hF x0 hx0m y0 hy0m (by omega) (by omega) (by omega)
                ci cj ?_ ?_
              · rw [← hxch]; exact hci
              · rw [← hych]; exact hcj
            · have h1 := holdE x hxold hUx ci hci
              rw [hych] at hcj
              cases hsome : ar.channelId.isSome with
              | false => rw [hsome] at hcj; simp at hcj
              | true =>
                rw [hsome] at hcj
                simp at hcj
                omega
            · rw [hych] at hcj
              cases hcj
          · rcases hprof y hy with hyold | ⟨hyu, hych⟩ | ⟨_, _, hych⟩
            · have h1 := holdE y hyold hUy cj hcj
              rw [hxch] at hci
              cases hsome : ar.channelId.isSome with
              | false => rw [hsome] at hci; simp at hci
              | true =>
                rw [hsome] at hci
                simp at hci
                omega
            · omega
            · rw [hych] at hcj
              cases hcj
          · rw [hxch] at hci
            cases hci
    · rw [processInstr_not_allreduce hl hop] at hrun
      cases Except.ok.inj hrun
      exact ⟨Nat.le_refl _, Nat.le_refl _, hinv⟩

theorem processList_ChanInv {P R U C0 : Nat} {os : List HloInstruction} :
    ∀ (l : List Nat) (st st' : PassState),
      processList P R st l = Except.ok st' →
      ChanInv U C0 (os ++ st.comp.instructions) st.nextCh st.nextUid →
      st.nextCh ≤ st'.nextCh ∧ st.nextUid ≤ st'.nextUid ∧
      ChanInv U C0 (os ++ st'.comp.instructions) st'.nextCh st'.nextUid := by
  intro l
  induction l with
  | nil =>
    intro st st' h hinv
    cases Except.ok.inj h
    exact ⟨Nat.le_refl _, Nat.le_refl _, hinv⟩
  | cons u rest ih =>
    intro st st' h hinv
    rw [processList] at h
    cases hpi : processInstr P R st u with
    | error e => rw [hpi] at h; cases h
    | ok st1 =>
      rw [hpi] at h
      obtain ⟨h1, h2, hinv1⟩ := processInstr_ChanInv hpi hinv
      obtain ⟨h3, h4, hinv2⟩ := ih st1 st' h hinv1
      exact ⟨Nat.le_trans h1 h3, Nat.le_trans h2 h4, hinv2⟩

theorem runComputation_ChanInv {P R U C0 ch nu : Nat}
    {os : List HloInstruction} {c c' : HloComputation} {ch' nu' : Nat}
    {b : Bool}
    (h : runComputation P R ch nu c = Except.ok (c', ch', nu', b))
    (hinv : ChanInv U C0 (os ++ c.instructions) ch nu) :
    ch ≤ ch' ∧ nu ≤ nu' ∧ ChanInv U C0 (os ++ c'.instructions) ch' nu' := by
  rw [runComputation] at h
  cases hpl : processList P R ⟨c, ch, nu, false⟩
      (c.instructions.map (fun i => i.uid)) with
  | error e => rw [hpl] at h; cases h
  | ok stx =>
    rw [hpl] at h
    have h3 : (stx.comp, stx.nextCh, stx.nextUid, stx.changed) = (c', ch', nu', b) :=
      Except.ok.inj h
    simp only [Prod.mk.injEq] at h3
    obtain ⟨hc, hch, hnu, hb⟩ := h3
    obtain ⟨h1, h2, hinv1⟩ := processList_ChanInv _ _ _ hpl hinv
    subst hc hch hnu
    exact ⟨h1, h2, hinv1⟩

theorem runComps_ChanInv {P R U C0 : Nat} :
    ∀ (cs : List HloComputation) (os : List HloInstruction) (ch nu : Nat)
      (cs' : List HloComputation) (ch' nu' : Nat) (b : Bool),
      runComps P R cs ch nu = Except.ok (cs', ch', nu', b) →
      ChanInv U C0 (os ++ instrsOf cs) ch nu →
      ch ≤ ch' ∧ nu ≤ nu' ∧ ChanInv U C0 (os ++ instrsOf cs') ch' nu' := by
  intro cs
  induction cs with
  | nil =>
    intro os ch nu cs' ch' nu' b h hinv
    rw [runComps] at h
    have h3 : (([] : List HloComputation), ch, nu, false) = (cs', ch', nu', b) :=
      Except.ok.inj h
    simp only [Prod.mk.injEq] at h3
    obtain ⟨hc, hch, hnu, hb⟩ := h3
    subst hc hch hnu
    exact ⟨Nat.le_refl _, Nat.le_refl _, hinv⟩
  | cons c rest ih =>
    intro os ch nu cs' ch' nu' b h hinv
    rw [runComps] at h
    by_cases hf : c.isFusion
    · rw [if_pos hf] at h
      cases hr : runComps P R rest ch nu with
      | error e => rw [hr] at h; cases h
      | ok q =>
        obtain ⟨cs2, ch2, nu2, chg⟩ := q
        rw [hr] at h
        have h3 : (c :: cs2, ch2, nu2, chg) = (cs', ch', nu', b) := Except.ok.inj h
        simp only [Prod.mk.injEq] at h3
        obtain ⟨hc, hch, hnu, hb⟩ := h3
        subst hc hch hnu
        have hinv1 : ChanInv U C0 ((os ++ c.instructions) ++ instrsOf rest) ch nu := by
          refine ChanInv_congr (fun x => ?_) hinv
          simp only [instrsOf_cons, List.mem_append]
          tauto
        obtain ⟨h1, h2, hinv2⟩ := ih (os ++ c.instructions) ch nu cs2 ch2 nu2 chg hr hinv1
        refine ⟨h1, h2, ChanInv_congr (fun x => ?_) hinv2⟩
        simp only [instrsOf_cons, List.mem_append]
        tauto
    · rw [if_neg hf] at h
      cases hr1 : runComputation P R ch nu c with
      | error e => rw [hr1] at h; cases h
      | ok q1 =>
        obtain ⟨c2, ch1, nu1, chg1⟩ := q1
        rw [hr1] at h
        dsimp only at h
        cases hr2 : runComps P R rest ch1 nu1 with
        | error e => rw [hr2] at h; cases h
        | ok q2 =>
          obtain ⟨cs2, ch2, nu2, chg2⟩ := q2
          rw [hr2] at h
          have h3 : (c2 :: cs2, ch2, nu2, chg1 || chg2) = (cs', ch', nu', b) :=
            Except.ok.inj h
          simp only [Prod.mk.injEq] at h3
          obtain ⟨hc, hch, hnu, hb⟩ := h3
          subst hc hch hnu
          have hinv0 : ChanInv U C0 ((os ++ instrsOf rest) ++ c.instructions) ch nu := by
            refine ChanInv_congr (fun x => ?_) hinv
            simp only [instrsOf_cons, List.mem_append]
            tauto
          obtain ⟨h1, h2, hinv1⟩ := runComputation_ChanInv hr1 hinv0
          have hinv1a : ChanInv U C0 ((os ++ c2.instructions) ++ instrsOf rest) ch1 nu1 := by
            refine ChanInv_congr (fun x => ?_) hinv1
            simp only [List.mem_append]
            tauto
          obtain ⟨h3, h4, hinv2⟩ :=
            ih (os ++ c2.instructions) ch1 nu1 cs2 ch2 nu2 chg2 hr2 hinv1a
          refine ⟨Nat.le_trans h1 h3, Nat.le_trans h2 h4,
            ChanInv_congr (fun x => ?_) hinv2⟩
          simp only [instrsOf_cons, List.mem_append]
          tauto

/-- C3: whenever the pass rewrites a reduction that carried a channel id,
every channel id on a pass-created instruction (uid at or above the
module's pre-pass uid frontier) strictly exceeds every channel id in use
anywhere in the module before the run — in particular it differs from the
original reduction's id and from every id already in use — and distinct
pass-created instructions carry pairwise distinct channel ids. -/
theorem claim_C3 {m m' : HloModule} {b : Bool}
    (hwf : moduleWF m = true)
    (hrun : AllReduceScatterCreatorRun m = Except.ok (m', b)) :
    ∀ i : HloInstruction, i ∈ moduleInstructions m' → m.nextUid ≤ i.uid →
      ∀ c, i.channelId = some c →
        (∀ j ∈ moduleInstructions m, ∀ cj, j.channelId = some cj → cj < c) ∧
        (∀ j ∈ moduleInstructions m', m.nextUid ≤ j.uid → ¬ i.uid = j.uid →
          ∀ cj, j.channelId = some cj → ¬ c = cj) := by
  rw [AllReduceScatterCreatorRun] at hrun
  cases hr : runComps m.numPartitions m.replicaCount m.computations
      (NextChannelId m) m.nextUid with
  | error e => rw [hr] at hrun; cases hrun
  | ok q =>
    obtain ⟨cs, chF, nuF, chg⟩ := q
    rw [hr] at hrun
    have h3 : (({ m with computations := cs, nextUid := nuF } : HloModule), chg)
        = (m', b) := Except.ok.inj hrun
    simp only [Prod.mk.injEq] at h3
    obtain ⟨hm', hb⟩ := h3
    subst hm'
    have hub : ∀ j ∈ instrsOf m.computations, j.uid < m.nextUid := by
      intro j hj
      rw [mem_instrsOf] at hj
      obtain ⟨cc, hcc, hjc⟩ := hj
      rw [moduleWF, List.all_eq_true] at hwf
      exact ((compWF_iff cc m.nextUid).mp (hwf cc hcc) j hjc).1
    have hinv0 : ChanInv m.nextUid (NextChannelId m)
        ([] ++ instrsOf m.computations) (NextChannelId m) m.nextUid := by
      refine ⟨Nat.le_refl _, Nat.le_refl _, ?_, ?_, ?_⟩
      · intro j hj
        exact hub j (by simpa using hj)
      · intro j hj hUj c2 hc2
        have := hub j (by simpa using hj)
        omega
      · intro j hj k hk hUj hUk hne cj ck hcj hck
        have := hub j (by simpa using hj)
        omega
    obtain ⟨hch, hnu, hinv1⟩ :=
      runComps_ChanInv m.computations [] (NextChannelId m) m.nextUid
        cs chF nuF chg hr hinv0
    obtain ⟨hc0, hU, hlt, hrange, hdist⟩ := hinv1
    intro i hi hui c hc
    constructor
    · intro j hj cj hcj
      have h1 : NextChannelId m ≤ c ∧ c < chF :=
        hrange i (by simpa using hi) hui c hc
      have h2 : cj < NextChannelId m := NextChannelId_gt hj hcj
      omega
    · intro j hj hUj hne cj hcj
      exact hdist i (by simpa using hi) j (by simpa using hj) hui hUj hne
        c cj hc hcj

theorem claim_C3_witness :
    moduleWF mChan = true ∧
    AllReduceScatterCreatorRun mChan = Except.ok (mChanOut, true) ∧
    (∀ j ∈ moduleInstructions mChan, ∀ cj, j.channelId = some cj → cj < 2) :=
  ⟨by decide, rfl,
    (@claim_C3 mChan mChanOut true (by decide) rfl
      ({ mkInstr 10 HloOpcode.kAllReduceScatter [0] [4, 8, 128] with
          channelId := some 2 })
      (by decide) (by decide) 2 rfl).1⟩

theorem clampSliceStart_noop {rk G s : Nat} (hrk : rk < G) :
    clampSliceStart (Int.ofNat (rk * s)) (s * G) s = rk * s := by
  rw [clampSliceStart]
  have h2 : (rk + 1) * s ≤ G * s := Nat.mul_le_mul_right s hrk
  rw [Nat.add_mul, Nat.one_mul, Nat.mul_comm G s] at h2
  simp only [Int.ofNat_eq_natCast]
  omega

theorem slice_eq_shard {α : Type} (v : Nat → α) {s G : Nat} (inner : Nat)
    {rk : Nat} (hrk : rk < G) :
    dynamicSliceAlongDim v (s * G) inner (Int.ofNat (rk * s)) s =
      reduceScatterShardAlongDim v (s * G) inner rk G := by
  funext idx
  have hG : 0 < G := Nat.lt_of_le_of_lt (Nat.zero_le rk) hrk
  have hdiv : s * G / G = s := Nat.mul_div_cancel s hG
  simp only [dynamicSliceAlongDim, reduceScatterShardAlongDim]
  rw [hdiv, clampSliceStart_noop hrk]

/-- C1: soundness of every rewrite.  Whenever the matcher accepts an
all-reduce (the exact condition under which the pass rewrites it), then for
every legal device id `(rid, pid)` the device has a well-defined rank `rk`
in its replica group, the slice-offset subgraph evaluates at that device to
exactly `rk * sliceSize`, and — on every flattened reduced array `v` — the
original dynamic slice of the reduction equals the shard that the
replacement reduce-scatter delivers to rank `rk` along the matched split
dimension of the reduction's own shape.  The slice side is computed over
the slice operand's dimensions and the shard side over the reduction's
dimensions: the matcher's reshape-boundary conditions make the two
flattened views coincide, so an intervening reshape (re-synthesised on the
reduce-scatter's result) preserves the value. -/
theorem claim_C1 {P R : Nat} {c : HloComputation} {ar : HloInstruction}
    {spec : ReduceScatterSpec} {rid pid : Nat}
    (hm : MatchAllReduceScatter P R c ar = some spec)
    (hr : rid < R) (hp : pid < P) :
    ∃ f : FullSpec, FullSpec.toSpec f = spec ∧
    ∃ rk : Nat,
      rankOf (effectiveGroups ar.useGlobalDeviceIds R P ar.replicaGroups)
        (deviceKey ar.useGlobalDeviceIds P rid pid) = some rk ∧
      rk < f.groupSize ∧
      evalScalar c c.instructions.length f.offsetUid rid pid =
        some (Int.ofNat (rk * matchSliceSize f)) ∧
      ∀ v : Nat → Int,
        dynamicSliceAlongDim v (f.srcDims.getD f.sliceDim 0)
            (suffixProd f.srcDims (f.sliceDim + 1))
            (Int.ofNat (rk * matchSliceSize f)) (matchSliceSize f) =
          reduceScatterShardAlongDim v (ar.dims.getD f.splitDim 0)
            (suffixProd ar.dims (f.splitDim + 1)) rk f.groupSize := by
  obtain ⟨f, hf, hts⟩ := MatchARS_inv hm
  have F := matchFull_facts hf
  refine ⟨f, hts, ?_⟩
  obtain ⟨rk, hrank, heval⟩ := analyzerOk_at F.analyzer hr hp
  have hrkG : rk < f.groupSize := rankOf_lt hrank F.groups_len
  refine ⟨rk, hrank, hrkG, heval, ?_⟩
  intro v
  have hn : ar.dims.getD f.splitDim 0 = f.srcDims.getD f.sliceDim 0 := by
    by_cases hv : f.viaReshape = true
    · exact (F.with_reshape hv).2.1
    · obtain ⟨hsd, hspl⟩ := F.no_reshape hv
      rw [hsd, hspl]
  have hinner : suffixProd ar.dims (f.splitDim + 1) =
      suffixProd f.srcDims (f.sliceDim + 1) := by
    by_cases hv : f.viaReshape = true
    · exact (F.with_reshape hv).2.2.2
    · obtain ⟨hsd, hspl⟩ := F.no_reshape hv
      rw [hsd, hspl]
  rw [hn, hinner, F.size_eq]
  exact slice_eq_shard v (suffixProd f.srcDims (f.sliceDim + 1)) hrkG

/-- Witness for C1 on the `AllReplicas` test graph at device
`(replica 3, partition 0)`: the offset subgraph evaluates to `3 * 4 = 12`
and the slice equals rank 3's shard. -/
theorem claim_C1_witness :
    MatchAllReduceScatter 1 8 compAllReplicas
        (mkInstr 1 HloOpcode.kAllReduce [0] [32, 8, 128]) =
      some ⟨0, 8, { mkInstr 9 HloOpcode.kDynamicSlice [1, 7, 8, 8]
        [4, 8, 128] with dynamicSliceSizes := [4, 8, 128] }⟩ ∧
    (3 : Nat) < 8 ∧ (0 : Nat) < 1 ∧
    (∃ f : FullSpec,
      FullSpec.toSpec f =
        (⟨0, 8, { mkInstr 9 HloOpcode.kDynamicSlice [1, 7, 8, 8]
          [4, 8, 128] with dynamicSliceSizes := [4, 8, 128] }⟩ :
            ReduceScatterSpec) ∧
      ∃ rk : Nat,
        rankOf (effectiveGroups
            (mkInstr 1 HloOpcode.kAllReduce [0] [32, 8, 128]).useGlobalDeviceIds
            8 1
            (mkInstr 1 HloOpcode.kAllReduce [0] [32, 8, 128]).replicaGroups)
          (deviceKey
            (mkInstr 1 HloOpcode.kAllReduce [0] [32, 8, 128]).useGlobalDeviceIds
            1 3 0) = some rk ∧
        rk < f.groupSize ∧
        evalScalar compAllReplicas compAllReplicas.instructions.length
          f.offsetUid 3 0 = some (Int.ofNat (rk * matchSliceSize f)) ∧
        ∀ v : Nat → Int,
          dynamicSliceAlongDim v (f.srcDims.getD f.sliceDim 0)
              (suffixProd f.srcDims (f.sliceDim + 1))
              (Int.ofNat (rk * matchSliceSize f)) (matchSliceSize f) =
            reduceScatterShardAlongDim v
              ((mkInstr 1 HloOpcode.kAllReduce [0] [32, 8, 128]).dims.getD
                f.splitDim 0)
              (suffixProd
                (mkInstr 1 HloOpcode.kAllReduce [0] [32, 8, 128]).dims
                (f.splitDim + 1)) rk f.groupSize) :=
  ⟨by decide, by decide, by decide,
    @claim_C1 1 8 compAllReplicas
      (mkInstr 1 HloOpcode.kAllReduce [0] [32, 8, 128])
      ⟨0, 8, { mkInstr 9 HloOpcode.kDynamicSlice [1, 7, 8, 8]
        [4, 8, 128] with dynamicSliceSizes := [4, 8, 128] }⟩
      3 0 (by decide) (by decide) (by decide)⟩

/-! ## Idempotence machinery: list and lookup helpers -/

theorem uid_inj {c : HloComputation}
    (hnodup : (c.instructions.map (fun i => i.uid)).Nodup)
    {i j : HloInstruction} (hi : i ∈ c.instructions) (hj : j ∈ c.instructions)
    (he : i.uid = j.uid) : i = j :=
  List.inj_on_of_nodup_map hnodup hi hj he

theorem lookup_of_mem_nodup {c : HloComputation}
    (hnodup : (c.instructions.map (fun i => i.uid)).Nodup)
    {i : HloInstruction} (hi : i ∈ c.instructions) :
    lookupInstr c i.uid = some i := by
  cases hf : lookupInstr c i.uid with
  | none =>
    have := List.find?_eq_none.mp hf i hi
    simp at this
  | some j =>
    obtain ⟨hjmem, hjuid⟩ := lookupInstr_mem hf
    rw [uid_inj hnodup hjmem hi hjuid]

theorem find_append_some {α : Type} {p : α → Bool} {l1 l2 : List α} {x : α}
    (h : l1.find? p = some x) : (l1 ++ l2).find? p = some x := by
  induction l1 with
  | nil => cases h
  | cons a t ih =>
    rw [List.cons_append]
    by_cases hp : p a = true
    · rw [List.find?_cons_of_pos _ hp] at h ⊢
      exact h
    · rw [List.find?_cons_of_neg _ hp] at h ⊢
      exact ih h

theorem find_append_none {α : Type} {p : α → Bool} {l1 l2 : List α}
    (h : l1.find? p = none) : (l1 ++ l2).find? p = l2.find? p := by
  induction l1 with
  | nil => rfl
  | cons a t ih =>
    rw [List.cons_append]
    by_cases hp : p a = true
    · rw [List.find?_cons_of_pos _ hp] at h
      cases h
    · rw [List.find?_cons_of_neg _ hp] at h ⊢
      exact ih h

theorem find_map {α : Type} {f : α → α} {p : α → Bool}
    (hp : ∀ i, p (f i) = p i) :
    ∀ l : List α, (l.map f).find? p = (l.find? p).map f := by
  intro l
  induction l with
  | nil => rfl
  | cons a t ih =>
    rw [List.map_cons]
    by_cases hpa : p a = true
    · rw [List.find?_cons_of_pos _ (by rw [hp a]; exact hpa),
        List.find?_cons_of_pos _ hpa]
      rfl
    · rw [List.find?_cons_of_neg _ (by rw [hp a]; exact hpa),
        List.find?_cons_of_neg _ hpa]
      exact ih

theorem find_filter {α : Type} {p q : α → Bool}
    (h : ∀ i, p i = true → q i = true) :
    ∀ l : List α, (l.filter q).find? p = l.find? p := by
  intro l
  induction l with
  | nil => rfl
  | cons a t ih =>
    by_cases hq : q a = true
    · rw [List.filter_cons_of_pos hq]
      by_cases hpa : p a = true
      · rw [List.find?_cons_of_pos _ hpa, List.find?_cons_of_pos _ hpa]
      · rw [List.find?_cons_of_neg _ hpa, List.find?_cons_of_neg _ hpa]
        exact ih
    · rw [List.filter_cons_of_neg hq]
      by_cases hpa : p a = true
      · exact absurd (h a hpa) hq
      · rw [List.find?_cons_of_neg _ hpa]
        exact ih

theorem filter_congr_mem {α : Type} {p q : α → Bool} :
    ∀ {l : List α}, (∀ i ∈ l, p i = q i) → l.filter p = l.filter q := by
  intro l
  induction l with
  | nil => intro _; rfl
  | cons a t ih =>
    intro h
    have hrest : t.filter p = t.filter q := ih (fun i hi => h i (by simp [hi]))
    by_cases hpa : p a = true
    · rw [List.filter_cons_of_pos hpa,
        List.filter_cons_of_pos (by rw [← h a (by simp)]; exact hpa), hrest]
    · rw [List.filter_cons_of_neg hpa,
        List.filter_cons_of_neg (by rw [← h a (by simp)]; exact hpa), hrest]

theorem map_filter_comm {α : Type} (f : α → α) (p : α → Bool) :
    ∀ l : List α, (l.map f).filter p = (l.filter (fun i => p (f i))).map f := by
  intro l
  induction l with
  | nil => rfl
  | cons a t ih =>
    by_cases hp : p (f a) = true
    · simp [List.filter_cons, hp, ih]
    · simp [List.filter_cons, hp, ih]

theorem length_filter_lt {α : Type} {p : α → Bool} :
    ∀ {l : List α} {i : α}, i ∈ l → p i = false →
      (l.filter p).length < l.length := by
  intro l
  induction l with
  | nil => intro i h; cases h
  | cons a t ih =>
    intro i hi hp
    rcases List.mem_cons.mp hi with he | ht
    · subst he
      rw [List.filter_cons_of_neg (by rw [hp]; simp)]
      have := List.length_filter_le p t
      simp only [List.length_cons]
      omega
    · by_cases hpa : p a = true
      · rw [List.filter_cons_of_pos hpa]
        simp only [List.length_cons]
        exact Nat.succ_lt_succ (ih ht hp)
      · rw [List.filter_cons_of_neg hpa]
        simp only [List.length_cons]
        exact Nat.lt_trans (ih ht hp) (Nat.lt_succ_self _)

theorem mem_map_ite {l : List Nat} {u old res : Nat}
    (hu : u ∈ l) (hne : ¬ u = old) :
    u ∈ l.map (fun o => if o = old then res else o) := by
  have : (fun o => if o = old then res else o) u = u := if_neg hne
  rw [← this]
  exact List.mem_map_of_mem _ hu

theorem mem_map_ite_iff {l : List Nat} {u old res : Nat}
    (hne : ¬ u = old) (hner : ¬ u = res) :
    u ∈ l.map (fun o => if o = old then res else o) ↔ u ∈ l := by
  constructor
  · intro h
    obtain ⟨o, ho, heq⟩ := List.mem_map.mp h
    by_cases hod : o = old
    · rw [if_pos hod] at heq
      exact absurd heq.symm hner
    · rw [if_neg hod] at heq
      rw [← heq]
      exact ho
  · intro h
    exact mem_map_ite h hne


/-- More fuel never turns a successful scalar evaluation into a failure:
the result at any sufficient fuel is definitive. -/
theorem evalScalar_mono {c : HloComputation} :
    ∀ (f : Nat) {u r p : Nat} {v : Int},
      evalScalar c f u r p = some v →
      ∀ g, f ≤ g → evalScalar c g u r p = some v := by
  intro f
  induction f with
  | zero => intro u r p v h; cases h
  | succ n ih =>
    intro u r p v h g hg
    cases g with
    | zero => omega
    | succ m =>
      have hm : n ≤ m := Nat.le_of_succ_le_succ hg
      rw [evalScalar] at h ⊢
      cases hlk : lookupInstr c u with
      | none =>
        rw [hlk] at h
        dsimp only at h
        cases h
      | some i =>
        rw [hlk] at h
        dsimp only at h ⊢
        split at h
        next x heq => exact h
        next x heq => exact h
        next x heq => exact h
        next a heq1 heq2 => exact ih h m hm
        next a heq1 heq2 => exact ih h m hm
        next a b heq1 heq2 =>
          cases ha : evalScalar c n a r p with
          | none => rw [ha] at h; cases h
          | some x =>
            cases hb : evalScalar c n b r p with
            | none => rw [ha, hb] at h; cases h
            | some y =>
              rw [ha, hb] at h
              rw [ih ha m hm, ih hb m hm]
              exact h
        next a b heq1 heq2 =>
          cases ha : evalScalar c n a r p with
          | none => rw [ha] at h; cases h
          | some x =>
            cases hb : evalScalar c n b r p with
            | none => rw [ha, hb] at h; cases h
            | some y =>
              rw [ha, hb] at h
              rw [ih ha m hm, ih hb m hm]
              exact h
        next t ix heq1 heq2 =>
          by_cases hsz : i.dynamicSliceSizes = [1]
          · rw [if_pos hsz] at h ⊢
            cases hlt : lookupInstr c t with
            | none => rw [hlt] at h; dsimp only at h; cases h
            | some ti =>
              rw [hlt] at h
              dsimp only at h ⊢
              cases htv : tableVals ti with
              | none => rw [htv] at h; dsimp only at h; cases h
              | some vals =>
                rw [htv] at h
                dsimp only at h ⊢
                cases hix : evalScalar c n ix r p with
                | none => rw [hix] at h; dsimp only at h; cases h
                | some iv =>
                  rw [hix] at h
                  dsimp only at h
                  rw [ih hix m hm]
                  exact h
          · rw [if_neg hsz] at h
            cases h
        next heq1 heq2 =>
          exact h

theorem map_eq_one {α β : Type} {f : α → β} {l : List α} {a : β}
    (h : l.map f = [a]) : ∃ a0, l = [a0] ∧ f a0 = a := by
  cases l with
  | nil => cases h
  | cons x t =>
    cases t with
    | nil =>
      rw [List.map_cons, List.map_nil] at h
      exact ⟨x, rfl, (List.cons.inj h).1⟩
    | cons y t2 => simp at h

theorem map_eq_two {α β : Type} {f : α → β} {l : List α} {a b : β}
    (h : l.map f = [a, b]) : ∃ a0 b0, l = [a0, b0] ∧ f a0 = a ∧ f b0 = b := by
  cases l with
  | nil => cases h
  | cons x t =>
    cases t with
    | nil => simp at h
    | cons y t2 =>
      cases t2 with
      | nil =>
        simp only [List.map_cons, List.map_nil] at h
        obtain ⟨h1, h2⟩ := List.cons.inj h
        obtain ⟨h3, _⟩ := List.cons.inj h2
        exact ⟨x, y, rfl, h1, h3⟩
      | cons z t3 => simp at h

theorem tableVals_replUses (old new : Nat) (i : HloInstruction) :
    tableVals (replUses old new i) = tableVals i := rfl

/-- One-step transfer of scalar evaluation out of a rewritten computation:
a successful evaluation in the rewritten graph `c'` (whose surviving
instructions are `replUses`-images of `c`'s, and whose redirect target
`res` is inert for scalar evaluation) was already successful, with the
same value, in the original graph `c` at the same fuel. -/
theorem evalScalar_transfer {c c' : HloComputation} {dsU res nu : Nat}
    (hent : ∀ j ∈ c.instructions, ∀ o ∈ j.operands, o < nu)
    (hLook : ∀ u, u < nu →
      lookupInstr c' u = none ∨
      ∃ j, lookupInstr c u = some j ∧
        lookupInstr c' u = some (replUses dsU res j))
    (hRes : ∀ f r p, evalScalar c' f res r p = none)
    (hResT : ∀ j, lookupInstr c' res = some j → tableVals j = none) :
    ∀ (f : Nat) {u r p : Nat} {v : Int}, u < nu →
      evalScalar c' f u r p = some v → evalScalar c f u r p = some v := by
  intro f
  induction f with
  | zero => intro u r p v _ h; cases h
  | succ n ih =>
    intro u r p v hu h
    rw [evalScalar] at h ⊢
    cases hlk : lookupInstr c' u with
    | none =>
      rw [hlk] at h
      dsimp only at h
      cases h
    | some j1 =>
      rw [hlk] at h
      dsimp only at h
      rcases hLook u hu with hnone | ⟨j, hlkc, hlk2⟩
      · rw [hnone] at hlk; cases hlk
      · rw [hlk] at hlk2
        have hj1 : j1 = replUses dsU res j := Option.some.inj hlk2
        subst hj1
        rw [hlkc]
        dsimp only [replUses] at h
        dsimp only
        have hjmem : j ∈ c.instructions := (lookupInstr_mem hlkc).1
        split at h
        next x heq => rw [heq]; exact h
        next x heq => rw [heq]; exact h
        next x heq => rw [heq]; exact h
        next a heq1 heq2 =>
          obtain ⟨a0, hops, ha0⟩ := map_eq_one heq2
          rw [heq1, hops]
          have ha0nu : a0 < nu := hent j hjmem a0 (by rw [hops]; simp)
          by_cases hd : a0 = dsU
          · rw [hd, if_pos rfl] at ha0
            rw [← ha0] at h
            rw [hRes n r p] at h
            cases h
          · rw [if_neg hd] at ha0
            rw [← ha0] at h
            exact ih ha0nu h
        next a heq1 heq2 =>
          obtain ⟨a0, hops, ha0⟩ := map_eq_one heq2
          rw [heq1, hops]
          have ha0nu : a0 < nu := hent j hjmem a0 (by rw [hops]; simp)
          by_cases hd : a0 = dsU
          · rw [hd, if_pos rfl] at ha0
            rw [← ha0] at h
            rw [hRes n r p] at h
            cases h
          · rw [if_neg hd] at ha0
            rw [← ha0] at h
            exact ih ha0nu h
        next a b heq1 heq2 =>
          obtain ⟨a0, b0, hops, ha0, hb0⟩ := map_eq_two heq2
          rw [heq1, hops]
          dsimp only
          have ha0nu : a0 < nu := hent j hjmem a0 (by rw [hops]; simp)
          have hb0nu : b0 < nu := hent j hjmem b0 (by rw [hops]; simp)
          cases hea : evalScalar c' n a r p with
          | none => rw [hea] at h; cases h
          | some x =>
            cases heb : evalScalar c' n b r p with
            | none => rw [hea, heb] at h; cases h
            | some y =>
              rw [hea, heb] at h
              have hax : evalScalar c n a0 r p = some x := by
                by_cases hd : a0 = dsU
                · rw [hd, if_pos rfl] at ha0
                  rw [← ha0, hRes n r p] at hea
                  cases hea
                · rw [if_neg hd] at ha0
                  rw [← ha0] at hea
                  exact ih ha0nu hea
              have hby : evalScalar c n b0 r p = some y := by
                by_cases hd : b0 = dsU
                · rw [hd, if_pos rfl] at hb0
                  rw [← hb0, hRes n r p] at heb
                  cases heb
                · rw [if_neg hd] at hb0
                  rw [← hb0] at heb
                  exact ih hb0nu heb
              rw [hax, hby]
              exact h
        next a b heq1 heq2 =>
          obtain ⟨a0, b0, hops, ha0, hb0⟩ := map_eq_two heq2
          rw [heq1, hops]
          dsimp only
          have ha0nu : a0 < nu := hent j hjmem a0 (by rw [hops]; simp)
          have hb0nu : b0 < nu := hent j hjmem b0 (by rw [hops]; simp)
          cases hea : evalScalar c' n a r p with
          | none => rw [hea] at h; cases h
          | some x =>
            cases heb : evalScalar c' n b r p with
            | none => rw [hea, heb] at h; cases h
            | some y =>
              rw [hea, heb] at h
              have hax : evalScalar c n a0 r p = some x := by
                by_cases hd : a0 = dsU
                · rw [hd, if_pos rfl] at ha0
                  rw [← ha0, hRes n r p] at hea
                  cases hea
                · rw [if_neg hd] at ha0
                  rw [← ha0] at hea
                  exact ih ha0nu hea
              have hby : evalScalar c n b0 r p = some y := by
                by_cases hd : b0 = dsU
                · rw [hd, if_pos rfl] at hb0
                  rw [← hb0, hRes n r p] at heb
                  cases heb
                · rw [if_neg hd] at hb0
                  rw [← hb0] at heb
                  exact ih hb0nu heb
              rw [hax, hby]
              exact h
        next t ix heq1 heq2 =>
          obtain ⟨t0, ix0, hops, ht0, hix0⟩ := map_eq_two heq2
          rw [heq1, hops]
          dsimp only
          have ht0nu : t0 < nu := hent j hjmem t0 (by rw [hops]; simp)
          have hix0nu : ix0 < nu := hent j hjmem ix0 (by rw [hops]; simp)
          by_cases hsz : j.dynamicSliceSizes = [1]
          · rw [if_pos hsz] at h ⊢
            have ht0' : t = t0 := by
              by_cases hd : t0 = dsU
              · rw [hd, if_pos rfl] at ht0
                rw [← ht0] at h
                cases hlt : lookupInstr c' res with
                | none => rw [hlt] at h; dsimp only at h; cases h
                | some tj =>
                  rw [hlt] at h
                  dsimp only at h
                  rw [hResT tj hlt] at h
                  cases h
              · rw [if_neg hd] at ht0
                exact ht0.symm
            subst ht0'
            rcases hLook t ht0nu with hnone | ⟨tj, hltc, hlt2⟩
            · rw [hnone] at h
              dsimp only at h
              cases h
            · rw [hlt2] at h
              rw [hltc]
              dsimp only at h ⊢
              rw [tableVals_replUses] at h
              cases htv : tableVals tj with
              | none => rw [htv] at h; dsimp only at h; cases h
              | some vals =>
                rw [htv] at h
                dsimp only at h ⊢
                cases hei : evalScalar c' n ix r p with
                | none => rw [hei] at h; dsimp only at h; cases h
                | some iv =>
                  rw [hei] at h
                  dsimp only at h
                  have hiv : evalScalar c n ix0 r p = some iv := by
                    by_cases hd : ix0 = dsU
                    · rw [hd, if_pos rfl] at hix0
                      rw [← hix0, hRes n r p] at hei
                      cases hei
                    · rw [if_neg hd] at hix0
                      rw [← hix0] at hei
                      exact ih hix0nu hei
                  rw [hiv]
                  exact h
          · rw [if_neg hsz] at h
            cases h
        next heq1 heq2 =>
          cases h

/-- Transfer of a successful analyzer verdict out of a rewritten
computation: if the offset subgraph still proves the shard property in the
rewritten graph, it already proved it in the original graph. -/
theorem analyzerOk_transfer {c c' : HloComputation} {dsU res nu : Nat}
    (hent : ∀ j ∈ c.instructions, ∀ o ∈ j.operands, o < nu)
    (hLook : ∀ u, u < nu →
      lookupInstr c' u = none ∨
      ∃ j, lookupInstr c u = some j ∧
        lookupInstr c' u = some (replUses dsU res j))
    (hRes : ∀ f r p, evalScalar c' f res r p = none)
    (hResT : ∀ j, lookupInstr c' res = some j → tableVals j = none)
    (hfuel : c'.instructions.length ≤ c.instructions.length)
    {off : Nat} {ug : Bool} {R P : Nat} {gs : List (List Nat)} {s : Nat}
    (hoff : off < nu)
    (h : analyzerOk c' off ug R P gs s = true) :
    analyzerOk c off ug R P gs s = true := by
  rw [analyzerOk, List.all_eq_true] at h ⊢
  intro d hd
  have hd' := h d hd
  cases hrk : rankOf gs (deviceKey ug P d.1 d.2) with
  | none =>
    rw [hrk] at hd'
    simp at hd'
  | some rk =>
    rw [hrk] at hd'
    cases hev : evalScalar c' c'.instructions.length off d.1 d.2 with
    | none =>
      rw [hev] at hd'
      simp at hd'
    | some w =>
      rw [hev] at hd'
      have h1 : evalScalar c c'.instructions.length off d.1 d.2 = some w :=
        evalScalar_transfer hent hLook hRes hResT _ hoff hev
      have h2 : evalScalar c c.instructions.length off d.1 d.2 = some w :=
        evalScalar_mono _ h1 _ hfuel
      rw [h2]
      exact hd'

theorem lookup_removeInstr_self (c : HloComputation) (x : Nat) :
    lookupInstr (removeInstr c x) x = none := by
  apply List.find?_eq_none.mpr
  intro i hi
  have h := (mem_removeInstr_of_mem hi).2
  simpa using h

theorem lookup_removeInstr_ne (c : HloComputation) {x u : Nat}
    (h : ¬ u = x) :
    lookupInstr (removeInstr c x) u = lookupInstr c u := by
  apply find_filter
  intro i hp
  simp only [decide_eq_true_eq] at hp
  simp only [decide_eq_true_eq]
  intro hx
  exact h (by rw [← hp, hx])

theorem lookup_replaceAll (c : HloComputation) (o n u : Nat) :
    lookupInstr (replaceAllUsesWith c o n) u =
      (lookupInstr c u).map (replUses o n) := by
  exact @find_map HloInstruction (replUses o n)
    (fun i => decide (i.uid = u)) (fun i => rfl) c.instructions

theorem lookup_add_of_some {c : HloComputation} {j x : HloInstruction} {u : Nat}
    (h : lookupInstr c u = some x) :
    lookupInstr (addInstruction c j) u = some x :=
  find_append_some h

theorem lookup_add_of_none {c : HloComputation} {j : HloInstruction} {u : Nat}
    (h : lookupInstr c u = none) :
    lookupInstr (addInstruction c j) u =
      if j.uid = u then some j else none := by
  have h2 := @find_append_none _ _ _ [j] h
  show lookupInstr { c with instructions := c.instructions ++ [j] } u = _
  unfold lookupInstr at h2 ⊢
  rw [h2]
  by_cases hj : j.uid = u
  · rw [List.find?_cons_of_pos _ (by simpa using hj), if_pos hj]
  · rw [List.find?_cons_of_neg _ (by simpa using hj), if_neg hj]
    rfl

theorem lookup_none_of_big {c : HloComputation} {nu u : Nat}
    (hb : ∀ j ∈ c.instructions, j.uid < nu) (h : nu ≤ u) :
    lookupInstr c u = none := by
  apply List.find?_eq_none.mpr
  intro i hi
  have := hb i hi
  simp only [decide_eq_true_eq]
  omega

theorem lookup_rwD {c : HloComputation} {ars : HloInstruction}
    {dsU arU res u : Nat} (hu : ¬ u = ars.uid) :
    lookupInstr (removeInstr (removeInstr (replaceAllUsesWith
      (addInstruction c ars) dsU res) dsU) arU) u = none ∨
    ∃ j, lookupInstr c u = some j ∧
      lookupInstr (removeInstr (removeInstr (replaceAllUsesWith
        (addInstruction c ars) dsU res) dsU) arU) u =
        some (replUses dsU res j) := by
  by_cases hA : u = arU
  · left
    rw [hA]
    exact lookup_removeInstr_self _ _
  · rw [lookup_removeInstr_ne _ hA]
    by_cases hD : u = dsU
    · left
      rw [hD]
      exact lookup_removeInstr_self _ _
    · rw [lookup_removeInstr_ne _ hD, lookup_replaceAll]
      cases hc : lookupInstr c u with
      | some j =>
        right
        exact ⟨j, rfl, by rw [lookup_add_of_some hc]; rfl⟩
      | none =>
        left
        rw [lookup_add_of_none hc, if_neg (fun he => hu he.symm)]
        rfl

theorem lookup_rwD_res {c : HloComputation} {ars : HloInstruction}
    {dsU arU res : Nat}
    (hb : ∀ j ∈ c.instructions, j.uid < ars.uid)
    (hdsu : dsU < ars.uid) (haru : arU < ars.uid) :
    lookupInstr (removeInstr (removeInstr (replaceAllUsesWith
      (addInstruction c ars) dsU res) dsU) arU) ars.uid =
      some (replUses dsU res ars) := by
  rw [lookup_removeInstr_ne _ (by omega), lookup_removeInstr_ne _ (by omega),
    lookup_replaceAll,
    lookup_add_of_none (lookup_none_of_big hb (Nat.le_refl _)), if_pos rfl]
  rfl

theorem lookup_rwV {c : HloComputation} {ars rsh : HloInstruction}
    {dsU rsU arU res u : Nat}
    (hu1 : ¬ u = ars.uid) (hu2 : ¬ u = rsh.uid) :
    lookupInstr (removeInstr (removeInstr (removeInstr (replaceAllUsesWith
      (addInstruction (addInstruction c ars) rsh) dsU res) dsU) rsU) arU)
      u = none ∨
    ∃ j, lookupInstr c u = some j ∧
      lookupInstr (removeInstr (removeInstr (removeInstr (replaceAllUsesWith
        (addInstruction (addInstruction c ars) rsh) dsU res) dsU) rsU) arU)
        u = some (replUses dsU res j) := by
  by_cases hA : u = arU
  · left
    rw [hA]
    exact lookup_removeInstr_self _ _
  · rw [lookup_removeInstr_ne _ hA]
    by_cases hR : u = rsU
    · left
      rw [hR]
      exact lookup_removeInstr_self _ _
    · rw [lookup_removeInstr_ne _ hR]
      by_cases hD : u = dsU
      · left
        rw [hD]
        exact lookup_removeInstr_self _ _
      · rw [lookup_removeInstr_ne _ hD, lookup_replaceAll]
        cases hc : lookupInstr c u with
        | some j =>
          right
          exact ⟨j, rfl,
            by rw [lookup_add_of_some (lookup_add_of_some hc)]; rfl⟩
        | none =>
          left
          rw [lookup_add_of_none
              (by rw [lookup_add_of_none hc, if_neg (fun he => hu1 he.symm)]),
            if_neg (fun he => hu2 he.symm)]
          rfl

theorem lookup_rwV_ars {c : HloComputation} {ars rsh : HloInstruction}
    {dsU rsU arU res : Nat}
    (hb : ∀ j ∈ c.instructions, j.uid < ars.uid)
    (hdsu : dsU < ars.uid) (hrsu : rsU < ars.uid) (haru : arU < ars.uid) :
    lookupInstr (removeInstr (removeInstr (removeInstr (replaceAllUsesWith
      (addInstruction (addInstruction c ars) rsh) dsU res) dsU) rsU) arU)
      ars.uid = some (replUses dsU res ars) := by
  rw [lookup_removeInstr_ne _ (by omega), lookup_removeInstr_ne _ (by omega),
    lookup_removeInstr_ne _ (by omega), lookup_replaceAll,
    lookup_add_of_some
      (by rw [lookup_add_of_none (lookup_none_of_big hb (Nat.le_refl _)),
        if_pos rfl])]
  rfl

theorem lookup_rwV_rsh {c : HloComputation} {ars rsh : HloInstruction}
    {dsU rsU arU res : Nat}
    (hb : ∀ j ∈ c.instructions, j.uid < ars.uid)
    (hlt : ars.uid < rsh.uid)
    (hdsu : dsU < ars.uid) (hrsu : rsU < ars.uid) (haru : arU < ars.uid) :
    lookupInstr (removeInstr (removeInstr (removeInstr (replaceAllUsesWith
      (addInstruction (addInstruction c ars) rsh) dsU res) dsU) rsU) arU)
      rsh.uid = some (replUses dsU res rsh) := by
  rw [lookup_removeInstr_ne _ (by omega), lookup_removeInstr_ne _ (by omega),
    lookup_removeInstr_ne _ (by omega), lookup_replaceAll,
    lookup_add_of_none
      (by rw [lookup_add_of_none
          (lookup_none_of_big hb (by omega)), if_neg (by omega)]),
    if_pos rfl]
  rfl

theorem evalScalar_none_of_ars {c : HloComputation} {u : Nat}
    {i : HloInstruction} (hl : lookupInstr c u = some i)
    (hop : i.opcode = HloOpcode.kAllReduceScatter) :
    ∀ f r p, evalScalar c f u r p = none := by
  intro f r p
  cases f with
  | zero => rfl
  | succ n =>
    rw [evalScalar, hl]
    dsimp only
    rw [hop]

theorem tableVals_none_of_ars {i : HloInstruction}
    (hop : i.opcode = HloOpcode.kAllReduceScatter) : tableVals i = none := by
  rw [tableVals, hop]

theorem evalScalar_none_of_reshape {c : HloComputation} {u a : Nat}
    {i : HloInstruction} (hl : lookupInstr c u = some i)
    (hop : i.opcode = HloOpcode.kReshape) (hops : i.operands = [a])
    (hnone : ∀ f r p, evalScalar c f a r p = none) :
    ∀ f r p, evalScalar c f u r p = none := by
  intro f r p
  cases f with
  | zero => rfl
  | succ n =>
    rw [evalScalar, hl]
    dsimp only
    rw [hop, hops]
    exact hnone n r p

theorem filter_filter_own {α : Type} (p q : α → Bool) :
    ∀ l : List α, (l.filter q).filter p =
      l.filter (fun a => p a && q a) := by
  intro l
  induction l with
  | nil => rfl
  | cons a t ih =>
    by_cases hq : q a = true
    · by_cases hp : p a = true
      · rw [List.filter_cons_of_pos hq, List.filter_cons_of_pos hp,
          List.filter_cons_of_pos (by simp [hp, hq]), ih]
      · rw [List.filter_cons_of_pos hq, List.filter_cons_of_neg hp,
          List.filter_cons_of_neg (by simp [hp]), ih]
    · rw [List.filter_cons_of_neg hq,
        List.filter_cons_of_neg (by simp [hq]), ih]

theorem usersOf_rwD {c : HloComputation} {ars dsI : HloInstruction}
    {arU res v : Nat}
    (hnodup : (c.instructions.map (fun i => i.uid)).Nodup)
    (hb : ∀ j ∈ c.instructions, j.uid < ars.uid)
    (hdsImem : dsI ∈ c.instructions)
    (hresge : ars.uid ≤ res)
    (haru : arU < ars.uid)
    (hvlt : v < ars.uid)
    (hvdsu : ¬ v = dsI.uid)
    (hvds : ¬ v ∈ dsI.operands) :
    usersOf (removeInstr (removeInstr (replaceAllUsesWith
      (addInstruction c ars) dsI.uid res) dsI.uid) arU) v =
    ((usersOf c v).filter (fun i => ¬ i.uid = arU)).map
        (replUses dsI.uid res) ++
      (if v ∈ ars.operands then [replUses dsI.uid res ars] else []) := by
  have hdsu : dsI.uid < ars.uid := hb dsI hdsImem
  have hvres : ¬ v = res := by omega
  show ((((c.instructions ++ [ars]).map (replUses dsI.uid res)).filter
      (fun i => ¬ i.uid = dsI.uid)).filter (fun i => ¬ i.uid = arU)).filter
      (fun i => v ∈ i.operands) = _
  rw [filter_filter_own, filter_filter_own, map_filter_comm,
    List.filter_append, List.map_append]
  congr 1
  · have hfe : c.instructions.filter (fun i =>
        (decide (v ∈ (replUses dsI.uid res i).operands) &&
          decide (¬ (replUses dsI.uid res i).uid = arU)) &&
          decide (¬ (replUses dsI.uid res i).uid = dsI.uid)) =
        c.instructions.filter (fun i =>
          decide (¬ i.uid = arU) && decide (v ∈ i.operands)) := by
      apply filter_congr_mem
      intro i hi
      have hpv : (decide (v ∈ (replUses dsI.uid res i).operands) : Bool) =
          decide (v ∈ i.operands) :=
        decide_eq_decide.mpr (mem_map_ite_iff hvdsu hvres)
      show ((decide (v ∈ (replUses dsI.uid res i).operands) &&
          decide (¬ i.uid = arU)) && decide (¬ i.uid = dsI.uid)) =
        (decide (¬ i.uid = arU) && decide (v ∈ i.operands))
      rw [hpv]
      cases hpvi : (decide (v ∈ i.operands) : Bool) with
      | false => simp
      | true =>
        have hqds : (decide (¬ i.uid = dsI.uid) : Bool) = true := by
          simp only [decide_eq_true_eq]
          intro hid
          have hieq : i = dsI := uid_inj hnodup hi hdsImem hid
          rw [hieq] at hpvi
          simp only [decide_eq_true_eq] at hpvi
          exact hvds hpvi
        rw [hqds]
        cases decide (¬ i.uid = arU) <;> rfl
    rw [hfe, ← filter_filter_own]
    rfl
  · by_cases hm : v ∈ ars.operands
    · rw [if_pos hm]
      rw [List.filter_cons_of_pos (by
        show ((decide (v ∈ (replUses dsI.uid res ars).operands) &&
            decide (¬ ars.uid = arU)) && decide (¬ ars.uid = dsI.uid)) = true
        have hpv : (decide (v ∈ (replUses dsI.uid res ars).operands) : Bool) =
            true := by
          simp only [decide_eq_true_eq]
          exact mem_map_ite hm hvdsu
        rw [hpv]
        simp only [decide_eq_true_eq, Bool.true_and, Bool.and_eq_true]
        omega)]
      rfl
    · rw [if_neg hm]
      rw [List.filter_cons_of_neg (by
        have hpv : (decide (v ∈ (replUses dsI.uid res ars).operands) : Bool) =
            false := by
          simp only [decide_eq_false_iff_not]
          intro hmem
          exact hm ((mem_map_ite_iff hvdsu hvres).mp hmem)
        show ¬ (((decide (v ∈ (replUses dsI.uid res ars).operands) &&
            decide (¬ ars.uid = arU)) && decide (¬ ars.uid = dsI.uid)) = true)
        rw [hpv]
        simp)]
      rfl

theorem usersOf_rwV {c : HloComputation} {ars rsh dsI rsI : HloInstruction}
    {arU res v : Nat}
    (hnodup : (c.instructions.map (fun i => i.uid)).Nodup)
    (hb : ∀ j ∈ c.instructions, j.uid < ars.uid)
    (hdsImem : dsI ∈ c.instructions)
    (hrsImem : rsI ∈ c.instructions)
    (hresge : ars.uid ≤ res)
    (haru : arU < ars.uid)
    (hrshops : rsh.operands = [ars.uid])
    (hvlt : v < ars.uid)
    (hvdsu : ¬ v = dsI.uid)
    (hvds : ¬ v ∈ dsI.operands)
    (hvrs : ¬ v ∈ rsI.operands) :
    usersOf (removeInstr (removeInstr (removeInstr (replaceAllUsesWith
      (addInstruction (addInstruction c ars) rsh) dsI.uid res) dsI.uid)
      rsI.uid) arU) v =
    ((usersOf c v).filter (fun i => ¬ i.uid = arU)).map
        (replUses dsI.uid res) ++
      (if v ∈ ars.operands then [replUses dsI.uid res ars] else []) := by
  have hdsu : dsI.uid < ars.uid := hb dsI hdsImem
  have hrsu : rsI.uid < ars.uid := hb rsI hrsImem
  have hvres : ¬ v = res := by omega
  show ((((((c.instructions ++ [ars]) ++ [rsh]).map
      (replUses dsI.uid res)).filter
      (fun i => ¬ i.uid = dsI.uid)).filter
      (fun i => ¬ i.uid = rsI.uid)).filter
      (fun i => ¬ i.uid = arU)).filter (fun i => v ∈ i.operands) = _
  rw [filter_filter_own, filter_filter_own, filter_filter_own,
    map_filter_comm, List.filter_append, List.filter_append,
    List.map_append, List.map_append]
  have hrshpart : ([rsh].filter (fun i =>
      ((decide (v ∈ (replUses dsI.uid res i).operands) &&
        decide (¬ (replUses dsI.uid res i).uid = arU)) &&
        decide (¬ (replUses dsI.uid res i).uid = rsI.uid)) &&
        decide (¬ (replUses dsI.uid res i).uid = dsI.uid))) = [] := by
    rw [List.filter_cons_of_neg (by
      have hpv : (decide (v ∈ (replUses dsI.uid res rsh).operands) : Bool) =
          false := by
        simp only [decide_eq_false_iff_not]
        intro hmem
        have hv2 : v ∈ rsh.operands := (mem_map_ite_iff hvdsu hvres).mp hmem
        rw [hrshops] at hv2
        simp only [List.mem_singleton] at hv2
        omega
      show ¬ ((((decide (v ∈ (replUses dsI.uid res rsh).operands) &&
          decide (¬ rsh.uid = arU)) &&
          decide (¬ rsh.uid = rsI.uid)) &&
          decide (¬ rsh.uid = dsI.uid)) = true)
      rw [hpv]
      simp)]
    rfl
  rw [hrshpart, List.map_nil, List.append_nil]
  congr 1
  · have hfe : c.instructions.filter (fun i =>
        ((decide (v ∈ (replUses dsI.uid res i).operands) &&
          decide (¬ (replUses dsI.uid res i).uid = arU)) &&
          decide (¬ (replUses dsI.uid res i).uid = rsI.uid)) &&
          decide (¬ (replUses dsI.uid res i).uid = dsI.uid)) =
        c.instructions.filter (fun i =>
          decide (¬ i.uid = arU) && decide (v ∈ i.operands)) := by
      apply filter_congr_mem
      intro i hi
      have hpv : (decide (v ∈ (replUses dsI.uid res i).operands) : Bool) =
          decide (v ∈ i.operands) :=
        decide_eq_decide.mpr (mem_map_ite_iff hvdsu hvres)
      show (((decide (v ∈ (replUses dsI.uid res i).operands) &&
          decide (¬ i.uid = arU)) && decide (¬ i.uid = rsI.uid)) &&
          decide (¬ i.uid = dsI.uid)) =
        (decide (¬ i.uid = arU) && decide (v ∈ i.operands))
      rw [hpv]
      cases hpvi : (decide (v ∈ i.operands) : Bool) with
      | false => simp
      | true =>
        have hqds : (decide (¬ i.uid = dsI.uid) : Bool) = true := by
          simp only [decide_eq_true_eq]
          intro hid
          have hieq : i = dsI := uid_inj hnodup hi hdsImem hid
          rw [hieq] at hpvi
          simp only [decide_eq_true_eq] at hpvi
          exact hvds hpvi
        have hqrs : (decide (¬ i.uid = rsI.uid) : Bool) = true := by
          simp only [decide_eq_true_eq]
          intro hid
          have hieq : i = rsI := uid_inj hnodup hi hrsImem hid
          rw [hieq] at hpvi
          simp only [decide_eq_true_eq] at hpvi
          exact hvrs hpvi
        rw [hqds, hqrs]
        cases decide (¬ i.uid = arU) <;> rfl
    rw [hfe, ← filter_filter_own]
    rfl
  · by_cases hm : v ∈ ars.operands
    · rw [if_pos hm]
      rw [List.filter_cons_of_pos (by
        show ((((decide (v ∈ (replUses dsI.uid res ars).operands) &&
            decide (¬ ars.uid = arU)) && decide (¬ ars.uid = rsI.uid)) &&
            decide (¬ ars.uid = dsI.uid)) = true)
        have hpv : (decide (v ∈ (replUses dsI.uid res ars).operands) : Bool) =
            true := by
          simp only [decide_eq_true_eq]
          exact mem_map_ite hm hvdsu
        rw [hpv]
        simp only [decide_eq_true_eq, Bool.true_and, Bool.and_eq_true]
        omega)]
      rfl
    · rw [if_neg hm]
      rw [List.filter_cons_of_neg (by
        have hpv : (decide (v ∈ (replUses dsI.uid res ars).operands) : Bool) =
            false := by
          simp only [decide_eq_false_iff_not]
          intro hmem
          exact hm ((mem_map_ite_iff hvdsu hvres).mp hmem)
        show ¬ ((((decide (v ∈ (replUses dsI.uid res ars).operands) &&
            decide (¬ ars.uid = arU)) && decide (¬ ars.uid = rsI.uid)) &&
            decide (¬ ars.uid = dsI.uid)) = true)
        rw [hpv]
        simp)]
      rfl

theorem replUses_opcode (o n : Nat) (i : HloInstruction) :
    (replUses o n i).opcode = i.opcode := rfl

theorem replUses_dims (o n : Nat) (i : HloInstruction) :
    (replUses o n i).dims = i.dims := rfl

theorem replUses_sizes (o n : Nat) (i : HloInstruction) :
    (replUses o n i).dynamicSliceSizes = i.dynamicSliceSizes := rfl

theorem replUses_groups (o n : Nat) (i : HloInstruction) :
    (replUses o n i).replicaGroups = i.replicaGroups := rfl

theorem replUses_ug (o n : Nat) (i : HloInstruction) :
    (replUses o n i).useGlobalDeviceIds = i.useGlobalDeviceIds := rfl

theorem replUses_operands (o n : Nat) (i : HloInstruction) :
    (replUses o n i).operands =
      i.operands.map (fun x => if x = o then n else x) := rfl

theorem getD_mem {l : List Nat} {i d : Nat} (h : i < l.length) :
    l.getD i d ∈ l := by
  induction l generalizing i with
  | nil => simp at h
  | cons a t ih =>
    cases i with
    | zero => simp [List.getD]
    | succ i2 =>
      simp only [List.getD_cons_succ]
      exact List.mem_cons_of_mem a (ih (by simpa using h))

theorem getD_mem_drop {l : List Nat} {i d : Nat} (h1 : 1 ≤ i)
    (h2 : i < l.length) : l.getD i d ∈ l.drop 1 := by
  cases l with
  | nil => simp at h2
  | cons a t =>
    cases i with
    | zero => omega
    | succ i2 =>
      simp only [List.getD_cons_succ, List.drop_one, List.tail_cons]
      exact getD_mem (by simpa using h2)

theorem getD_map_ite_eq {l : List Nat} {dsU res d : Nat} :
    ∀ {i : Nat}, i < l.length → ¬ l.getD i d = dsU →
    (l.map (fun o => if o = dsU then res else o)).getD i d = l.getD i d := by
  induction l with
  | nil => intro i h; simp at h
  | cons a t ih =>
    intro i hlen hne
    cases i with
    | zero =>
      simp only [List.map_cons, List.getD_cons_zero] at hne ⊢
      rw [if_neg hne]
    | succ i2 =>
      simp only [List.map_cons, List.getD_cons_succ] at hne ⊢
      exact ih (by simpa using hlen) hne

theorem diffDims_singleton_lt {a b : List Nat} {k : Nat}
    (h : diffDims a b = [k]) : k < a.length := by
  have hk : k ∈ diffDims a b := by rw [h]; simp
  rw [diffDims] at hk
  have := List.mem_filter.mp hk
  simpa using this.1

/-- A scalar-shaped reduction can never match: with no dimensions there is
no split dimension to find. -/
theorem matchFull_scalar_none {P R : Nat} {c : HloComputation}
    {ar : HloInstruction} (h : ar.dims = []) :
    matchFull P R c ar = none := by
  rw [matchFull]
  cases hchain : findDsChain c ar with
  | none => rfl
  | some pr =>
    obtain ⟨rsOpt, ds⟩ := pr
    cases rsOpt with
    | none =>
      dsimp only
      split
      · rfl
      · split
        · rfl
        · split
          · rfl
          · split
            case h_1 k heq =>
              rw [h] at heq
              simp [diffDims] at heq
            case h_2 => rfl
    | some rs =>
      dsimp only
      split
      · rfl
      · split
        · rfl
        · split
          · rfl
          · split
            case h_1 k heq =>
              split
              · rfl
              · split
                · rfl
                · split
                  · rfl
                  · split
                    case h_1 => rfl
                    case h_2 j hmap =>
                      rw [mapSplitDim, h] at hmap
                      simp at hmap
            case h_2 => rfl

/-- A match chain through a scalar-shaped reshape can never succeed: the
reshaped source has no dimensions, so no split dimension exists. -/
theorem matchFull_emptySrc_none {P R : Nat} {c : HloComputation}
    {ar u ds : HloInstruction}
    (hchain : findDsChain c ar = some (some u, ds)) (hu : u.dims = []) :
    matchFull P R c ar = none := by
  rw [matchFull, hchain]
  dsimp only
  split
  · rfl
  · split
    · rfl
    · split
      · rfl
      · split
        case h_1 k heq =>
          rw [hu] at heq
          simp [diffDims] at heq
        case h_2 => rfl

theorem matchTail_none_transfer {P R : Nat} {c c' : HloComputation}
    {ar2 ds : HloInstruction} {dsU res nu : Nat}
    {srcDims : List Nat} {k j s G : Nat} {via : Bool}
    (hTrans : ∀ off s2 gs (ug : Bool), off < nu →
      analyzerOk c' off ug R P gs s2 = true →
      analyzerOk c off ug R P gs s2 = true)
    (hoff : ds.operands.getD (k + 1) 0 < nu)
    (heq : (ds.operands.map (fun o => if o = dsU then res else o)).getD
        (k + 1) 0 = ds.operands.getD (k + 1) 0)
    (hnone : matchFull.matchTail P R c ar2 ds srcDims k j s G via = none) :
    matchFull.matchTail P R c' (replUses dsU res ar2) (replUses dsU res ds)
      srcDims k j s G via = none := by
  rw [matchFull.matchTail] at hnone ⊢
  simp only [replUses_ug, replUses_groups, replUses_operands]
  rw [heq]
  by_cases hg : ¬ ((effectiveGroups ar2.useGlobalDeviceIds R P
      ar2.replicaGroups).all (fun g => g.length = G) = true)
  · rw [if_pos hg]
  · rw [if_neg hg] at hnone ⊢
    by_cases ha : analyzerOk c' (ds.operands.getD (k + 1) 0)
        ar2.useGlobalDeviceIds R P
        (effectiveGroups ar2.useGlobalDeviceIds R P ar2.replicaGroups) s = true
    · have hac := hTrans _ _ _ _ hoff ha
      rw [if_pos hac] at hnone
      cases hnone
    · rw [if_neg ha]

theorem matchFull_compare_direct {P R : Nat} {c c' : HloComputation}
    {ar2 d : HloInstruction} {dsU res nu : Nat}
    (hchainC : findDsChain c ar2 = some (none, d))
    (hchainC' : findDsChain c' (replUses dsU res ar2) =
      some (none, replUses dsU res d))
    (hentd : ∀ o ∈ d.operands, o < nu)
    (hslotsd : ∀ o ∈ d.operands.drop 1, ¬ o = dsU)
    (har2u : ¬ ar2.uid = dsU)
    (har2lt : ar2.uid < nu)
    (hresge : nu ≤ res)
    (hTrans : ∀ off s2 gs (ug : Bool), off < nu →
      analyzerOk c' off ug R P gs s2 = true →
      analyzerOk c off ug R P gs s2 = true)
    (hnone : matchFull P R c ar2 = none) :
    matchFull P R c' (replUses dsU res ar2) = none := by
  rw [matchFull, hchainC] at hnone
  rw [matchFull, hchainC']
  dsimp only at hnone ⊢
  simp only [replUses_uid, replUses_dims, replUses_opcode, replUses_sizes,
    replUses_operands, List.length_map]
  have hc1 : ((d.operands.map (fun o => if o = dsU then res else o)).getD 0
      (ar2.uid + 1) = ar2.uid) ↔
      (d.operands.getD 0 (ar2.uid + 1) = ar2.uid) := by
    cases hops : d.operands with
    | nil => exact Iff.rfl
    | cons a t =>
      simp only [List.map_cons, List.getD_cons_zero]
      by_cases had : a = dsU
      · rw [if_pos had]
        constructor
        · intro hre; omega
        · intro hae
          exact absurd (by rw [← hae]; exact had) har2u
      · rw [if_neg had]
  by_cases h1 : d.operands.getD 0 (ar2.uid + 1) = ar2.uid
  · rw [if_neg (not_not_intro h1)] at hnone
    rw [if_neg (not_not_intro (hc1.mpr h1))]
    by_cases h2 : d.operands.length = ar2.dims.length + 1
    · rw [if_neg (not_not_intro h2)] at hnone ⊢
      by_cases h3 : ar2.dims.length = d.dynamicSliceSizes.length
      · rw [if_neg (not_not_intro h3)] at hnone ⊢
        cases hdd : diffDims ar2.dims d.dynamicSliceSizes with
        | nil =>
          rw [hdd] at hnone
        | cons k t =>
          cases t with
          | nil =>
            rw [hdd] at hnone
            dsimp only at hnone ⊢
            by_cases h4 : d.dynamicSliceSizes.getD k 0 = 0
            · rw [if_pos h4]
            · rw [if_neg h4] at hnone ⊢
              by_cases h5 : ¬ (ar2.dims.getD k 0 %
                  d.dynamicSliceSizes.getD k 0 = 0)
              · rw [if_pos h5]
              · rw [if_neg h5] at hnone ⊢
                have hk : k < ar2.dims.length := diffDims_singleton_lt hdd
                have hklen : k + 1 < d.operands.length := by omega
                have hoff : d.operands.getD (k + 1) 0 < nu :=
                  hentd _ (getD_mem hklen)
                have hslot : ¬ d.operands.getD (k + 1) 0 = dsU :=
                  hslotsd _ (getD_mem_drop (by omega) hklen)
                have heq := @getD_map_ite_eq d.operands dsU res 0 (k + 1)
                  hklen hslot
                exact matchTail_none_transfer hTrans hoff heq hnone
          | cons k2 t2 =>
            rw [hdd] at hnone
      · rw [if_pos h3]
    · rw [if_pos h2]
  · rw [if_pos (fun hx => h1 (hc1.mp hx))]

theorem matchFull_compare_via {P R : Nat} {c c' : HloComputation}
    {ar2 u d : HloInstruction} {dsU res nu : Nat}
    (hchainC : findDsChain c ar2 = some (some u, d))
    (hchainC' : findDsChain c' (replUses dsU res ar2) =
      some (some (replUses dsU res u), replUses dsU res d))
    (hentd : ∀ o ∈ d.operands, o < nu)
    (hslotsd : ∀ o ∈ d.operands.drop 1, ¬ o = dsU)
    (har2u : ¬ ar2.uid = dsU)
    (har2lt : ar2.uid < nu)
    (huu : ¬ u.uid = dsU)
    (hult : u.uid < nu)
    (hresge : nu ≤ res)
    (hTrans : ∀ off s2 gs (ug : Bool), off < nu →
      analyzerOk c' off ug R P gs s2 = true →
      analyzerOk c off ug R P gs s2 = true)
    (hnone : matchFull P R c ar2 = none) :
    matchFull P R c' (replUses dsU res ar2) = none := by
  rw [matchFull, hchainC] at hnone
  rw [matchFull, hchainC']
  dsimp only at hnone ⊢
  simp only [replUses_uid, replUses_dims, replUses_opcode, replUses_sizes,
    replUses_operands, List.length_map]
  have hc1 : ((d.operands.map (fun o => if o = dsU then res else o)).getD 0
      (u.uid + 1) = u.uid) ↔
      (d.operands.getD 0 (u.uid + 1) = u.uid) := by
    cases hops : d.operands with
    | nil => exact Iff.rfl
    | cons a t =>
      simp only [List.map_cons, List.getD_cons_zero]
      by_cases had : a = dsU
      · rw [if_pos had]
        constructor
        · intro hre; omega
        · intro hae
          exact absurd (by rw [← hae]; exact had) huu
      · rw [if_neg had]
  have hc2 : ((u.operands.map (fun o => if o = dsU then res else o)).getD 0
      (ar2.uid + 1) = ar2.uid) ↔
      (u.operands.getD 0 (ar2.uid + 1) = ar2.uid) := by
    cases hops : u.operands with
    | nil => exact Iff.rfl
    | cons a t =>
      simp only [List.map_cons, List.getD_cons_zero]
      by_cases had : a = dsU
      · rw [if_pos had]
        constructor
        · intro hre; omega
        · intro hae
          exact absurd (by rw [← hae]; exact had) har2u
      · rw [if_neg had]
  by_cases h1 : d.operands.getD 0 (u.uid + 1) = u.uid
  · rw [if_neg (not_not_intro h1)] at hnone
    rw [if_neg (not_not_intro (hc1.mpr h1))]
    by_cases h2 : d.operands.length = u.dims.length + 1
    · rw [if_neg (not_not_intro h2)] at hnone ⊢
      by_cases h3 : u.dims.length = d.dynamicSliceSizes.length
      · rw [if_neg (not_not_intro h3)] at hnone ⊢
        cases hdd : diffDims u.dims d.dynamicSliceSizes with
        | nil =>
          rw [hdd] at hnone
        | cons k t =>
          cases t with
          | nil =>
            rw [hdd] at hnone
            dsimp only at hnone ⊢
            by_cases h4 : d.dynamicSliceSizes.getD k 0 = 0
            · rw [if_pos h4]
            · rw [if_neg h4] at hnone ⊢
              by_cases h5 : ¬ (u.dims.getD k 0 %
                  d.dynamicSliceSizes.getD k 0 = 0)
              · rw [if_pos h5]
              · rw [if_neg h5] at hnone ⊢
                by_cases h6 : u.operands.getD 0 (ar2.uid + 1) = ar2.uid
                · rw [if_neg (not_not_intro h6)] at hnone
                  rw [if_neg (not_not_intro (hc2.mpr h6))]
                  cases hmap : mapSplitDim ar2.dims u.dims k with
                  | none =>
                    rw [hmap] at hnone
                  | some j =>
                    rw [hmap] at hnone
                    dsimp only at hnone ⊢
                    have hk : k < u.dims.length := diffDims_singleton_lt hdd
                    have hklen : k + 1 < d.operands.length := by omega
                    have hoff : d.operands.getD (k + 1) 0 < nu :=
                      hentd _ (getD_mem hklen)
                    have hslot : ¬ d.operands.getD (k + 1) 0 = dsU :=
                      hslotsd _ (getD_mem_drop (by omega) hklen)
                    have heq := @getD_map_ite_eq d.operands dsU res 0 (k + 1)
                      hklen hslot
                    exact matchTail_none_transfer hTrans hoff heq hnone
                · rw [if_pos (fun hx => h6 (hc2.mp hx))]
          | cons k2 t2 =>
            rw [hdd] at hnone
      · rw [if_pos h3]
    · rw [if_pos h2]
  · rw [if_pos (fun hx => h1 (hc1.mp hx))]

theorem length_filter_compl {α : Type} (p : α → Bool) :
    ∀ l : List α,
      (l.filter p).length + (l.filter (fun a => ! p a)).length = l.length := by
  intro l
  induction l with
  | nil => rfl
  | cons a t ih =>
    cases hp : p a with
    | true =>
      rw [List.filter_cons_of_pos hp,
        List.filter_cons_of_neg (by rw [hp]; simp)]
      simp only [List.length_cons]
      omega
    | false =>
      rw [List.filter_cons_of_neg (by rw [hp]; simp),
        List.filter_cons_of_pos (by rw [hp]; rfl)]
      simp only [List.length_cons]
      omega

theorem filter_eq_singleton_of_nodup {α : Type} [DecidableEq α] {a : α} :
    ∀ {l : List α}, l.Nodup → a ∈ l →
      l.filter (fun x => x = a) = [a] := by
  intro l
  induction l with
  | nil => intro _ h; cases h
  | cons b t ih =>
    intro hnd hm
    rcases List.mem_cons.mp hm with he | ht
    · subst he
      rw [List.filter_cons_of_pos (by simp)]
      have hnotin : a ∉ t := (List.nodup_cons.mp hnd).1
      rw [List.filter_eq_nil_iff.mpr (fun x hx => by
        simp only [decide_eq_true_eq]
        intro he2
        exact hnotin (he2 ▸ hx))]
    · have hba : ¬ b = a := by
        intro he
        exact (List.nodup_cons.mp hnd).1 (he ▸ ht)
      rw [List.filter_cons_of_neg (by simpa using hba)]
      exact ih (List.nodup_cons.mp hnd).2 ht

theorem findDsChain_none_of_len {c : HloComputation} {x : HloInstruction}
    (h : ¬ (usersOf c x.uid).length = 1) : findDsChain c x = none := by
  rw [findDsChain]
  cases hl : usersOf c x.uid with
  | nil => rfl
  | cons a t =>
    cases t with
    | nil => rw [hl] at h; simp at h
    | cons b t2 => rfl

theorem usersOf_rw_length {c c' : HloComputation} {ar ars : HloInstruction}
    {dsU res v : Nat}
    (hnodup : (c.instructions.map (fun i => i.uid)).Nodup)
    (harmem : ar ∈ c.instructions)
    (harsops : ars.operands = ar.operands)
    (husers2 : usersOf c' v =
      ((usersOf c v).filter (fun i => ¬ i.uid = ar.uid)).map
        (replUses dsU res) ++
      (if v ∈ ars.operands then [replUses dsU res ars] else [])) :
    (usersOf c' v).length = (usersOf c v).length := by
  have hinstnd : c.instructions.Nodup := List.Nodup.of_map _ hnodup
  have hund : (usersOf c v).Nodup :=
    (List.filter_sublist _).nodup hinstnd
  have hsub : ∀ x ∈ usersOf c v, x ∈ c.instructions :=
    fun x hx => (mem_usersOf.mp hx).1
  have hfe : (usersOf c v).filter (fun i => ¬ i.uid = ar.uid) =
      (usersOf c v).filter (fun i => ! decide (i = ar)) := by
    apply filter_congr_mem
    intro i hi
    by_cases hia : i = ar
    · subst hia
      simp
    · have hune : ¬ i.uid = ar.uid := fun he =>
        hia (uid_inj hnodup (hsub i hi) harmem he)
      simp [hia, hune]
  rw [husers2, List.length_append, List.length_map, hfe]
  by_cases hm : v ∈ ars.operands
  · rw [if_pos hm]
    have harl : ar ∈ usersOf c v :=
      mem_usersOf.mpr ⟨harmem, by rw [← harsops]; exact hm⟩
    have hc := length_filter_compl (fun i => ! decide (i = ar)) (usersOf c v)
    have hsing : (usersOf c v).filter
        (fun i => ! ! decide (i = ar)) = [ar] := by
      have : ((usersOf c v).filter (fun i => ! ! decide (i = ar))) =
          ((usersOf c v).filter (fun i => decide (i = ar))) := by
        apply filter_congr_mem
        intro i _
        simp
      rw [this]
      exact filter_eq_singleton_of_nodup hund harl
    rw [hsing] at hc
    simp only [List.length_singleton] at hc
    simp only [List.length_cons, List.length_nil]
    omega
  · rw [if_neg hm]
    have hall : (usersOf c v).filter (fun i => ! decide (i = ar)) =
        usersOf c v := by
      apply List.filter_eq_self.mpr
      intro i hi
      by_cases hia : i = ar
      · subst hia
        exact absurd (by rw [harsops]; exact (mem_usersOf.mp hi).2) hm
      · simp [hia]
    rw [hall]
    simp

/-- Non-match persistence through one rewrite: an all-reduce that the
matcher rejected before a rewrite of a different reduction is still
rejected afterwards.  The rewritten computation `c'` is described
abstractly by its user-list shape and analyzer transfer property;
both rewrite shapes instantiate this below. -/
theorem matchFull_persist_core {P R : Nat} {c c' : HloComputation}
    {ar ar2 ars dsI : HloInstruction} {res nu : Nat}
    (hnodup : (c.instructions.map (fun i => i.uid)).Nodup)
    (hbound : ∀ j ∈ c.instructions, j.uid < nu)
    (hent : ∀ j ∈ c.instructions, ∀ o ∈ j.operands, o < nu)
    (hslots : ∀ j ∈ c.instructions, j.opcode = HloOpcode.kDynamicSlice →
      ∀ o ∈ j.operands.drop 1, ∀ j2 ∈ c.instructions, j2.uid = o →
        j2.dims = [])
    (hresge : nu ≤ res)
    (harmem : ar ∈ c.instructions)
    (hdsImem : dsI ∈ c.instructions)
    (hdsIop : dsI.opcode = HloOpcode.kDynamicSlice)
    (hdsInz : ¬ dsI.dims = [])
    (hdshead : ∀ a t, dsI.operands = a :: t → a = ar.uid ∨
      ∃ rsI, rsI ∈ c.instructions ∧ rsI.uid = a ∧
        rsI.opcode = HloOpcode.kReshape ∧ rsI.operands = [ar.uid])
    (harsops : ars.operands = ar.operands)
    (harsop : ars.opcode = HloOpcode.kAllReduceScatter)
    (hUsers : ∀ v, v < nu → ¬ v = dsI.uid → ¬ v = ar.uid →
      ¬ v ∈ dsI.operands →
      usersOf c' v = ((usersOf c v).filter (fun i => ¬ i.uid = ar.uid)).map
        (replUses dsI.uid res) ++
        (if v ∈ ars.operands then [replUses dsI.uid res ars] else []))
    (hTrans : ∀ off s2 gs (ug : Bool), off < nu →
      analyzerOk c' off ug R P gs s2 = true →
      analyzerOk c off ug R P gs s2 = true)
    (har2mem : ar2 ∈ c.instructions)
    (har2op : ar2.opcode = HloOpcode.kAllReduce)
    (har2ne : ¬ ar2.uid = ar.uid)
    (hnone : matchFull P R c ar2 = none) :
    matchFull P R c' (replUses dsI.uid res ar2) = none := by
  have huid : (replUses dsI.uid res ar2).uid = ar2.uid := rfl
  by_cases hsc : ar2.dims = []
  · exact matchFull_scalar_none (show (replUses dsI.uid res ar2).dims = []
      from hsc)
  have har2uid : ar2.uid < nu := hbound ar2 har2mem
  have hVG : ∀ x : HloInstruction, x ∈ c.instructions → ¬ x.dims = [] →
      ¬ x.uid = ar.uid → ¬ x.opcode = HloOpcode.kDynamicSlice →
      (x.opcode = HloOpcode.kAllReduce ∨ ar2.uid ∈ x.operands) →
      ¬ x.uid = dsI.uid ∧ ¬ x.uid ∈ dsI.operands := by
    intro x hxmem hxnz hxar hxnds hxcase
    have hxds : ¬ x.uid = dsI.uid := by
      intro he
      have heq := uid_inj hnodup hxmem hdsImem he
      apply hxnds
      rw [heq]
      exact hdsIop
    refine ⟨hxds, ?_⟩
    intro hmem
    cases hops : dsI.operands with
    | nil => rw [hops] at hmem; cases hmem
    | cons a t =>
      rw [hops] at hmem
      rcases List.mem_cons.mp hmem with hhead | htail
      · rcases hdshead a t hops with hA |
          ⟨rsI, hrsImem, hrsIuid, hrsIop, hrsIops⟩
        · exact hxar (by rw [hhead, hA])
        · have heq := uid_inj hnodup hxmem hrsImem (by rw [hhead, ← hrsIuid])
          rcases hxcase with hop | hmem2
          · rw [heq, hrsIop] at hop
            exact absurd hop (by decide)
          · rw [heq, hrsIops] at hmem2
            simp only [List.mem_singleton] at hmem2
            exact har2ne hmem2
      · exact hxnz (hslots dsI hdsImem hdsIop x.uid
          (by rw [hops]; exact htail) x hxmem rfl)
  obtain ⟨hg1, hg3⟩ := hVG ar2 har2mem hsc har2ne
    (by rw [har2op]; decide) (Or.inl har2op)
  have husers2 := hUsers ar2.uid har2uid hg1 har2ne hg3
  cases husC : usersOf c ar2.uid with
  | nil =>
    have hnars : ¬ ar2.uid ∈ ars.operands := by
      rw [harsops]
      intro hm
      have h2 : ar ∈ usersOf c ar2.uid := mem_usersOf.mpr ⟨harmem, hm⟩
      rw [husC] at h2
      cases h2
    rw [husC, if_neg hnars] at husers2
    simp only [List.filter_nil, List.map_nil, List.nil_append,
      List.append_nil] at husers2
    have hch : findDsChain c' (replUses dsI.uid res ar2) = none := by
      rw [findDsChain, huid, husers2]
    rw [matchFull, hch]
  | cons w tw =>
    cases tw with
    | cons w2 tw2 =>
      have hlen := usersOf_rw_length hnodup harmem harsops husers2
      have hch : findDsChain c' (replUses dsI.uid res ar2) = none := by
        apply findDsChain_none_of_len
        rw [huid, hlen, husC]
        simp
      rw [matchFull, hch]
    | nil =>
      have hwmem : w ∈ c.instructions ∧ ar2.uid ∈ w.operands :=
        mem_usersOf.mp (by rw [husC]; simp)
      by_cases hwar : w.uid = ar.uid
      · have hw : w = ar := uid_inj hnodup hwmem.1 harmem hwar
        have harsmem : ar2.uid ∈ ars.operands := by
          rw [harsops, ← hw]
          exact hwmem.2
        rw [husC, if_pos harsmem] at husers2
        rw [List.filter_cons_of_neg (by simp [hwar])] at husers2
        simp only [List.filter_nil, List.map_nil, List.nil_append] at husers2
        have hch : findDsChain c' (replUses dsI.uid res ar2) = none := by
          rw [findDsChain, huid, husers2]
          dsimp only
          rw [if_neg (by rw [replUses_opcode, harsop]; decide),
            if_neg (by rw [replUses_opcode, harsop]; decide)]
        rw [matchFull, hch]
      · have hnars : ¬ ar2.uid ∈ ars.operands := by
          rw [harsops]
          intro hm
          have h2 : ar ∈ usersOf c ar2.uid := mem_usersOf.mpr ⟨harmem, hm⟩
          rw [husC] at h2
          have h3 : ar = w := by simpa using h2
          exact hwar (by rw [← h3])
        rw [husC, if_neg hnars] at husers2
        rw [List.filter_cons_of_pos (by simpa using hwar)] at husers2
        simp only [List.filter_nil, List.map_cons, List.map_nil,
          List.append_nil] at husers2
        by_cases hwds : w.opcode = HloOpcode.kDynamicSlice
        · have hchC : findDsChain c ar2 = some (none, w) := by
            rw [findDsChain, husC]
            dsimp only
            rw [if_pos hwds]
          have hchC' : findDsChain c' (replUses dsI.uid res ar2) =
              some (none, replUses dsI.uid res w) := by
            rw [findDsChain, huid, husers2]
            dsimp only
            rw [if_pos (show (replUses dsI.uid res w).opcode =
              HloOpcode.kDynamicSlice by rw [replUses_opcode]; exact hwds)]
          exact matchFull_compare_direct hchC hchC'
            (hent w hwmem.1)
            (fun o ho hod => hdsInz
              (hslots w hwmem.1 hwds o ho dsI hdsImem hod.symm))
            hg1 har2uid hresge hTrans hnone
        · by_cases hwrs : w.opcode = HloOpcode.kReshape
          · by_cases hwsc : w.dims = []
            · cases husWp : usersOf c' w.uid with
              | nil =>
                have hch : findDsChain c' (replUses dsI.uid res ar2) =
                    none := by
                  rw [findDsChain, huid, husers2]
                  dsimp only
                  rw [if_neg (by rw [replUses_opcode, hwrs]; decide),
                    if_pos (by rw [replUses_opcode]; exact hwrs),
                    replUses_uid, husWp]
                rw [matchFull, hch]
              | cons u2 t2 =>
                cases t2 with
                | nil =>
                  by_cases hu2ds : u2.opcode = HloOpcode.kDynamicSlice
                  · have hch : findDsChain c' (replUses dsI.uid res ar2) =
                        some (some (replUses dsI.uid res w), u2) := by
                      rw [findDsChain, huid, husers2]
                      dsimp only
                      rw [if_neg (by rw [replUses_opcode, hwrs]; decide),
                        if_pos (by rw [replUses_opcode]; exact hwrs),
                        replUses_uid, husWp]
                      dsimp only
                      rw [if_pos hu2ds]
                    exact matchFull_emptySrc_none hch
                      (by rw [replUses_dims]; exact hwsc)
                  · have hch : findDsChain c' (replUses dsI.uid res ar2) =
                        none := by
                      rw [findDsChain, huid, husers2]
                      dsimp only
                      rw [if_neg (by rw [replUses_opcode, hwrs]; decide),
                        if_pos (by rw [replUses_opcode]; exact hwrs),
                        replUses_uid, husWp]
                      dsimp only
                      rw [if_neg hu2ds]
                    rw [matchFull, hch]
                | cons u3 t3 =>
                  have hch : findDsChain c' (replUses dsI.uid res ar2) =
                      none := by
                    rw [findDsChain, huid, husers2]
                    dsimp only
                    rw [if_neg (by rw [replUses_opcode, hwrs]; decide),
                      if_pos (by rw [replUses_opcode]; exact hwrs),
                      replUses_uid, husWp]
                  rw [matchFull, hch]
            · have hwuid : w.uid < nu := hbound w hwmem.1
              obtain ⟨hwg1, hwg3⟩ := hVG w hwmem.1 hwsc hwar
                (by rw [hwrs]; decide) (Or.inr hwmem.2)
              have husersW := hUsers w.uid hwuid hwg1 hwar hwg3
              cases husW : usersOf c w.uid with
              | nil =>
                have hnarsW : ¬ w.uid ∈ ars.operands := by
                  rw [harsops]
                  intro hm
                  have h2 : ar ∈ usersOf c w.uid := mem_usersOf.mpr ⟨harmem, hm⟩
                  rw [husW] at h2
                  cases h2
                rw [husW, if_neg hnarsW] at husersW
                simp only [List.filter_nil, List.map_nil, List.nil_append,
                  List.append_nil] at husersW
                have hch : findDsChain c' (replUses dsI.uid res ar2) =
                    none := by
                  rw [findDsChain, huid, husers2]
                  dsimp only
                  rw [if_neg (by rw [replUses_opcode, hwrs]; decide),
                    if_pos (by rw [replUses_opcode]; exact hwrs),
                    replUses_uid, husersW]
                rw [matchFull, hch]
              | cons u2 t2 =>
                cases t2 with
                | cons u3 t3 =>
                  have hlenW := usersOf_rw_length hnodup harmem harsops husersW
                  have hch : findDsChain c' (replUses dsI.uid res ar2) =
                      none := by
                    rw [findDsChain, huid, husers2]
                    dsimp only
                    rw [if_neg (by rw [replUses_opcode, hwrs]; decide),
                      if_pos (by rw [replUses_opcode]; exact hwrs),
                      replUses_uid]
                    cases hlp : usersOf c' w.uid with
                    | nil => rfl
                    | cons a t =>
                      cases t with
                      | nil =>
                        exfalso
                        rw [hlp, husW] at hlenW
                        simp at hlenW
                      | cons b t4 => rfl
                  rw [matchFull, hch]
                | nil =>
                  have hu2mem : u2 ∈ c.instructions ∧ w.uid ∈ u2.operands :=
                    mem_usersOf.mp (by rw [husW]; simp)
                  by_cases hu2ar : u2.uid = ar.uid
                  · have hu2 : u2 = ar := uid_inj hnodup hu2mem.1 harmem hu2ar
                    have harsW : w.uid ∈ ars.operands := by
                      rw [harsops, ← hu2]
                      exact hu2mem.2
                    rw [husW, if_pos harsW] at husersW
                    rw [List.filter_cons_of_neg (by simp [hu2ar])] at husersW
                    simp only [List.filter_nil, List.map_nil,
                      List.nil_append] at husersW
                    have hch : findDsChain c' (replUses dsI.uid res ar2) =
                        none := by
                      rw [findDsChain, huid, husers2]
                      dsimp only
                      rw [if_neg (by rw [replUses_opcode, hwrs]; decide),
                        if_pos (by rw [replUses_opcode]; exact hwrs),
                        replUses_uid, husersW]
                      dsimp only
                      rw [if_neg (by rw [replUses_opcode, harsop]; decide)]
                    rw [matchFull, hch]
                  · have hnarsW : ¬ w.uid ∈ ars.operands := by
                      rw [harsops]
                      intro hm
                      have h2 : ar ∈ usersOf c w.uid :=
                        mem_usersOf.mpr ⟨harmem, hm⟩
                      rw [husW] at h2
                      have h3 : ar = u2 := by simpa using h2
                      exact hu2ar (by rw [← h3])
                    rw [husW, if_neg hnarsW] at husersW
                    rw [List.filter_cons_of_pos (by simpa using hu2ar)]
                      at husersW
                    simp only [List.filter_nil, List.map_cons, List.map_nil,
                      List.append_nil] at husersW
                    by_cases hu2ds : u2.opcode = HloOpcode.kDynamicSlice
                    · have hchC : findDsChain c ar2 = some (some w, u2) := by
                        rw [findDsChain, husC]
                        dsimp only
                        rw [if_neg hwds, if_pos hwrs, husW]
                        dsimp only
                        rw [if_pos hu2ds]
                      have hchC' : findDsChain c'
                          (replUses dsI.uid res ar2) =
                          some (some (replUses dsI.uid res w),
                            replUses dsI.uid res u2) := by
                        rw [findDsChain, huid, husers2]
                        dsimp only
                        rw [if_neg (by rw [replUses_opcode, hwrs]; decide),
                          if_pos (by rw [replUses_opcode]; exact hwrs),
                          replUses_uid, husersW]
                        dsimp only
                        rw [if_pos (by rw [replUses_opcode]; exact hu2ds)]
                      exact matchFull_compare_via hchC hchC'
                        (hent u2 hu2mem.1)
                        (fun o ho hod => hdsInz
                          (hslots u2 hu2mem.1 hu2ds o ho dsI hdsImem
                            hod.symm))
                        hg1 har2uid hwg1 hwuid hresge hTrans hnone
                    · have hch : findDsChain c'
                          (replUses dsI.uid res ar2) = none := by
                        rw [findDsChain, huid, husers2]
                        dsimp only
                        rw [if_neg (by rw [replUses_opcode, hwrs]; decide),
                          if_pos (by rw [replUses_opcode]; exact hwrs),
                          replUses_uid, husersW]
                        dsimp only
                        rw [if_neg (by rw [replUses_opcode]; exact hu2ds)]
                      rw [matchFull, hch]
          · have hch : findDsChain c' (replUses dsI.uid res ar2) = none := by
              rw [findDsChain, huid, husers2]
              dsimp only
              rw [if_neg (by rw [replUses_opcode]; exact hwds),
                if_neg (by rw [replUses_opcode]; exact hwrs)]
            rw [matchFull, hch]

/-- Dead-operand pruning removes nothing when every worklist entry is
either already absent from the computation or still has a user. -/
theorem removeUnused_eq_self_of :
    ∀ (fuel : Nat) (ws : List Nat) (c : HloComputation),
      (∀ u ∈ ws, lookupInstr c u = none ∨ ¬ usersOf c u = []) →
      removeUnused c fuel ws = c := by
  intro fuel
  induction fuel with
  | zero => intro ws c _; simp only [removeUnused]
  | succ n ih =>
    intro ws c h
    cases ws with
    | nil => simp only [removeUnused]
    | cons u rest =>
      have hrest : ∀ v ∈ rest, lookupInstr c v = none ∨ ¬ usersOf c v = [] :=
        fun v hv => h v (by simp [hv])
      rw [removeUnused]
      rcases h u (by simp) with hlk | hus
      · rw [hlk]
        exact ih rest c hrest
      · cases hlk : lookupInstr c u with
        | none => simp only; exact ih rest c hrest
        | some i =>
          simp only
          rw [if_neg (by intro hcon; exact hus hcon.1)]
          exact ih rest c hrest

/-- The direct-rewrite equation under data-model wellformedness (unique
uids and a uid bound) instead of def-before-use. -/
theorem rewriteState_direct2 {P R : Nat} {st : PassState}
    {ar : HloInstruction} {f : FullSpec} {spec : ReduceScatterSpec}
    (hnodup : (st.comp.instructions.map (fun i => i.uid)).Nodup)
    (hbound : ∀ j ∈ st.comp.instructions, j.uid < st.nextUid)
    (harmem : ar ∈ st.comp.instructions)
    (harop : ar.opcode = HloOpcode.kAllReduce)
    (hf : matchFull P R st.comp ar = some f)
    (hts : f.toSpec = spec)
    (hvia : f.viaReshape = false) :
    rewriteState st ar spec =
      ⟨removeInstr (removeInstr (replaceAllUsesWith
          (addInstruction st.comp (newArs st ar spec))
          spec.dynamicSlice.uid st.nextUid) spec.dynamicSlice.uid) ar.uid,
        if ar.channelId.isSome then st.nextCh + 1 else st.nextCh,
        st.nextUid + 1, true⟩ := by
  have mf := matchFull_facts hf
  have hds : spec.dynamicSlice = f.ds := by rw [← hts]; rfl
  have haru : ar.uid < st.nextUid := hbound ar harmem
  have hdsu : spec.dynamicSlice.uid < st.nextUid := by
    rw [hds]
    exact hbound f.ds mf.ds_mem
  have hdsar : ¬ spec.dynamicSlice.uid = ar.uid := by
    rw [hds]
    intro he
    have heq := uid_inj hnodup mf.ds_mem harmem he
    have hop := mf.ds_opcode
    rw [heq, harop] at hop
    exact absurd hop (by decide)
  obtain ⟨srcUid, hsrc0, hsrcmem, hsrccase⟩ := mf.src
  rcases hsrccase with ⟨_, hsrcar⟩ | ⟨hv, _⟩
  · subst hsrcar
    have hpos : spec.dynamicSlice.operands.getD 0 ar.uid = ar.uid := by
      rw [hds]; exact hsrc0
    have husers : ∀ u ∈ ar.operands,
        lookupInstr (removeInstr (removeInstr (replaceAllUsesWith
            (addInstruction st.comp (newArs st ar spec))
            spec.dynamicSlice.uid st.nextUid) spec.dynamicSlice.uid)
            ar.uid) u = none ∨
        ¬ usersOf (removeInstr (removeInstr (replaceAllUsesWith
            (addInstruction st.comp (newArs st ar spec))
            spec.dynamicSlice.uid st.nextUid) spec.dynamicSlice.uid)
            ar.uid) u = [] := by
      intro u hu
      by_cases hda : u = spec.dynamicSlice.uid
      · left
        rw [hda, lookup_removeInstr_ne _ hdsar]
        exact lookup_removeInstr_self _ _
      · by_cases haa : u = ar.uid
        · left
          rw [haa]
          exact lookup_removeInstr_self _ _
        · right
          have hA1 : newArs st ar spec ∈
              (addInstruction st.comp (newArs st ar spec)).instructions :=
            mem_addInstruction.mpr (Or.inr rfl)
          have hA2 : replUses spec.dynamicSlice.uid st.nextUid
              (newArs st ar spec) ∈
              (replaceAllUsesWith (addInstruction st.comp (newArs st ar spec))
                spec.dynamicSlice.uid st.nextUid).instructions := by
            rw [replaceAllUsesWith_instructions]
            exact List.mem_map_of_mem _ hA1
          have hA3 := mem_removeInstr_of hA2
            (show ¬ st.nextUid = spec.dynamicSlice.uid by omega)
          have hA4 := mem_removeInstr_of hA3
            (show ¬ st.nextUid = ar.uid by omega)
          exact usersOf_ne_nil hA4 (mem_map_ite hu hda)
    simp only [rewriteState]
    rw [if_neg (not_not_intro hpos)]
    rw [if_neg (not_not_intro hpos)]
    rw [if_neg (not_not_intro hpos)]
    rw [if_neg (not_not_intro hpos)]
    rw [removeInstructionAndUnusedOperands]
    show (⟨removeUnused
        (removeInstr (removeInstr (replaceAllUsesWith
          (addInstruction st.comp (newArs st ar spec))
          spec.dynamicSlice.uid st.nextUid) spec.dynamicSlice.uid) ar.uid)
        (removalFuel (removeInstr (replaceAllUsesWith
          (addInstruction st.comp (newArs st ar spec))
          spec.dynamicSlice.uid st.nextUid) spec.dynamicSlice.uid))
        ar.operands,
      if ar.channelId.isSome then st.nextCh + 1 else st.nextCh,
      st.nextUid + 1, true⟩ : PassState) =
      ⟨removeInstr (removeInstr (replaceAllUsesWith
          (addInstruction st.comp (newArs st ar spec))
          spec.dynamicSlice.uid st.nextUid) spec.dynamicSlice.uid) ar.uid,
        if ar.channelId.isSome then st.nextCh + 1 else st.nextCh,
        st.nextUid + 1, true⟩
    rw [removeUnused_eq_self_of _ _ _ husers]
  · rw [hvia] at hv
    cases hv

/-- The reshape-rewrite equation under data-model wellformedness. -/
theorem rewriteState_reshape2 {P R : Nat} {st : PassState}
    {ar : HloInstruction} {f : FullSpec} {spec : ReduceScatterSpec}
    (hnodup : (st.comp.instructions.map (fun i => i.uid)).Nodup)
    (hbound : ∀ j ∈ st.comp.instructions, j.uid < st.nextUid)
    (harmem : ar ∈ st.comp.instructions)
    (harop : ar.opcode = HloOpcode.kAllReduce)
    (hf : matchFull P R st.comp ar = some f)
    (hts : f.toSpec = spec)
    (hvia : f.viaReshape = true) :
    rewriteState st ar spec =
      ⟨removeInstr (removeInstr (removeInstr (replaceAllUsesWith
          (addInstruction (addInstruction st.comp (newArs st ar spec))
            (newReshape st spec))
          spec.dynamicSlice.uid (st.nextUid + 1)) spec.dynamicSlice.uid)
          (spec.dynamicSlice.operands.getD 0 ar.uid)) ar.uid,
        if ar.channelId.isSome then st.nextCh + 1 else st.nextCh,
        st.nextUid + 2, true⟩ := by
  have mf := matchFull_facts hf
  have hds : spec.dynamicSlice = f.ds := by rw [← hts]; rfl
  have haru : ar.uid < st.nextUid := hbound ar harmem
  have hdsu : spec.dynamicSlice.uid < st.nextUid := by
    rw [hds]
    exact hbound f.ds mf.ds_mem
  obtain ⟨srcUid, hsrc0, hsrcmem, hsrccase⟩ := mf.src
  rcases hsrccase with ⟨hnv, _⟩ | ⟨_, rs, hrsmem, hrsuid, hrsop, harin, _, _⟩
  · exact absurd hvia hnv
  · have hrsu : rs.uid < st.nextUid := hbound rs hrsmem
    have hrsar : ¬ rs.uid = ar.uid := by
      intro he
      have heq := uid_inj hnodup hrsmem harmem he
      have hop := hrsop
      rw [heq, harop] at hop
      exact absurd hop (by decide)
    have hrsds : ¬ spec.dynamicSlice.uid = rs.uid := by
      rw [hds]
      intro he
      have heq := uid_inj hnodup mf.ds_mem hrsmem he
      have hop := mf.ds_opcode
      rw [heq, hrsop] at hop
      exact absurd hop (by decide)
    have hdsar : ¬ spec.dynamicSlice.uid = ar.uid := by
      rw [hds]
      intro he
      have heq := uid_inj hnodup mf.ds_mem harmem he
      have hop := mf.ds_opcode
      rw [heq, harop] at hop
      exact absurd hop (by decide)
    have hcond : ¬ spec.dynamicSlice.operands.getD 0 ar.uid = ar.uid := by
      rw [hds, hsrc0, ← hrsuid]
      exact hrsar
    have hgetrs : spec.dynamicSlice.operands.getD 0 ar.uid = rs.uid := by
      rw [hds, hsrc0, ← hrsuid]
    have husers : ∀ u ∈ ar.operands,
        lookupInstr (removeInstr (removeInstr (removeInstr
            (replaceAllUsesWith
            (addInstruction (addInstruction st.comp (newArs st ar spec))
              (newReshape st spec))
            spec.dynamicSlice.uid (st.nextUid + 1)) spec.dynamicSlice.uid)
            (spec.dynamicSlice.operands.getD 0 ar.uid)) ar.uid) u = none ∨
        ¬ usersOf (removeInstr (removeInstr (removeInstr
            (replaceAllUsesWith
            (addInstruction (addInstruction st.comp (newArs st ar spec))
              (newReshape st spec))
            spec.dynamicSlice.uid (st.nextUid + 1)) spec.dynamicSlice.uid)
            (spec.dynamicSlice.operands.getD 0 ar.uid)) ar.uid) u = [] := by
      intro u hu
      by_cases hda : u = spec.dynamicSlice.uid
      · left
        rw [hda, lookup_removeInstr_ne _ hdsar,
          lookup_removeInstr_ne _ (by rw [hgetrs]; exact hrsds)]
        exact lookup_removeInstr_self _ _
      · by_cases hra : u = spec.dynamicSlice.operands.getD 0 ar.uid
        · left
          rw [hra, lookup_removeInstr_ne _ (by rw [hgetrs]; exact hrsar)]
          exact lookup_removeInstr_self _ _
        · by_cases haa : u = ar.uid
          · left
            rw [haa]
            exact lookup_removeInstr_self _ _
          · right
            have hA1 : newArs st ar spec ∈
                (addInstruction (addInstruction st.comp (newArs st ar spec))
                  (newReshape st spec)).instructions :=
              mem_addInstruction.mpr
                (Or.inl (mem_addInstruction.mpr (Or.inr rfl)))
            have hA2 : replUses spec.dynamicSlice.uid (st.nextUid + 1)
                (newArs st ar spec) ∈
                (replaceAllUsesWith (addInstruction
                  (addInstruction st.comp (newArs st ar spec))
                  (newReshape st spec))
                  spec.dynamicSlice.uid (st.nextUid + 1)).instructions := by
              rw [replaceAllUsesWith_instructions]
              exact List.mem_map_of_mem _ hA1
            have hA3 := mem_removeInstr_of hA2
              (show ¬ st.nextUid = spec.dynamicSlice.uid by omega)
            have hA4 := mem_removeInstr_of hA3
              (show ¬ st.nextUid =
                spec.dynamicSlice.operands.getD 0 ar.uid by
                rw [hgetrs]; omega)
            have hA5 := mem_removeInstr_of hA4
              (show ¬ st.nextUid = ar.uid by omega)
            exact usersOf_ne_nil hA5 (mem_map_ite hu hda)
    simp only [rewriteState]
    rw [if_pos hcond]
    rw [if_pos hcond]
    rw [if_pos hcond]
    rw [if_pos hcond]
    rw [removeInstructionAndUnusedOperands]
    show (⟨removeUnused
        (removeInstr (removeInstr (removeInstr (replaceAllUsesWith
          (addInstruction (addInstruction st.comp (newArs st ar spec))
            (newReshape st spec))
          spec.dynamicSlice.uid (st.nextUid + 1)) spec.dynamicSlice.uid)
          (spec.dynamicSlice.operands.getD 0 ar.uid)) ar.uid)
        (removalFuel (removeInstr (removeInstr (replaceAllUsesWith
          (addInstruction (addInstruction st.comp (newArs st ar spec))
            (newReshape st spec))
          spec.dynamicSlice.uid (st.nextUid + 1)) spec.dynamicSlice.uid)
          (spec.dynamicSlice.operands.getD 0 ar.uid)))
        ar.operands,
      if ar.channelId.isSome then st.nextCh + 1 else st.nextCh,
      st.nextUid + 2, true⟩ : PassState) =
      ⟨removeInstr (removeInstr (removeInstr (replaceAllUsesWith
          (addInstruction (addInstruction st.comp (newArs st ar spec))
            (newReshape st spec))
          spec.dynamicSlice.uid (st.nextUid + 1)) spec.dynamicSlice.uid)
          (spec.dynamicSlice.operands.getD 0 ar.uid)) ar.uid,
        if ar.channelId.isSome then st.nextCh + 1 else st.nextCh,
        st.nextUid + 2, true⟩
    rw [removeUnused_eq_self_of _ _ _ husers]

theorem mem_rwD {c : HloComputation} {ars : HloInstruction}
    {dsU arU res : Nat} {i : HloInstruction}
    (h : i ∈ (removeInstr (removeInstr (replaceAllUsesWith
      (addInstruction c ars) dsU res) dsU) arU).instructions) :
    (∃ i0 ∈ c.instructions, i = replUses dsU res i0 ∧ ¬ i0.uid = dsU ∧
      ¬ i0.uid = arU) ∨ i = replUses dsU res ars := by
  obtain ⟨h1, hne1⟩ := mem_removeInstr_of_mem h
  obtain ⟨h2, hne2⟩ := mem_removeInstr_of_mem h1
  rw [replaceAllUsesWith_instructions] at h2
  obtain ⟨i0, hi0, hieq⟩ := List.mem_map.mp h2
  have huid0 : i0.uid = i.uid := by rw [← hieq]; rfl
  rcases mem_addInstruction.mp hi0 with hold | hars
  · left
    exact ⟨i0, hold, hieq.symm, by rw [huid0]; exact hne2,
      by rw [huid0]; exact hne1⟩
  · right
    rw [← hieq, hars]

theorem mem_rwV {c : HloComputation} {ars rsh : HloInstruction}
    {dsU rsU arU res : Nat} {i : HloInstruction}
    (h : i ∈ (removeInstr (removeInstr (removeInstr (replaceAllUsesWith
      (addInstruction (addInstruction c ars) rsh) dsU res) dsU) rsU)
      arU).instructions) :
    (∃ i0 ∈ c.instructions, i = replUses dsU res i0 ∧ ¬ i0.uid = dsU ∧
      ¬ i0.uid = rsU ∧ ¬ i0.uid = arU) ∨ i = replUses dsU res ars ∨
      i = replUses dsU res rsh := by
  obtain ⟨h1, hne1⟩ := mem_removeInstr_of_mem h
  obtain ⟨h2, hne2⟩ := mem_removeInstr_of_mem h1
  obtain ⟨h3, hne3⟩ := mem_removeInstr_of_mem h2
  rw [replaceAllUsesWith_instructions] at h3
  obtain ⟨i0, hi0, hieq⟩ := List.mem_map.mp h3
  have huid0 : i0.uid = i.uid := by rw [← hieq]; rfl
  rcases mem_addInstruction.mp hi0 with hold2 | hrsh
  · rcases mem_addInstruction.mp hold2 with hold | hars
    · left
      exact ⟨i0, hold, hieq.symm, by rw [huid0]; exact hne3,
        by rw [huid0]; exact hne2, by rw [huid0]; exact hne1⟩
    · right; left
      rw [← hieq, hars]
  · right; right
    rw [← hieq, hrsh]

theorem sweepWF_rwD {c : HloComputation} {ars dsI : HloInstruction}
    {arU nu : Nat}
    (hwf : sweepWF c nu)
    (hdsImem : dsI ∈ c.instructions)
    (hdsInz : ¬ dsI.dims = [])
    (harsuid : ars.uid = nu)
    (harsop : ars.opcode = HloOpcode.kAllReduceScatter)
    (harsent : ∀ o ∈ ars.operands, o < nu) :
    sweepWF (removeInstr (removeInstr (replaceAllUsesWith
      (addInstruction c ars) dsI.uid nu) dsI.uid) arU) (nu + 1) := by
  obtain ⟨hnd, hbd, hds, hrs⟩ := hwf
  refine ⟨?_, ?_, ?_, ?_⟩
  · have hsub : List.Sublist (removeInstr (removeInstr (replaceAllUsesWith
        (addInstruction c ars) dsI.uid nu) dsI.uid) arU).instructions
        ((c.instructions ++ [ars]).map (replUses dsI.uid nu)) :=
      List.Sublist.trans (List.filter_sublist _) (List.filter_sublist _)
    have hmaps := List.Sublist.map (fun i => i.uid) hsub
    have hmm : (((c.instructions ++ [ars]).map (replUses dsI.uid nu)).map
        (fun i => i.uid)) =
        ((c.instructions ++ [ars]).map (fun i => i.uid)) := by
      rw [List.map_map]
      rfl
    rw [hmm] at hmaps
    apply hmaps.nodup
    rw [List.map_append]
    apply List.Nodup.append hnd (by simp)
    intro x hx1 hx2
    obtain ⟨j, hj, hjx⟩ := List.mem_map.mp hx1
    simp only [List.map_cons, List.map_nil, List.mem_singleton] at hx2
    have := (hbd j hj).1
    rw [harsuid] at hx2
    omega
  · intro i hi
    rcases mem_rwD hi with ⟨i0, hi0, hieq, _, _⟩ | hieq
    · constructor
      · rw [hieq, replUses_uid]
        have := (hbd i0 hi0).1
        omega
      · intro o ho
        rw [hieq, replUses_operands] at ho
        obtain ⟨o0, ho0, hoeq⟩ := List.mem_map.mp ho
        by_cases hd : o0 = dsI.uid
        · rw [if_pos hd] at hoeq
          omega
        · rw [if_neg hd] at hoeq
          have := (hbd i0 hi0).2 o0 ho0
          omega
    · constructor
      · rw [hieq, replUses_uid, harsuid]
        omega
      · intro o ho
        rw [hieq, replUses_operands] at ho
        obtain ⟨o0, ho0, hoeq⟩ := List.mem_map.mp ho
        by_cases hd : o0 = dsI.uid
        · rw [if_pos hd] at hoeq
          omega
        · rw [if_neg hd] at hoeq
          have := harsent o0 ho0
          omega
  · intro i hi hiop
    rcases mem_rwD hi with ⟨i0, hi0, hieq, _, _⟩ | hieq
    · have hi0op : i0.opcode = HloOpcode.kDynamicSlice := by
        rw [hieq, replUses_opcode] at hiop
        exact hiop
      obtain ⟨hdim0, hslot0⟩ := hds i0 hi0 hi0op
      constructor
      · rw [hieq, replUses_dims, replUses_sizes]
        exact hdim0
      · intro o ho j2 hj2 hj2uid
        rw [hieq, replUses_operands] at ho
        rw [← List.map_drop] at ho
        obtain ⟨o0, ho0, hoeq⟩ := List.mem_map.mp ho
        by_cases hd : o0 = dsI.uid
        · exact absurd (hslot0 o0 ho0 dsI hdsImem hd.symm) hdsInz
        · rw [if_neg hd] at hoeq
          subst hoeq
          rcases mem_rwD hj2 with ⟨j20, hj20, hj2eq, _, _⟩ | hj2eq
          · have hj20uid : j20.uid = o0 := by
              rw [hj2eq, replUses_uid] at hj2uid
              exact hj2uid
            have hsc := hslot0 o0 ho0 j20 hj20 hj20uid
            rw [hj2eq, replUses_dims]
            exact hsc
          · exfalso
            have huid2 : j2.uid = nu := by
              rw [hj2eq, replUses_uid, harsuid]
            have ho0lt : o0 < nu := (hbd i0 hi0).2 o0
              ((List.drop_subset _ _) ho0)
            omega
    · exfalso
      rw [hieq, replUses_opcode, harsop] at hiop
      exact absurd hiop (by decide)
  · intro i hi hiop
    rcases mem_rwD hi with ⟨i0, hi0, hieq, _, _⟩ | hieq
    · have hi0op : i0.opcode = HloOpcode.kReshape := by
        rw [hieq, replUses_opcode] at hiop
        exact hiop
      rw [hieq, replUses_operands, List.length_map]
      exact hrs i0 hi0 hi0op
    · exfalso
      rw [hieq, replUses_opcode, harsop] at hiop
      exact absurd hiop (by decide)

theorem sweepWF_rwV {c : HloComputation} {ars rsh dsI : HloInstruction}
    {rsU arU nu : Nat}
    (hwf : sweepWF c nu)
    (hdsImem : dsI ∈ c.instructions)
    (hdsInz : ¬ dsI.dims = [])
    (harsuid : ars.uid = nu)
    (harsop : ars.opcode = HloOpcode.kAllReduceScatter)
    (harsent : ∀ o ∈ ars.operands, o < nu)
    (hrshuid : rsh.uid = nu + 1)
    (hrshop : rsh.opcode = HloOpcode.kReshape)
    (hrshops : rsh.operands = [nu]) :
    sweepWF (removeInstr (removeInstr (removeInstr (replaceAllUsesWith
      (addInstruction (addInstruction c ars) rsh) dsI.uid (nu + 1)) dsI.uid)
      rsU) arU) (nu + 2) := by
  obtain ⟨hnd, hbd, hds, hrs⟩ := hwf
  refine ⟨?_, ?_, ?_, ?_⟩
  · have hsub : List.Sublist (removeInstr (removeInstr (removeInstr
        (replaceAllUsesWith (addInstruction (addInstruction c ars) rsh)
          dsI.uid (nu + 1)) dsI.uid) rsU) arU).instructions
        (((c.instructions ++ [ars]) ++ [rsh]).map
          (replUses dsI.uid (nu + 1))) :=
      List.Sublist.trans (List.filter_sublist _)
        (List.Sublist.trans (List.filter_sublist _) (List.filter_sublist _))
    have hmaps := List.Sublist.map (fun i => i.uid) hsub
    have hmm : ((((c.instructions ++ [ars]) ++ [rsh]).map
        (replUses dsI.uid (nu + 1))).map (fun i => i.uid)) =
        (((c.instructions ++ [ars]) ++ [rsh]).map (fun i => i.uid)) := by
      rw [List.map_map]
      rfl
    rw [hmm] at hmaps
    apply hmaps.nodup
    rw [List.map_append, List.map_append]
    apply List.Nodup.append
    · apply List.Nodup.append hnd (by simp)
      intro x hx1 hx2
      obtain ⟨j, hj, hjx⟩ := List.mem_map.mp hx1
      simp only [List.map_cons, List.map_nil, List.mem_singleton] at hx2
      have := (hbd j hj).1
      rw [harsuid] at hx2
      omega
    · simp
    · intro x hx1 hx2
      simp only [List.map_cons, List.map_nil, List.mem_singleton] at hx2
      rw [hrshuid] at hx2
      rcases List.mem_append.mp hx1 with hx | hx
      · obtain ⟨j, hj, hjx⟩ := List.mem_map.mp hx
        have := (hbd j hj).1
        omega
      · simp only [List.map_cons, List.map_nil, List.mem_singleton] at hx
        rw [harsuid] at hx
        omega
  · intro i hi
    rcases mem_rwV hi with ⟨i0, hi0, hieq, _, _, _⟩ | hieq | hieq
    · constructor
      · rw [hieq, replUses_uid]
        have := (hbd i0 hi0).1
        omega
      · intro o ho
        rw [hieq, replUses_operands] at ho
        obtain ⟨o0, ho0, hoeq⟩ := List.mem_map.mp ho
        by_cases hd : o0 = dsI.uid
        · rw [if_pos hd] at hoeq
          omega
        · rw [if_neg hd] at hoeq
          have := (hbd i0 hi0).2 o0 ho0
          omega
    · constructor
      · rw [hieq, replUses_uid, harsuid]
        omega
      · intro o ho
        rw [hieq, replUses_operands] at ho
        obtain ⟨o0, ho0, hoeq⟩ := List.mem_map.mp ho
        by_cases hd : o0 = dsI.uid
        · rw [if_pos hd] at hoeq
          omega
        · rw [if_neg hd] at hoeq
          have := harsent o0 ho0
          omega
    · constructor
      · rw [hieq, replUses_uid, hrshuid]
        omega
      · intro o ho
        rw [hieq, replUses_operands, hrshops] at ho
        obtain ⟨o0, ho0, hoeq⟩ := List.mem_map.mp ho
        simp only [List.mem_singleton] at ho0
        subst ho0
        by_cases hd : o0 = dsI.uid
        · rw [if_pos hd] at hoeq
          omega
        · rw [if_neg hd] at hoeq
          omega
  · intro i hi hiop
    rcases mem_rwV hi with ⟨i0, hi0, hieq, _, _, _⟩ | hieq | hieq
    · have hi0op : i0.opcode = HloOpcode.kDynamicSlice := by
        rw [hieq, replUses_opcode] at hiop
        exact hiop
      obtain ⟨hdim0, hslot0⟩ := hds i0 hi0 hi0op
      constructor
      · rw [hieq, replUses_dims, replUses_sizes]
        exact hdim0
      · intro o ho j2 hj2 hj2uid
        rw [hieq, replUses_operands] at ho
        rw [← List.map_drop] at ho
        obtain ⟨o0, ho0, hoeq⟩ := List.mem_map.mp ho
        by_cases hd : o0 = dsI.uid
        · exact absurd (hslot0 o0 ho0 dsI hdsImem hd.symm) hdsInz
        · rw [if_neg hd] at hoeq
          subst hoeq
          rcases mem_rwV hj2 with ⟨j20, hj20, hj2eq, _, _, _⟩ | hj2eq | hj2eq
          · have hj20uid : j20.uid = o0 := by
              rw [hj2eq, replUses_uid] at hj2uid
              exact hj2uid
            have hsc := hslot0 o0 ho0 j20 hj20 hj20uid
            rw [hj2eq, replUses_dims]
            exact hsc
          · exfalso
            have huid2 : j2.uid = nu := by
              rw [hj2eq, replUses_uid, harsuid]
            have ho0lt : o0 < nu := (hbd i0 hi0).2 o0
              ((List.drop_subset _ _) ho0)
            omega
          · exfalso
            have huid2 : j2.uid = nu + 1 := by
              rw [hj2eq, replUses_uid, hrshuid]
            have ho0lt : o0 < nu := (hbd i0 hi0).2 o0
              ((List.drop_subset _ _) ho0)
            omega
    · exfalso
      rw [hieq, replUses_opcode, harsop] at hiop
      exact absurd hiop (by decide)
    · exfalso
      rw [hieq, replUses_opcode, hrshop] at hiop
      exact absurd hiop (by decide)
  · intro i hi hiop
    rcases mem_rwV hi with ⟨i0, hi0, hieq, _, _, _⟩ | hieq | hieq
    · have hi0op : i0.opcode = HloOpcode.kReshape := by
        rw [hieq, replUses_opcode] at hiop
        exact hiop
      rw [hieq, replUses_operands, List.length_map]
      exact hrs i0 hi0 hi0op
    · exfalso
      rw [hieq, replUses_opcode, harsop] at hiop
      exact absurd hiop (by decide)
    · rw [hieq, replUses_operands, hrshops]
      rfl

theorem newArs_uid (st : PassState) (ar : HloInstruction)
    (spec : ReduceScatterSpec) : (newArs st ar spec).uid = st.nextUid := rfl

theorem newArs_opcode (st : PassState) (ar : HloInstruction)
    (spec : ReduceScatterSpec) :
    (newArs st ar spec).opcode = HloOpcode.kAllReduceScatter := rfl

theorem newArs_operands (st : PassState) (ar : HloInstruction)
    (spec : ReduceScatterSpec) : (newArs st ar spec).operands = ar.operands :=
  rfl

theorem newReshape_uid (st : PassState) (spec : ReduceScatterSpec) :
    (newReshape st spec).uid = st.nextUid + 1 := rfl

theorem newReshape_opcode (st : PassState) (spec : ReduceScatterSpec) :
    (newReshape st spec).opcode = HloOpcode.kReshape := rfl

theorem newReshape_operands (st : PassState) (spec : ReduceScatterSpec) :
    (newReshape st spec).operands = [st.nextUid] := rfl

theorem tableVals_none_of_reshape {i : HloInstruction}
    (hop : i.opcode = HloOpcode.kReshape) : tableVals i = none := by
  rw [tableVals, hop]

theorem diffDims_nil (b : List Nat) : diffDims [] b = [] := rfl

theorem sweepWF_mono {c : HloComputation} {nu nu' : Nat}
    (h : sweepWF c nu) (hle : nu ≤ nu') : sweepWF c nu' := by
  obtain ⟨h1, h2, h3, h4⟩ := h
  exact ⟨h1, fun i hi => ⟨Nat.lt_of_lt_of_le (h2 i hi).1 hle,
    fun o ho => Nat.lt_of_lt_of_le ((h2 i hi).2 o ho) hle⟩, h3, h4⟩

theorem removeInstr_isFusion (c : HloComputation) (u : Nat) :
    (removeInstr c u).isFusion = c.isFusion := rfl

theorem removeUnused_isFusion :
    ∀ (fuel : Nat) (ws : List Nat) (c : HloComputation),
      (removeUnused c fuel ws).isFusion = c.isFusion := by
  intro fuel
  induction fuel with
  | zero => intro ws c; rw [removeUnused]
  | succ n ih =>
    intro ws c
    cases ws with
    | nil =>
      rw [removeUnused]
      omega
    | cons u rest =>
      rw [removeUnused]
      cases hlk : lookupInstr c u with
      | none =>
        dsimp only
        exact ih rest c
      | some i =>
        dsimp only
        split
        · rw [ih]
          rfl
        · exact ih rest c

theorem MatchARS_none {P R : Nat} {c : HloComputation} {ar : HloInstruction}
    (h : MatchAllReduceScatter P R c ar = none) :
    matchFull P R c ar = none := by
  rw [MatchAllReduceScatter] at h
  cases hf : matchFull P R c ar with
  | none => rfl
  | some f =>
    rw [hf] at h
    cases h

theorem rewriteState_isFusion (st : PassState) (ar : HloInstruction)
    (spec : ReduceScatterSpec) :
    (rewriteState st ar spec).comp.isFusion = st.comp.isFusion := by
  simp only [rewriteState]
  by_cases hvia : ¬ spec.dynamicSlice.operands.getD 0 ar.uid = ar.uid
  · simp only [if_pos hvia]
    rw [removeInstructionAndUnusedOperands, removeUnused_isFusion]
    rfl
  · simp only [if_neg hvia]
    rw [removeInstructionAndUnusedOperands, removeUnused_isFusion]
    rfl

theorem length_rwD_le {c : HloComputation} {ars dsI : HloInstruction}
    {arU res : Nat} (hdsImem : dsI ∈ c.instructions) :
    (removeInstr (removeInstr (replaceAllUsesWith (addInstruction c ars)
      dsI.uid res) dsI.uid) arU).instructions.length ≤
      c.instructions.length := by
  show (((replaceAllUsesWith (addInstruction c ars) dsI.uid
      res).instructions.filter (fun i => ¬ i.uid = dsI.uid)).filter
      (fun i => ¬ i.uid = arU)).length ≤ c.instructions.length
  have hlenA : (replaceAllUsesWith (addInstruction c ars) dsI.uid
      res).instructions.length = c.instructions.length + 1 := by
    rw [replaceAllUsesWith_instructions, List.length_map]
    show (c.instructions ++ [ars]).length = _
    rw [List.length_append]
    rfl
  have hmemds : replUses dsI.uid res dsI ∈
      (replaceAllUsesWith (addInstruction c ars) dsI.uid res).instructions := by
    rw [replaceAllUsesWith_instructions]
    exact List.mem_map_of_mem _ (mem_addInstruction.mpr (Or.inl hdsImem))
  have h1 := @length_filter_lt HloInstruction
    (fun i => decide (¬ i.uid = dsI.uid)) _ _ hmemds
    (by simp [replUses_uid])
  have h2 := List.length_filter_le (fun i => decide (¬ i.uid = arU))
    ((replaceAllUsesWith (addInstruction c ars) dsI.uid
      res).instructions.filter (fun i => ¬ i.uid = dsI.uid))
  omega

theorem length_rwV_le {c : HloComputation} {ars rsh dsI rsI : HloInstruction}
    {arU res : Nat}
    (hdsImem : dsI ∈ c.instructions) (hrsImem : rsI ∈ c.instructions)
    (hne : ¬ rsI.uid = dsI.uid) :
    (removeInstr (removeInstr (removeInstr (replaceAllUsesWith
      (addInstruction (addInstruction c ars) rsh) dsI.uid res) dsI.uid)
      rsI.uid) arU).instructions.length ≤ c.instructions.length := by
  show ((((replaceAllUsesWith (addInstruction (addInstruction c ars) rsh)
      dsI.uid res).instructions.filter (fun i => ¬ i.uid = dsI.uid)).filter
      (fun i => ¬ i.uid = rsI.uid)).filter
      (fun i => ¬ i.uid = arU)).length ≤ c.instructions.length
  have hlenA : (replaceAllUsesWith (addInstruction (addInstruction c ars) rsh)
      dsI.uid res).instructions.length = c.instructions.length + 2 := by
    rw [replaceAllUsesWith_instructions, List.length_map]
    show ((c.instructions ++ [ars]) ++ [rsh]).length = _
    rw [List.length_append, List.length_append]
    rfl
  have hmemds : replUses dsI.uid res dsI ∈
      (replaceAllUsesWith (addInstruction (addInstruction c ars) rsh)
        dsI.uid res).instructions := by
    rw [replaceAllUsesWith_instructions]
    exact List.mem_map_of_mem _ (mem_addInstruction.mpr
      (Or.inl (mem_addInstruction.mpr (Or.inl hdsImem))))
  have hmemrs : replUses dsI.uid res rsI ∈
      ((replaceAllUsesWith (addInstruction (addInstruction c ars) rsh)
        dsI.uid res).instructions.filter (fun i => ¬ i.uid = dsI.uid)) := by
    apply List.mem_filter.mpr
    refine ⟨?_, by simp [replUses_uid, hne]⟩
    rw [replaceAllUsesWith_instructions]
    exact List.mem_map_of_mem _ (mem_addInstruction.mpr
      (Or.inl (mem_addInstruction.mpr (Or.inl hrsImem))))
  have h1 := @length_filter_lt HloInstruction
    (fun i => decide (¬ i.uid = dsI.uid)) _ _ hmemds
    (by simp [replUses_uid])
  have h2 := @length_filter_lt HloInstruction
    (fun i => decide (¬ i.uid = rsI.uid)) _ _ hmemrs
    (by simp [replUses_uid])
  have h3 := List.length_filter_le (fun i => decide (¬ i.uid = arU))
    ((((replaceAllUsesWith (addInstruction (addInstruction c ars) rsh)
      dsI.uid res).instructions.filter (fun i => ¬ i.uid = dsI.uid)).filter
      (fun i => ¬ i.uid = rsI.uid)))
  omega

theorem analyzer_transfer_rwD {c : HloComputation} {ars dsI : HloInstruction}
    {arU nu R P : Nat}
    (hent : ∀ j ∈ c.instructions, ∀ o ∈ j.operands, o < nu)
    (hb : ∀ j ∈ c.instructions, j.uid < nu)
    (hdsImem : dsI ∈ c.instructions)
    (harsuid : ars.uid = nu)
    (harsop : ars.opcode = HloOpcode.kAllReduceScatter)
    (hdsu : dsI.uid < nu) (haru : arU < nu) :
    ∀ off s2 gs (ug : Bool), off < nu →
      analyzerOk (removeInstr (removeInstr (replaceAllUsesWith
        (addInstruction c ars) dsI.uid nu) dsI.uid) arU) off ug R P gs s2 =
        true →
      analyzerOk c off ug R P gs s2 = true := by
  subst harsuid
  intro off s2 gs ug hoff h
  refine @analyzerOk_transfer c _ dsI.uid ars.uid ars.uid
    hent ?_ ?_ ?_ ?_ _ _ _ _ _ _ hoff h
  · intro u2 hu2
    exact lookup_rwD (show ¬ u2 = ars.uid by omega)
  · exact evalScalar_none_of_ars (lookup_rwD_res hb hdsu haru)
      (by rw [replUses_opcode]; exact harsop)
  · intro j hj
    rw [lookup_rwD_res hb hdsu haru] at hj
    rw [← Option.some.inj hj]
    exact tableVals_none_of_ars (by rw [replUses_opcode]; exact harsop)
  · exact length_rwD_le hdsImem

theorem analyzer_transfer_rwV {c : HloComputation}
    {ars rsh dsI rsI : HloInstruction} {arU nu R P : Nat}
    (hent : ∀ j ∈ c.instructions, ∀ o ∈ j.operands, o < nu)
    (hb : ∀ j ∈ c.instructions, j.uid < nu)
    (hdsImem : dsI ∈ c.instructions) (hrsImem : rsI ∈ c.instructions)
    (hnedr : ¬ rsI.uid = dsI.uid)
    (harsuid : ars.uid = nu)
    (harsop : ars.opcode = HloOpcode.kAllReduceScatter)
    (hrshuid : rsh.uid = nu + 1)
    (hrshop : rsh.opcode = HloOpcode.kReshape)
    (hrshops : rsh.operands = [nu])
    (hdsu : dsI.uid < nu) (hrsu : rsI.uid < nu) (haru : arU < nu) :
    ∀ off s2 gs (ug : Bool), off < nu →
      analyzerOk (removeInstr (removeInstr (removeInstr (replaceAllUsesWith
        (addInstruction (addInstruction c ars) rsh) dsI.uid (nu + 1))
        dsI.uid) rsI.uid) arU) off ug R P gs s2 = true →
      analyzerOk c off ug R P gs s2 = true := by
  subst harsuid
  intro off s2 gs ug hoff h
  refine @analyzerOk_transfer c _ dsI.uid (ars.uid + 1) ars.uid
    hent ?_ ?_ ?_ ?_ _ _ _ _ _ _ hoff h
  · intro u2 hu2
    exact lookup_rwV (show ¬ u2 = ars.uid by omega)
      (show ¬ u2 = rsh.uid by omega)
  · have hars : ∀ f2 r p, evalScalar (removeInstr (removeInstr (removeInstr
        (replaceAllUsesWith (addInstruction (addInstruction c ars) rsh)
          dsI.uid (ars.uid + 1)) dsI.uid) rsI.uid) arU) f2 ars.uid r p =
        none :=
      evalScalar_none_of_ars
        (lookup_rwV_ars hb hdsu hrsu haru)
        (by rw [replUses_opcode]; exact harsop)
    have hlookR : lookupInstr (removeInstr (removeInstr (removeInstr
        (replaceAllUsesWith (addInstruction (addInstruction c ars) rsh)
          dsI.uid (ars.uid + 1)) dsI.uid) rsI.uid) arU) (ars.uid + 1) =
        some (replUses dsI.uid (ars.uid + 1) rsh) := by
      have h0 : lookupInstr (removeInstr (removeInstr (removeInstr
          (replaceAllUsesWith (addInstruction (addInstruction c ars) rsh)
            dsI.uid (ars.uid + 1)) dsI.uid) rsI.uid) arU) rsh.uid =
          some (replUses dsI.uid (ars.uid + 1) rsh) :=
        lookup_rwV_rsh hb (show ars.uid < rsh.uid by omega) hdsu hrsu haru
      rw [hrshuid] at h0
      exact h0
    exact evalScalar_none_of_reshape hlookR
      (by rw [replUses_opcode]; exact hrshop)
      (show (replUses dsI.uid (ars.uid + 1) rsh).operands = [ars.uid] by
        rw [replUses_operands, hrshops]
        simp only [List.map_cons, List.map_nil]
        rw [if_neg (by omega)])
      hars
  · intro j hj
    have h0 : lookupInstr (removeInstr (removeInstr (removeInstr
        (replaceAllUsesWith (addInstruction (addInstruction c ars) rsh)
          dsI.uid (ars.uid + 1)) dsI.uid) rsI.uid) arU) rsh.uid =
        some (replUses dsI.uid (ars.uid + 1) rsh) :=
      lookup_rwV_rsh hb (show ars.uid < rsh.uid by omega) hdsu hrsu haru
    rw [hrshuid] at h0
    rw [h0] at hj
    rw [← Option.some.inj hj]
    exact tableVals_none_of_reshape (by rw [replUses_opcode]; exact hrshop)
  · exact length_rwV_le hdsImem hrsImem hnedr

/-- One loop-body step preserves data-model conformance and the sweep
invariant: every all-reduce still present is either still ahead in the
snapshot or already fails the matcher. -/
theorem processInstr_inv {P R : Nat} {st st' : PassState} {u : Nat}
    {rem : List Nat}
    (hwf : sweepWF st.comp st.nextUid)
    (hinv : ∀ i ∈ st.comp.instructions, i.opcode = HloOpcode.kAllReduce →
      i.uid ∈ u :: rem ∨ matchFull P R st.comp i = none)
    (hok : processInstr P R st u = Except.ok st') :
    sweepWF st'.comp st'.nextUid ∧ st.nextUid ≤ st'.nextUid ∧
    st'.comp.isFusion = st.comp.isFusion ∧
    (∀ i ∈ st'.comp.instructions, i.opcode = HloOpcode.kAllReduce →
      i.uid ∈ rem ∨ matchFull P R st'.comp i = none) := by
  obtain ⟨hnodup, hbd, hdsc, hrsc⟩ := hwf
  have hbound : ∀ j ∈ st.comp.instructions, j.uid < st.nextUid :=
    fun j hj => (hbd j hj).1
  have hent : ∀ j ∈ st.comp.instructions, ∀ o ∈ j.operands, o < st.nextUid :=
    fun j hj => (hbd j hj).2
  cases hlk : lookupInstr st.comp u with
  | none =>
    rw [processInstr_not_found hlk] at hok
    injection hok with hst
    subst hst
    refine ⟨⟨hnodup, hbd, hdsc, hrsc⟩, Nat.le_refl _, rfl, ?_⟩
    intro i hi hiop
    rcases hinv i hi hiop with hin | hnone
    · rcases List.mem_cons.mp hin with he | ht
      · exfalso
        rw [← he, lookup_of_mem_nodup hnodup hi] at hlk
        cases hlk
      · exact Or.inl ht
    · exact Or.inr hnone
  | some ar =>
    have harmem := (lookupInstr_mem hlk).1
    have haruid := (lookupInstr_mem hlk).2
    by_cases hop : ar.opcode = HloOpcode.kAllReduce
    · cases hm : MatchAllReduceScatter P R st.comp ar with
      | none =>
        rw [processInstr_no_match hlk hm] at hok
        injection hok with hst
        subst hst
        refine ⟨⟨hnodup, hbd, hdsc, hrsc⟩, Nat.le_refl _, rfl, ?_⟩
        intro i hi hiop
        rcases hinv i hi hiop with hin | hnone
        · rcases List.mem_cons.mp hin with he | ht
          · right
            have hieq : i = ar := uid_inj hnodup hi harmem
              (by rw [he, haruid])
            rw [hieq]
            exact MatchARS_none hm
          · exact Or.inl ht
        · exact Or.inr hnone
      | some spec =>
        rw [processInstr_match hlk hop hm] at hok
        obtain ⟨f, hf, hts⟩ := MatchARS_inv hm
        have mf := matchFull_facts hf
        have hds : spec.dynamicSlice = f.ds := by rw [← hts]; rfl
        have hdsmem : f.ds ∈ st.comp.instructions := mf.ds_mem
        have hdsu : f.ds.uid < st.nextUid := hbound f.ds hdsmem
        have haru : ar.uid < st.nextUid := hbound ar harmem
        have hdsnz : ¬ f.ds.dims = [] := by
          intro hnil
          have hdseq : f.ds.dims = f.ds.dynamicSliceSizes :=
            (hdsc f.ds hdsmem mf.ds_opcode).1
          have hsz : f.ds.dynamicSliceSizes = [] := by rw [← hdseq, hnil]
          have hsrcnil : f.srcDims = [] := by
            have hl := mf.dims_len
            rw [hsz] at hl
            exact List.length_eq_zero.mp hl
          have hdiff := mf.diff
          rw [hsrcnil, hsz, diffDims_nil] at hdiff
          cases hdiff
        have hdshead : ∀ a t, f.ds.operands = a :: t → a = ar.uid ∨
            ∃ rsI, rsI ∈ st.comp.instructions ∧ rsI.uid = a ∧
              rsI.opcode = HloOpcode.kReshape ∧ rsI.operands = [ar.uid] := by
          intro a t hops
          obtain ⟨srcUid, hsrc0, _, hcase⟩ := mf.src
          rw [hops] at hsrc0
          have ha : a = srcUid := hsrc0
          rcases hcase with ⟨_, hAe⟩ |
            ⟨_, rs, hrsmem, hrsuid, hrsop2, _, _, hget0⟩
          · left
            rw [ha, hAe]
          · right
            obtain ⟨x, hx⟩ := List.length_eq_one.mp (hrsc rs hrsmem hrsop2)
            have hxar : x = ar.uid := by
              rw [hx] at hget0
              exact hget0
            refine ⟨rs, hrsmem, by rw [ha, ← hrsuid], hrsop2, ?_⟩
            rw [hx, hxar]
        have hslots : ∀ j ∈ st.comp.instructions,
            j.opcode = HloOpcode.kDynamicSlice →
            ∀ o ∈ j.operands.drop 1, ∀ j2 ∈ st.comp.instructions,
              j2.uid = o → j2.dims = [] :=
          fun j hj hjop => (hdsc j hj hjop).2
        cases hviaB : f.viaReshape with
        | false =>
          rw [rewriteState_direct2 hnodup hbound harmem hop hf hts hviaB]
            at hok
          injection hok with hst
          subst hst
          refine ⟨?_, Nat.le_succ _, rfl, ?_⟩
          · show sweepWF (removeInstr (removeInstr (replaceAllUsesWith
              (addInstruction st.comp (newArs st ar spec))
              spec.dynamicSlice.uid st.nextUid) spec.dynamicSlice.uid)
              ar.uid) (st.nextUid + 1)
            rw [hds]
            exact sweepWF_rwD ⟨hnodup, hbd, hdsc, hrsc⟩ hdsmem hdsnz
              (newArs_uid st ar spec) (newArs_opcode st ar spec)
              (by rw [newArs_operands]; exact hent ar harmem)
          · intro i2 hi2 hiop2
            have hi2m : i2 ∈ (removeInstr (removeInstr (replaceAllUsesWith
                (addInstruction st.comp (newArs st ar spec)) f.ds.uid
                st.nextUid) f.ds.uid) ar.uid).instructions := by
              rw [← hds]
              exact hi2
            rcases mem_rwD hi2m with ⟨i0, hi0, hieq, _, hi0ar⟩ | hieq
            · have hi0op : i0.opcode = HloOpcode.kAllReduce := by
                rw [hieq, replUses_opcode] at hiop2
                exact hiop2
              rcases hinv i0 hi0 hi0op with hin | hnone
              · rcases List.mem_cons.mp hin with he | ht
                · exact absurd (by rw [he, ← haruid]) hi0ar
                · left
                  rw [hieq, replUses_uid]
                  exact ht
              · right
                have hgoal : matchFull P R (removeInstr (removeInstr
                    (replaceAllUsesWith (addInstruction st.comp
                      (newArs st ar spec)) f.ds.uid st.nextUid) f.ds.uid)
                    ar.uid) (replUses f.ds.uid st.nextUid i0) = none := by
                  refine matchFull_persist_core hnodup hbound hent hslots
                    (Nat.le_refl _) harmem hdsmem mf.ds_opcode hdsnz hdshead
                    (newArs_operands st ar spec) (newArs_opcode st ar spec)
                    ?_ ?_ hi0 hi0op hi0ar hnone
                  · intro v hv hvds hvar hvdso
                    exact usersOf_rwD hnodup
                      (by intro j hj; rw [newArs_uid]; exact hbound j hj)
                      hdsmem (Nat.le_of_eq (newArs_uid st ar spec))
                      (by rw [newArs_uid]; exact haru)
                      (by rw [newArs_uid]; exact hv) hvds hvdso
                  · exact analyzer_transfer_rwD hent hbound hdsmem
                      (newArs_uid st ar spec) (newArs_opcode st ar spec)
                      hdsu haru
                rw [hieq, hds]
                exact hgoal
            · exfalso
              rw [hieq, replUses_opcode, newArs_opcode] at hiop2
              exact absurd hiop2 (by decide)
        | true =>
          rw [rewriteState_reshape2 hnodup hbound harmem hop hf hts hviaB]
            at hok
          injection hok with hst
          subst hst
          obtain ⟨srcUid, hsrc0, _, hcase⟩ := mf.src
          rcases hcase with ⟨hnv, _⟩ |
            ⟨_, rs, hrsmem, hrsuid, hrsop2, _, _, hget0⟩
          · exact absurd hviaB hnv
          · have hrsu : rs.uid < st.nextUid := hbound rs hrsmem
            have hgetrs : spec.dynamicSlice.operands.getD 0 ar.uid =
                rs.uid := by
              rw [hds, hsrc0, ← hrsuid]
            have hnedr : ¬ rs.uid = f.ds.uid := by
              intro he
              have heq := uid_inj hnodup hrsmem hdsmem he
              have hco := hrsop2
              rw [heq, mf.ds_opcode] at hco
              exact absurd hco (by decide)
            have hrsops1 : rs.operands = [ar.uid] := by
              obtain ⟨x, hx⟩ := List.length_eq_one.mp (hrsc rs hrsmem hrsop2)
              have hxar : x = ar.uid := by
                rw [hx] at hget0
                exact hget0
              rw [hx, hxar]
            refine ⟨?_, Nat.le_add_right _ 2, rfl, ?_⟩
            · show sweepWF (removeInstr (removeInstr (removeInstr
                (replaceAllUsesWith (addInstruction (addInstruction st.comp
                  (newArs st ar spec)) (newReshape st spec))
                spec.dynamicSlice.uid (st.nextUid + 1))
                spec.dynamicSlice.uid)
                (spec.dynamicSlice.operands.getD 0 ar.uid))
                ar.uid) (st.nextUid + 2)
              rw [hgetrs, hds]
              exact sweepWF_rwV ⟨hnodup, hbd, hdsc, hrsc⟩ hdsmem hdsnz
                (newArs_uid st ar spec) (newArs_opcode st ar spec)
                (by rw [newArs_operands]; exact hent ar harmem)
                (newReshape_uid st spec) (newReshape_opcode st spec)
                (newReshape_operands st spec)
            · intro i2 hi2 hiop2
              have hi2m : i2 ∈ (removeInstr (removeInstr (removeInstr
                  (replaceAllUsesWith (addInstruction (addInstruction st.comp
                    (newArs st ar spec)) (newReshape st spec))
                  f.ds.uid (st.nextUid + 1)) f.ds.uid) rs.uid)
                  ar.uid).instructions := by
                rw [← hds, ← hgetrs]
                exact hi2
              rcases mem_rwV hi2m with
                ⟨i0, hi0, hieq, _, _, hi0ar⟩ | hieq | hieq
              · have hi0op : i0.opcode = HloOpcode.kAllReduce := by
                  rw [hieq, replUses_opcode] at hiop2
                  exact hiop2
                rcases hinv i0 hi0 hi0op with hin | hnone
                · rcases List.mem_cons.mp hin with he | ht
                  · exact absurd (by rw [he, ← haruid]) hi0ar
                  · left
                    rw [hieq, replUses_uid]
                    exact ht
                · right
                  have hgoal : matchFull P R (removeInstr (removeInstr
                      (removeInstr (replaceAllUsesWith (addInstruction
                        (addInstruction st.comp (newArs st ar spec))
                        (newReshape st spec)) f.ds.uid (st.nextUid + 1))
                      f.ds.uid) rs.uid) ar.uid)
                      (replUses f.ds.uid (st.nextUid + 1) i0) = none := by
                    refine matchFull_persist_core hnodup hbound hent hslots
                      (Nat.le_succ _) harmem hdsmem mf.ds_opcode hdsnz
                      hdshead (newArs_operands st ar spec)
                      (newArs_opcode st ar spec)
                      ?_ ?_ hi0 hi0op hi0ar hnone
                    · intro v hv hvds hvar hvdso
                      exact usersOf_rwV hnodup
                        (by intro j hj; rw [newArs_uid]; exact hbound j hj)
                        hdsmem hrsmem
                        (by rw [newArs_uid]; exact Nat.le_succ _)
                        (by rw [newArs_uid]; exact haru)
                        (by rw [newReshape_operands, newArs_uid])
                        (by rw [newArs_uid]; exact hv) hvds hvdso
                        (by rw [hrsops1]
                            simp only [List.mem_singleton]
                            exact hvar)
                    · exact analyzer_transfer_rwV hent hbound hdsmem hrsmem
                        hnedr (newArs_uid st ar spec)
                        (newArs_opcode st ar spec) (newReshape_uid st spec)
                        (newReshape_opcode st spec)
                        (newReshape_operands st spec) hdsu hrsu haru
                  rw [hieq, hgetrs, hds]
                  exact hgoal
              · exfalso
                rw [hieq, replUses_opcode, newArs_opcode] at hiop2
                exact absurd hiop2 (by decide)
              · exfalso
                rw [hieq, replUses_opcode, newReshape_opcode] at hiop2
                exact absurd hiop2 (by decide)
    · rw [processInstr_not_allreduce hlk hop] at hok
      injection hok with hst
      subst hst
      refine ⟨⟨hnodup, hbd, hdsc, hrsc⟩, Nat.le_refl _, rfl, ?_⟩
      intro i hi hiop
      rcases hinv i hi hiop with hin | hnone
      · rcases List.mem_cons.mp hin with he | ht
        · exfalso
          have hieq : i = ar := uid_inj hnodup hi harmem (by rw [he, haruid])
          rw [hieq] at hiop
          exact hop hiop
        · exact Or.inl ht
      · exact Or.inr hnone

/-- The sweep invariant carried over the whole snapshot list. -/
theorem processList_inv {P R : Nat} :
    ∀ (us : List Nat) (st st' : PassState),
      sweepWF st.comp st.nextUid →
      (∀ i ∈ st.comp.instructions, i.opcode = HloOpcode.kAllReduce →
        i.uid ∈ us ∨ matchFull P R st.comp i = none) →
      processList P R st us = Except.ok st' →
      sweepWF st'.comp st'.nextUid ∧ st.nextUid ≤ st'.nextUid ∧
      st'.comp.isFusion = st.comp.isFusion ∧
      (∀ i ∈ st'.comp.instructions, i.opcode = HloOpcode.kAllReduce →
        matchFull P R st'.comp i = none) := by
  intro us
  induction us with
  | nil =>
    intro st st' hwf hinv hok
    injection hok with hst
    subst hst
    refine ⟨hwf, Nat.le_refl _, rfl, ?_⟩
    intro i hi hiop
    rcases hinv i hi hiop with hin | hnone
    · cases hin
    · exact hnone
  | cons u rest ih =>
    intro st st' hwf hinv hok
    rw [processList] at hok
    cases hstep : processInstr P R st u with
    | error e =>
      rw [hstep] at hok
      cases hok
    | ok st1 =>
      rw [hstep] at hok
      obtain ⟨hwf1, hle1, hfus1, hinv1⟩ := processInstr_inv hwf hinv hstep
      obtain ⟨hwf2, hle2, hfus2, hcl⟩ := ih st1 st' hwf1
        (fun i hi hiop => Or.elim (hinv1 i hi hiop) Or.inl Or.inr) hok
      exact ⟨hwf2, Nat.le_trans hle1 hle2, hfus2.trans hfus1, hcl⟩

/-- A loop step is a no-op when every all-reduce of the computation
already fails the matcher. -/
theorem processList_id {P R : Nat} {st : PassState}
    (h : ∀ i ∈ st.comp.instructions, i.opcode = HloOpcode.kAllReduce →
      matchFull P R st.comp i = none) :
    ∀ us, processList P R st us = Except.ok st := by
  intro us
  induction us with
  | nil => rfl
  | cons u rest ih =>
    have hstep : processInstr P R st u = Except.ok st := by
      cases hlk : lookupInstr st.comp u with
      | none => exact processInstr_not_found hlk
      | some ar =>
        by_cases hop : ar.opcode = HloOpcode.kAllReduce
        · have hmn : MatchAllReduceScatter P R st.comp ar = none := by
            rw [MatchAllReduceScatter, h ar (lookupInstr_mem hlk).1 hop]
            rfl
          exact processInstr_no_match hlk hmn
        · exact processInstr_not_allreduce hlk hop
    rw [processList, hstep]
    exact ih

/-- One computation sweep under data-model conformance: the result is
conformant at the new uid counter, the counter does not shrink, the
fusion flag is untouched, and no surviving all-reduce matches. -/
theorem runComputation_inv {P R ch nu : Nat} {c c2 : HloComputation}
    {ch1 nu1 : Nat} {chg : Bool}
    (hwf : sweepWF c nu)
    (hok : runComputation P R ch nu c = Except.ok (c2, ch1, nu1, chg)) :
    sweepWF c2 nu1 ∧ nu ≤ nu1 ∧ c2.isFusion = c.isFusion ∧
    ∀ i ∈ c2.instructions, i.opcode = HloOpcode.kAllReduce →
      matchFull P R c2 i = none := by
  rw [runComputation] at hok
  cases hpl : processList P R ⟨c, ch, nu, false⟩
      (c.instructions.map (fun i => i.uid)) with
  | error e =>
    rw [hpl] at hok
    cases hok
  | ok stF =>
    rw [hpl] at hok
    obtain ⟨hwfF, hleF, hfusF, hclF⟩ := processList_inv
      (c.instructions.map (fun i => i.uid)) ⟨c, ch, nu, false⟩ stF hwf
      (fun i hi _ => Or.inl (List.mem_map_of_mem _ hi)) hpl
    injection hok with h1
    injection h1 with hc2 h23
    injection h23 with hch h34
    injection h34 with hnu hchg
    subst hc2
    subst hnu
    exact ⟨hwfF, hleF, hfusF, hclF⟩

/-- A computation in which no all-reduce matches passes through the sweep
untouched, with `changed = false`. -/
theorem runComputation_id {P R ch nu : Nat} {c : HloComputation}
    (h : ∀ i ∈ c.instructions, i.opcode = HloOpcode.kAllReduce →
      matchFull P R c i = none) :
    runComputation P R ch nu c = Except.ok (c, ch, nu, false) := by
  rw [runComputation, processList_id h]

/-- Main induction over the module's computations: a conformant first run
leaves every non-fusion computation with no matching all-reduce, and a
second run over the resulting computation list is the identity with
`changed = false`, for any counter seeds. -/
theorem runComps_inv {P R : Nat} :
    ∀ (cs : List HloComputation) (ch nu : Nat)
      (out : List HloComputation × Nat × Nat × Bool),
      (∀ c ∈ cs, sweepWF c nu) →
      runComps P R cs ch nu = Except.ok out →
      nu ≤ out.2.2.1 ∧
      (∀ c1 ∈ out.1, ¬ c1.isFusion = true →
        ∀ i ∈ c1.instructions, i.opcode = HloOpcode.kAllReduce →
          matchFull P R c1 i = none) ∧
      (∀ ch2 nu2, runComps P R out.1 ch2 nu2 =
        Except.ok (out.1, ch2, nu2, false)) := by
  intro cs
  induction cs with
  | nil =>
    intro ch nu out hwf hok
    injection hok with h1
    subst h1
    exact ⟨Nat.le_refl _, fun c1 hc1 => absurd hc1 (by simp),
      fun ch2 nu2 => rfl⟩
  | cons c cs ih =>
    intro ch nu out hwf hok
    rw [runComps] at hok
    by_cases hfus : c.isFusion = true
    · rw [if_pos hfus] at hok
      cases hrest : runComps P R cs ch nu with
      | error e =>
        rw [hrest] at hok
        cases hok
      | ok out1 =>
        rw [hrest] at hok
        obtain ⟨cs2, ch2, nu2, chg⟩ := out1
        obtain ⟨hle, hcl, hid⟩ := ih ch nu (cs2, ch2, nu2, chg)
          (fun c2 hc2 => hwf c2 (by simp [hc2])) hrest
        injection hok with h1
        subst h1
        refine ⟨hle, ?_, ?_⟩
        · intro c1 hc1 hnf
          rcases List.mem_cons.mp hc1 with he | ht
          · exact absurd (he ▸ hfus) hnf
          · exact hcl c1 ht hnf
        · intro ch3 nu3
          rw [runComps, if_pos hfus, hid ch3 nu3]
    · rw [if_neg hfus] at hok
      cases hrc : runComputation P R ch nu c with
      | error e =>
        rw [hrc] at hok
        cases hok
      | ok r1 =>
        rw [hrc] at hok
        obtain ⟨c2, ch1, nu1, chg1⟩ := r1
        dsimp only at hok
        obtain ⟨hwf2, hle1, hfus2, hcl2⟩ := runComputation_inv
          (hwf c (by simp)) hrc
        cases hrest : runComps P R cs ch1 nu1 with
        | error e =>
          rw [hrest] at hok
          cases hok
        | ok out1 =>
          rw [hrest] at hok
          obtain ⟨cs2, ch2, nu2, chg2⟩ := out1
          obtain ⟨hle2, hcl, hid⟩ := ih ch1 nu1 (cs2, ch2, nu2, chg2)
            (fun c' hc' => sweepWF_mono (hwf c' (by simp [hc'])) hle1) hrest
          injection hok with h1
          subst h1
          refine ⟨Nat.le_trans hle1 hle2, ?_, ?_⟩
          · intro c1 hc1 hnf
            rcases List.mem_cons.mp hc1 with he | ht
            · intro i hi hiop
              rw [he]
              exact hcl2 i (he ▸ hi) hiop
            · exact hcl c1 ht hnf
          · intro ch3 nu3
            have hnf2 : ¬ c2.isFusion = true := by
              rw [hfus2]
              exact hfus
            rw [runComps, if_neg hnf2, runComputation_id hcl2]
            dsimp only
            rw [hid ch3 nu3]
            rfl

/-- C6: on a module conforming to the spec's data model (section 3:
distinct uids below the fresh-uid counter, dynamic-slice shapes equal
their slice sizes with scalar start-index operands, unary reshapes),
running the pass twice yields the same module as running it once: after
one successful run no all-reduce remaining in any computation the pass
sweeps (the non-fusion computations, its domain) still matches the
rewrite pattern, and the second run returns the module unchanged with
`changed = false`. -/
theorem claim_C6 {m m1 : HloModule} {b : Bool}
    (hwf : moduleSweepWF m)
    (hrun : AllReduceScatterCreatorRun m = Except.ok (m1, b)) :
    AllReduceScatterCreatorRun m1 = Except.ok (m1, false) ∧
    ∀ c ∈ m1.computations, ¬ c.isFusion = true →
      ∀ i ∈ c.instructions, i.opcode = HloOpcode.kAllReduce →
        MatchAllReduceScatter m1.numPartitions m1.replicaCount c i =
          none := by
  rw [AllReduceScatterCreatorRun] at hrun
  cases hr : runComps m.numPartitions m.replicaCount m.computations
      (NextChannelId m) m.nextUid with
  | error e =>
    rw [hr] at hrun
    cases hrun
  | ok out =>
    rw [hr] at hrun
    obtain ⟨cs, ch1, nu1, chg⟩ := out
    obtain ⟨hle, hcl, hid⟩ := runComps_inv m.computations (NextChannelId m)
      m.nextUid (cs, ch1, nu1, chg) hwf hr
    dsimp only at hle hcl hid hrun
    injection hrun with h1
    injection h1 with hm1 hb
    subst hm1
    refine ⟨?_, ?_⟩
    · rw [AllReduceScatterCreatorRun]
      dsimp only
      rw [hid]
    · intro c hc hnf i hi hiop
      rw [MatchAllReduceScatter]
      dsimp only
      rw [hcl c hc hnf i hi hiop]
      rfl

theorem claim_C6_witness :
    moduleSweepWF mChan ∧
    AllReduceScatterCreatorRun mChan = Except.ok (mChanOut, true) ∧
    AllReduceScatterCreatorRun mChanOut = Except.ok (mChanOut, false) :=
  ⟨by decide, rfl, (@claim_C6 mChan mChanOut true (by decide) rfl).1⟩
